import Mathlib

/-!
# gansible: playbook, task and role resolution

A shallow embedding of `internal/ansible` (`parseTasks`, `LoadRoleTasks`,
`LoadPlaybook`) together with theorems about the resolution engine.

Modelling conventions

* A decoded YAML value (`interface{}`) is a `Value`.  A Go
  `map[string]interface{}` is an association list; the order of the list is
  the order in which one `range` statement visits the map, which Go leaves
  unspecified, so every order is a possible run.  Keys of a Go map are unique
  (`KeysUnique`).
* One `Env` decodes a text to one list of records, so within one `Env` a file
  that is decoded again is visited in the same order again, whereas the
  program draws a new order at every `range`.  A statement about a file that
  is decoded more than once is therefore made under hypotheses that do not
  depend on the order of the keys.
* A Go slice is a `List`; the `nil` slice is `[]`.
* A Go `(value, error)` return is a pair `(value, Option GoError)`.
* The file system, the YAML decoder and `path/filepath` are not part of the
  repository; they are the fields of `Env`.
* Recursion through `include_tasks` follows the file system and need not
  terminate; `parseTasks` takes a `fuel` bounding the include nesting depth
  and answers `none` when the bound is exceeded.
-/

namespace Gansible

/-! ## Data model -/

/-- Decoded YAML value, the dynamic types the decoder stores in `interface{}`.
A mapping all of whose keys are strings is stored as a
`map[string]interface{}` (`map`); a mapping with a key that is not a string is
stored as a `map[interface{}]interface{}` (`imap`), on which every type
assertion to `map[string]interface{}` fails. -/
inductive Value where
  | null
  | bool (b : Bool)
  | int (n : Int)
  | float (text : String)
  | str (s : String)
  | seq (items : List Value)
  | map (entries : List (String × Value))
  | imap (entries : List (Value × Value))

/-- Go `map[string]interface{}`, in the order a `range` visits it. -/
abbrev Record := List (String × Value)

/-- Go `error`: `newError` is an error without a cause (`fmt.Errorf` with no
`%w`, or an error of a library), `wrapError` one made by `fmt.Errorf` with `%w`. -/
inductive GoError where
  | newError (msg : String)
  | wrapError (msg : String) (cause : GoError)
deriving DecidableEq

/-- The text of `err.Error()`. -/
def GoError.Error : GoError → String
  | .newError msg => msg
  | .wrapError msg _ => msg

/-- The result of `errors.Unwrap(err)`. -/
def GoError.Unwrap : GoError → Option GoError
  | .newError _ => none
  | .wrapError _ cause => some cause

/-- Task of `types.go`. -/
structure Task where
  Name : String
  Module : String
  RawArgs : Record
  Vars : Record
  Loop : String
  Source : String

/-- Play of `types.go`. -/
structure Play where
  Name : String
  Hosts : String
  Tasks : List Task

/-- A Go `(slice, error)` return value. -/
abbrev Returned (α : Type) := List α × Option GoError

/-- What the repository takes from outside: `os.ReadFile`, `yaml.Unmarshal`
into `[]map[string]interface{}`, `filepath.Dir`, `filepath.Join`,
`unicode.IsPrint` (used by the `%q` verb) and the `%+v` rendering of a map. -/
structure Env where
  ReadFile : String → Except GoError String
  Unmarshal : String → Except GoError (List Record)
  Dir : String → String
  Join : List String → String
  IsPrint : Char → Bool
  FormatV : Record → String

/-! ## Helpers -/

/-- Index expression `m[k]` of a Go map: the value stored, `nil` when absent. -/
def mapIndex (m : Record) (k : String) : Value :=
  match m.find? (fun kv => kv.1 = k) with
  | some kv => kv.2
  | none => Value.null

/-- Modelled from the spec: `safeString` is called by `parseTasks` and
`LoadPlaybook` but its file is not among the sources; the spec gives it as
"empty string if absent or non-string". -/
def safeString : Value → String
  | .str s => s
  | _ => ""

/-- Hexadecimal digit of `strconv`, lower case. -/
def hexDigit (n : Nat) : Char :=
  if n < 10 then Char.ofNat (48 + n) else Char.ofNat (87 + n)

/-- The `width` lowest hexadecimal digits of `n`, most significant first. -/
def hexDigits : Nat → Nat → List Char
  | 0, _ => []
  | width + 1, n => hexDigits width (n / 16) ++ [hexDigit (n % 16)]

/-- The function `appendEscapedRune` of `strconv` for the quote `"`, as
`strconv.Quote` calls it (not ASCII-only, not graphic-only). -/
def escapeRune (isPrint : Char → Bool) (r : Char) : List Char :=
  if r = '"' ∨ r = '\\' then ['\\', r]
  else if isPrint r then [r]
  else if r.toNat = 7 then ['\\', 'a']
  else if r.toNat = 8 then ['\\', 'b']
  else if r.toNat = 12 then ['\\', 'f']
  else if r.toNat = 10 then ['\\', 'n']
  else if r.toNat = 13 then ['\\', 'r']
  else if r.toNat = 9 then ['\\', 't']
  else if r.toNat = 11 then ['\\', 'v']
  else if r.toNat < 32 ∨ r.toNat = 127 then '\\' :: 'x' :: hexDigits 2 r.toNat
  else if r.toNat < 65536 then '\\' :: 'u' :: hexDigits 4 r.toNat
  else '\\' :: 'U' :: hexDigits 8 r.toNat

/-- The verb `%q` of `fmt` on a string, `strconv.Quote`. -/
def goQuote (isPrint : Char → Bool) (s : String) : String :=
  String.mk ('"' :: (s.data.flatMap (escapeRune isPrint) ++ ['"']))

/-! ## parseTasks -/

/-- How the `for k, v := range taskMap` loop of `parseTasks` ends. -/
inductive KeyLoop where
  | done (task : Task)
  | nextTask (includedTasks : List Task)
  | returned (err : GoError)

/-- The key test of the `include_tasks` case of the switch. -/
def isIncludeTasksKey (k : String) : Bool :=
  k = "include_tasks" || k = "ansible.builtin.include_tasks"

/-- The loop `for k, v := range taskMap` of `parseTasks`, from the entries not
yet visited and the task built so far.  `recurse` is the recursive call
`parseTasks(includedRaw, fullPath, rolesPath)`; `none` is a run that does not
return. -/
def rangeTaskMap (env : Env) (recurse : List Record → String → Option (Returned Task))
    (baseDir : String) : Record → Task → Option KeyLoop
  | [], task => some (.done task)
  | (k, v) :: rest, task =>
    if k = "name" then
      rangeTaskMap env recurse baseDir rest task
    else if k = "vars" then
      match v with
      | .map varMap => rangeTaskMap env recurse baseDir rest { task with Vars := varMap }
      | _ => rangeTaskMap env recurse baseDir rest task
    else if k = "loop" then
      match v with
      | .str loopStr => rangeTaskMap env recurse baseDir rest { task with Loop := loopStr }
      | _ => rangeTaskMap env recurse baseDir rest task
    else if isIncludeTasksKey k then
      match v with
      | .str includePath =>
        let fullPath := env.Join [baseDir, includePath]
        match env.ReadFile fullPath with
        | .error err =>
          some (.returned (.wrapError
            ("failed to read included task file " ++ fullPath ++ ": " ++ err.Error) err))
        | .ok data =>
          match env.Unmarshal data with
          | .error err =>
            some (.returned (.wrapError
              ("failed to parse included task file " ++ fullPath ++ ": " ++ err.Error) err))
          | .ok includedRaw =>
            match recurse includedRaw fullPath with
            | none => none
            | some (_, some err) => some (.returned err)
            | some (includedTasks, none) => some (.nextTask includedTasks)
      | _ => some (.returned (.newError "include_tasks path must be a string"))
    else
      rangeTaskMap env recurse baseDir rest
        { task with
          Module := k
          RawArgs := match v with
            | .map val => val
            | _ => [("__value__", v)] }

/-- The task a record starts from, the composite literal at the head of the
loop body. -/
def initialTask (taskMap : Record) (sourcePath : String) : Task :=
  { Name := safeString (mapIndex taskMap "name")
    Module := ""
    RawArgs := []
    Vars := []
    Loop := ""
    Source := sourcePath }

/-- The loop `for _, taskMap := range rawTasks` of `parseTasks`, from the
records not yet visited and the slice `tasks` built so far. -/
def rangeRawTasks (env : Env) (recurse : List Record → String → Option (Returned Task))
    (sourcePath baseDir : String) : List Record → List Task → Option (Returned Task)
  | [], tasks => some (tasks, none)
  | taskMap :: rest, tasks =>
    match rangeTaskMap env recurse baseDir taskMap (initialTask taskMap sourcePath) with
    | none => none
    | some (.returned err) => some ([], some err)
    | some (.nextTask includedTasks) =>
      rangeRawTasks env recurse sourcePath baseDir rest (tasks ++ includedTasks)
    | some (.done task) =>
      rangeRawTasks env recurse sourcePath baseDir rest (tasks ++ [task])

/-- The function `parseTasks`.  `fuel` bounds the depth of nested
`include_tasks`: a recursive call made with no fuel left does not return. -/
def parseTasks (env : Env) : Nat → List Record → String → String → Option (Returned Task)
  | 0, rawTasks, sourcePath, _ =>
    rangeRawTasks env (fun _ _ => none) sourcePath (env.Dir sourcePath) rawTasks []
  | fuel + 1, rawTasks, sourcePath, rolesPath =>
    rangeRawTasks env (fun includedRaw fullPath => parseTasks env fuel includedRaw fullPath rolesPath)
      sourcePath (env.Dir sourcePath) rawTasks []

/-! ## LoadRoleTasks -/

/-- The path `tasksPath` computed by `LoadRoleTasks`. -/
def roleTasksPath (env : Env) (roleName rolesPath : String) : String :=
  env.Join [env.Join [rolesPath, roleName], "tasks", "main.yml"]

/-- The function `LoadRoleTasks`. -/
def LoadRoleTasks (env : Env) (fuel : Nat) (roleName rolesPath : String) :
    Option (Returned Task) :=
  let tasksPath := roleTasksPath env roleName rolesPath
  match env.ReadFile tasksPath with
  | .error err => some ([], some (.wrapError ("failed to read role tasks: " ++ err.Error) err))
  | .ok data =>
    match env.Unmarshal data with
    | .error err => some ([], some (.wrapError ("failed to parse tasks YAML: " ++ err.Error) err))
    | .ok rawTasks => parseTasks env fuel rawTasks tasksPath rolesPath

/-! ## LoadPlaybook -/

/-- The test `task.Module == "include_role" || task.Module == "ansible.builtin.include_role"`. -/
def isIncludeRole (task : Task) : Bool :=
  task.Module = "include_role" || task.Module = "ansible.builtin.include_role"

/-- The loop `for _, task := range parsedTasks` of `LoadPlaybook`, from the
tasks not yet visited and `play.Tasks` built so far. -/
def rangeParsedTasks (env : Env) (fuel : Nat) (rolesPath : String) :
    List Task → List Task → Option (Returned Task)
  | [], playTasks => some (playTasks, none)
  | task :: rest, playTasks =>
    if isIncludeRole task then
      let roleName := safeString (mapIndex task.RawArgs "name")
      if roleName = "" then
        some ([], some (.newError
          ("include_role task is missing 'name': " ++ env.FormatV task.RawArgs)))
      else
        match LoadRoleTasks env fuel roleName rolesPath with
        | none => none
        | some (_, some err) =>
          some ([], some (.wrapError
            ("failed to load role " ++ goQuote env.IsPrint roleName ++ ": " ++ err.Error) err))
        | some (roleTasks, none) =>
          rangeParsedTasks env fuel rolesPath rest (playTasks ++ roleTasks)
    else
      rangeParsedTasks env fuel rolesPath rest (playTasks ++ [task])

/-- The loop `for _, t := range rawTasks` of `LoadPlaybook`: the elements that
are mappings, in order. -/
def rawTaskMaps : List Value → List Record
  | [] => []
  | .map tm :: rest => tm :: rawTaskMaps rest
  | _ :: rest => rawTaskMaps rest

/-- The loop `for _, rawPlay := range rawPlays` of `LoadPlaybook`, from the
play records not yet visited and `parsedPlays` built so far. -/
def rangeRawPlays (env : Env) (fuel : Nat) (playbookPath rolesPath : String) :
    List Record → List Play → Option (Returned Play)
  | [], parsedPlays => some (parsedPlays, none)
  | rawPlay :: rest, parsedPlays =>
    match mapIndex rawPlay "tasks" with
    | .seq rawTasks =>
      match parseTasks env fuel (rawTaskMaps rawTasks) playbookPath rolesPath with
      | none => none
      | some (_, some err) => some ([], some err)
      | some (parsedTasks, none) =>
        match rangeParsedTasks env fuel rolesPath parsedTasks [] with
        | none => none
        | some (_, some err) => some ([], some err)
        | some (playTasks, none) =>
          rangeRawPlays env fuel playbookPath rolesPath rest
            (parsedPlays ++ [{ Name := safeString (mapIndex rawPlay "name")
                               Hosts := safeString (mapIndex rawPlay "hosts")
                               Tasks := playTasks }])
    | _ => rangeRawPlays env fuel playbookPath rolesPath rest parsedPlays

/-- The function `LoadPlaybook`. -/
def LoadPlaybook (env : Env) (fuel : Nat) (data playbookPath rolesPath : String) :
    Option (Returned Play) :=
  match env.Unmarshal data with
  | .error err => some ([], some (.wrapError ("failed to parse YAML: " ++ err.Error) err))
  | .ok rawPlays => rangeRawPlays env fuel playbookPath rolesPath rawPlays []

/-! ## Vocabulary of the properties -/

/-- Keys of a Go map are pairwise different. -/
def KeysUnique (r : Record) : Prop := (r.map Prod.fst).Nodup

instance instDecidableKeysUnique (r : Record) : Decidable (KeysUnique r) := by
  unfold KeysUnique; infer_instance

/-- The record has an `include_tasks` or `ansible.builtin.include_tasks` key. -/
def hasIncludeTasksKey (r : Record) : Bool := r.any (fun kv => isIncludeTasksKey kv.1)

/-- The reserved directive keys listed by the data model of the specification. -/
def reservedKeys : List String :=
  ["name", "vars", "loop", "include_tasks", "ansible.builtin.include_tasks",
   "include_role", "ansible.builtin.include_role"]

/-- The keys of a record that are not reserved directive keys. -/
def nonReservedKeys (r : Record) : List String :=
  (r.map Prod.fst).filter (fun k => !(reservedKeys.contains k))

/-- A key that reaches the `default` case of the switch of `parseTasks`: any
key other than `name`, `vars`, `loop` and the two `include_tasks` keys. -/
def isModuleKey (k : String) : Bool :=
  !(k = "name" || k = "vars" || k = "loop" || isIncludeTasksKey k)

/-- The entries of a record whose key reaches the `default` case. -/
def moduleEntries (r : Record) : Record := r.filter (fun kv => isModuleKey kv.1)

/-- The argument map a module value stands for: the value itself when it is a
mapping, the one-entry mapping under `__value__` otherwise. -/
def moduleArgs (v : Value) : Record :=
  match v with
  | .map val => val
  | _ => [("__value__", v)]

/-- The `vars` of a record: its `vars` value when that is a mapping, else empty. -/
def recordVars (r : Record) : Record :=
  match mapIndex r "vars" with
  | .map varMap => varMap
  | _ => []

/-- The `loop` of a record: its `loop` value when that is a string, else empty. -/
def recordLoop (r : Record) : String :=
  match mapIndex r "loop" with
  | .str loopStr => loopStr
  | _ => ""

/-- The Task that mirrors a record whose module key is `k`. -/
def taskOfRecord (r : Record) (k : String) (sourcePath : String) : Task :=
  { Name := safeString (mapIndex r "name")
    Module := k
    RawArgs := moduleArgs (mapIndex r k)
    Vars := recordVars r
    Loop := recordLoop r
    Source := sourcePath }

/-- The key of the first module entry of a record, `""` when there is none. -/
def moduleKey (r : Record) : String :=
  match moduleEntries r with
  | [] => ""
  | kv :: _ => kv.1

/-- One pass of the loop body of `rangeTaskMap` for a key outside the
`include_tasks` case. -/
def stepKey (task : Task) (kv : String × Value) : Task :=
  if kv.1 = "name" then task
  else if kv.1 = "vars" then
    match kv.2 with
    | .map varMap => { task with Vars := varMap }
    | _ => task
  else if kv.1 = "loop" then
    match kv.2 with
    | .str loopStr => { task with Loop := loopStr }
    | _ => task
  else { task with Module := kv.1, RawArgs := moduleArgs kv.2 }

/-- Putting the tasks already gathered in front of the result of the records left. -/
def prependTasks (acc : List Task) : Option (Returned Task) → Option (Returned Task)
  | none => none
  | some (ts, none) => some (acc ++ ts, none)
  | some (ts, some e) => some (ts, some e)

/-- The recursive call available to `parseTasks` run with `fuel`. -/
def recurseWith (env : Env) (rolesPath : String) :
    Nat → List Record → String → Option (Returned Task)
  | 0 => fun _ _ => none
  | fuel + 1 => fun includedRaw fullPath => parseTasks env fuel includedRaw fullPath rolesPath

/-- The first entry of a record, in visiting order, whose key is one of the two
`include_tasks` keys. -/
def firstInclude (r : Record) : Option (String × Value) :=
  r.find? (fun kv => isIncludeTasksKey kv.1)

/-- The body of the `include_tasks` case of the switch of `parseTasks` on the
value `v`, up to `goto nextTask`. -/
def includeOutcome (env : Env) (recurse : List Record → String → Option (Returned Task))
    (baseDir : String) (v : Value) : Option KeyLoop :=
  match v with
  | .str includePath =>
    match env.ReadFile (env.Join [baseDir, includePath]) with
    | .error err =>
      some (.returned (.wrapError
        ("failed to read included task file " ++ env.Join [baseDir, includePath] ++ ": "
          ++ err.Error) err))
    | .ok data =>
      match env.Unmarshal data with
      | .error err =>
        some (.returned (.wrapError
          ("failed to parse included task file " ++ env.Join [baseDir, includePath] ++ ": "
            ++ err.Error) err))
      | .ok includedRaw =>
        match recurse includedRaw (env.Join [baseDir, includePath]) with
        | none => none
        | some (_, some err) => some (.returned err)
        | some (includedTasks, none) => some (.nextTask includedTasks)
  | _ => some (.returned (.newError "include_tasks path must be a string"))

/-- What one record contributes to the output of a successful `parseTasks`
run with `fuel`: a record without include key its own Task, a record with an
include key the Tasks of the file that one of its include keys names. -/
def Contributes (env : Env) (fuel : Nat) (sourcePath rolesPath : String)
    (r : Record) (part : List Task) : Prop :=
  (hasIncludeTasksKey r = false → part = [r.foldl stepKey (initialTask r sourcePath)])
  ∧ (hasIncludeTasksKey r = true →
      ∃ k includePath data includedRaw fuel1,
        fuel = fuel1 + 1 ∧ (k, Value.str includePath) ∈ r ∧ isIncludeTasksKey k = true
        ∧ env.ReadFile (env.Join [env.Dir sourcePath, includePath]) = .ok data
        ∧ env.Unmarshal data = .ok includedRaw
        ∧ parseTasks env fuel1 includedRaw (env.Join [env.Dir sourcePath, includePath]) rolesPath
            = some (part, none))

/-- A loop that appends to a slice what `step` yields for each element in turn,
and returns `nil` and the error as soon as `step` yields an error; both loops
of `LoadPlaybook` have this shape. -/
def rangeLoop {α β : Type} (step : α → Option (Returned β)) :
    List α → List β → Option (Returned β)
  | [], acc => some (acc, none)
  | x :: rest, acc =>
    match step x with
    | none => none
    | some (_, some err) => some ([], some err)
    | some (part, none) => rangeLoop step rest (acc ++ part)

/-- One pass of the loop `for _, task := range parsedTasks` of `LoadPlaybook`:
what is appended to `play.Tasks`, or the error returned. -/
def inlineTask (env : Env) (fuel : Nat) (rolesPath : String) (task : Task) :
    Option (Returned Task) :=
  if isIncludeRole task then
    if safeString (mapIndex task.RawArgs "name") = "" then
      some ([], some (.newError
        ("include_role task is missing 'name': " ++ env.FormatV task.RawArgs)))
    else
      match LoadRoleTasks env fuel (safeString (mapIndex task.RawArgs "name")) rolesPath with
      | none => none
      | some (_, some err) =>
        some ([], some (.wrapError
          ("failed to load role "
            ++ goQuote env.IsPrint (safeString (mapIndex task.RawArgs "name")) ++ ": "
            ++ err.Error) err))
      | some (roleTasks, none) => some (roleTasks, none)
  else some ([task], none)

/-- One pass of the loop `for _, rawPlay := range rawPlays` of `LoadPlaybook`:
what is appended to `parsedPlays` (nothing after `continue`), or the error
returned. -/
def resolvePlay (env : Env) (fuel : Nat) (playbookPath rolesPath : String)
    (rawPlay : Record) : Option (Returned Play) :=
  match mapIndex rawPlay "tasks" with
  | .seq rawTasks =>
    match parseTasks env fuel (rawTaskMaps rawTasks) playbookPath rolesPath with
    | none => none
    | some (_, some err) => some ([], some err)
    | some (parsedTasks, none) =>
      match rangeParsedTasks env fuel rolesPath parsedTasks [] with
      | none => none
      | some (_, some err) => some ([], some err)
      | some (playTasks, none) =>
        some ([{ Name := safeString (mapIndex rawPlay "name")
                 Hosts := safeString (mapIndex rawPlay "hosts")
                 Tasks := playTasks }], none)
  | _ => some ([], none)

/-- What one Task of the Task Resolver's output becomes in its Play: a Task
that is not an `include_role` stays as it is, an `include_role` Task is replaced
by the output of `LoadRoleTasks` for the string under `name` in its RawArgs. -/
def Inlines (env : Env) (fuel : Nat) (rolesPath : String) (t : Task) (part : List Task) :
    Prop :=
  (isIncludeRole t = false → part = [t])
  ∧ (isIncludeRole t = true →
      ∃ roleName, mapIndex t.RawArgs "name" = Value.str roleName ∧ roleName ≠ ""
        ∧ LoadRoleTasks env fuel roleName rolesPath = some (part, none))

/-- The value under `tasks` of a play record is a sequence. -/
def hasTaskSequence (rawPlay : Record) : Bool :=
  match mapIndex rawPlay "tasks" with
  | .seq _ => true
  | _ => false

/-- The Play of a play record: its task records resolve without error to
`parsedTasks`, and the Play's Tasks are the concatenation, in order, of what
each of them becomes. -/
def PlayOf (env : Env) (fuel : Nat) (playbookPath rolesPath : String) (rawPlay : Record)
    (play : Play) : Prop :=
  ∃ rawTasks parsedTasks parts,
    mapIndex rawPlay "tasks" = Value.seq rawTasks
    ∧ parseTasks env fuel (rawTaskMaps rawTasks) playbookPath rolesPath
        = some (parsedTasks, none)
    ∧ List.Forall₂ (Inlines env fuel rolesPath) parsedTasks parts
    ∧ play = { Name := safeString (mapIndex rawPlay "name")
               Hosts := safeString (mapIndex rawPlay "hosts")
               Tasks := parts.flatten }

/-- The message of the error starts with `include_role task is missing 'name'`. -/
def MissingName (e : GoError) : Prop :=
  ∃ rest, e.Error = "include_role task is missing 'name'" ++ rest

/-- Every `include_role` Task of `tasks` that has a non-empty name names a role
that `LoadRoleTasks` loads without error. -/
def RolesLoad (env : Env) (fuel : Nat) (rolesPath : String) (tasks : List Task) : Prop :=
  ∀ u ∈ tasks, isIncludeRole u = true → safeString (mapIndex u.RawArgs "name") ≠ "" →
    ∃ roleTasks, LoadRoleTasks env fuel (safeString (mapIndex u.RawArgs "name")) rolesPath
      = some (roleTasks, none)

/-- The task records of the play record resolve without error and every named
role among the resulting Tasks loads without error. -/
def PlayLoads (env : Env) (fuel : Nat) (playbookPath rolesPath : String)
    (rawPlay : Record) : Prop :=
  ∀ rawTasks, mapIndex rawPlay "tasks" = Value.seq rawTasks →
    ∃ parsedTasks,
      parseTasks env fuel (rawTaskMaps rawTasks) playbookPath rolesPath
        = some (parsedTasks, none)
      ∧ RolesLoad env fuel rolesPath parsedTasks

/-- The message `msg` starts with `pre`. -/
def StartsWith (msg pre : String) : Prop := ∃ rest, msg = pre ++ rest

/-- The three errors `parseTasks` makes: a path that is not a string, an
include file that cannot be read, an include file that does not decode. -/
def IncludeError (err : GoError) : Prop :=
  err = .newError "include_tasks path must be a string"
  ∨ (∃ fullPath e, err = .wrapError
      ("failed to read included task file " ++ fullPath ++ ": " ++ GoError.Error e) e)
  ∨ (∃ fullPath e, err = .wrapError
      ("failed to parse included task file " ++ fullPath ++ ": " ++ GoError.Error e) e)

/-- The name and hosts of a Play are those of the play record. -/
def NamedAfter (rawPlay : Record) (play : Play) : Prop :=
  play.Name = safeString (mapIndex rawPlay "name")
    ∧ play.Hosts = safeString (mapIndex rawPlay "hosts")

/-- The elements of a sequence that are mappings with string keys only
(`map[string]interface{}`), in order: "the task records of a play" in the words
of the specification.  A mapping with a key that is not a string is no such
element. -/
def mappingElements (items : List Value) : List Record :=
  items.filterMap (fun v =>
    match v with
    | .map m => some m
    | _ => none)

/-- The Task `t` is the Task of a record without include key that stands in
`file`, and `file` is reached from the records `records` of `sourcePath`:
either it is `sourcePath` and the record is one of `records`, or one of
`records` has an include key with a string value, the file that value names
relative to the directory of `sourcePath` is read and decoded, and `t` is
reached in the same way from the records of that file. -/
inductive DefinedIn (env : Env) : List Record → String → Task → String → Prop where
  | own (records : List Record) (sourcePath : String) (r : Record) :
      r ∈ records → hasIncludeTasksKey r = false →
      DefinedIn env records sourcePath (r.foldl stepKey (initialTask r sourcePath)) sourcePath
  | inlined (records : List Record) (sourcePath : String) (r : Record)
      (k includePath data : String) (includedRaw : List Record) (t : Task) (file : String) :
      r ∈ records → (k, Value.str includePath) ∈ r → isIncludeTasksKey k = true →
      env.ReadFile (env.Join [env.Dir sourcePath, includePath]) = .ok data →
      env.Unmarshal data = .ok includedRaw →
      DefinedIn env includedRaw (env.Join [env.Dir sourcePath, includePath]) t file →
      DefinedIn env records sourcePath t file

/-- What one record contributes to a successful `parseTasks`, with its
provenance: the Task of a record without include key has the source path as
Source; the Tasks of a record with an include key are those of the nested call
on the file its string value names relative to the directory of the source
path, made with that joined path as source path. -/
def ContributesFrom (env : Env) (fuel : Nat) (sourcePath rolesPath : String)
    (r : Record) (part : List Task) : Prop :=
  (hasIncludeTasksKey r = false → ∃ t, part = [t] ∧ t.Source = sourcePath)
  ∧ (hasIncludeTasksKey r = true →
      ∃ k includePath data includedRaw fuel1,
        fuel = fuel1 + 1 ∧ (k, Value.str includePath) ∈ r ∧ isIncludeTasksKey k = true
        ∧ env.ReadFile (env.Join [env.Dir sourcePath, includePath]) = .ok data
        ∧ env.Unmarshal data = .ok includedRaw
        ∧ parseTasks env fuel1 includedRaw (env.Join [env.Dir sourcePath, includePath]) rolesPath
            = some (part, none))

/-- Two facts of `path/filepath`: `Dir` never returns the empty string, and
`Join` returns the empty string only when every element is empty. -/
def PathLaws (env : Env) : Prop :=
  (∀ p, env.Dir p ≠ "") ∧ (∀ parts, (∃ x ∈ parts, x ≠ "") → env.Join parts ≠ "")

/-- The keys that have a case of their own in the switch of `parseTasks`. -/
def switchKeys : List String :=
  ["name", "vars", "loop", "include_tasks", "ansible.builtin.include_tasks"]

/-- The entries of a record whose key is one of the two `include_tasks` keys. -/
def includeEntries (r : Record) : Record := r.filter (fun kv => isIncludeTasksKey kv.1)

/-- An include chain from the records `records` of `sourcePath`: the files
reached one from the other, each through an include key with a string value
in a record of the file before, resolved relative to the directory of that
file, read and decoded. -/
inductive Chain (env : Env) : List Record → String → List String → Prop where
  | nil (records : List Record) (sourcePath : String) : Chain env records sourcePath []
  | cons (records : List Record) (sourcePath : String) (r : Record)
      (k includePath data : String) (includedRaw : List Record) (rest : List String) :
      r ∈ records → (k, Value.str includePath) ∈ r → isIncludeTasksKey k = true →
      env.ReadFile (env.Join [env.Dir sourcePath, includePath]) = .ok data →
      env.Unmarshal data = .ok includedRaw →
      Chain env includedRaw (env.Join [env.Dir sourcePath, includePath]) rest →
      Chain env records sourcePath (env.Join [env.Dir sourcePath, includePath] :: rest)

/-- Putting the plays already gathered in front of the result of the play
records left. -/
def prependPlays (acc : List Play) : Option (Returned Play) → Option (Returned Play)
  | none => none
  | some (ps, none) => some (acc ++ ps, none)
  | some (ps, some e) => some (ps, some e)

/-- What one play record contributes to the output of a successful
`LoadPlaybook`: one Play, with the name and hosts of the record, when its
`tasks` value is a sequence, and nothing otherwise. -/
def YieldsPlays (rawPlay : Record) (part : List Play) : Prop :=
  (hasTaskSequence rawPlay = true → ∃ play, part = [play] ∧ NamedAfter rawPlay play)
  ∧ (hasTaskSequence rawPlay = false → part = [])

/-- Down to include depth `d`, every include key met from the records `records`
of `sourcePath` has a string value that names, relative to the directory of the
including file, a file that is read and decoded.  The property speaks of every
include key of a record, so it does not depend on the order in which the keys
of a record are visited. -/
def SoundIncludes (env : Env) : Nat → List Record → String → Prop
  | 0, _, _ => True
  | d + 1, records, sourcePath =>
    ∀ r ∈ records, ∀ kv ∈ includeEntries r,
      ∃ includePath data includedRaw,
        kv.2 = Value.str includePath
        ∧ env.ReadFile (env.Join [env.Dir sourcePath, includePath]) = .ok data
        ∧ env.Unmarshal data = .ok includedRaw
        ∧ SoundIncludes env d includedRaw (env.Join [env.Dir sourcePath, includePath])

/-- The recursive call `g` returns whatever the recursive call `f` returns. -/
def Extends (f g : List Record → String → Option (Returned Task)) : Prop :=
  ∀ raw path res, f raw path = some res → g raw path = some res

/-- The message of the error for an `include_tasks` value that is not a string. -/
def pathMustBeString : GoError := .newError "include_tasks path must be a string"

/-- A record whose first visited include key has a value that is not a string
is reached at include depth `d`: every record before it resolves without
error, and at each of the `d` levels above, the include that leads to it is
the first include key visited in its record, names a readable, decodable file,
and is itself reached. -/
inductive ReachesBadInclude (env : Env) (rolesPath : String) :
    Nat → List Record → String → Prop where
  | here (fuel : Nat) (before : List Record) (r : Record) (after : List Record)
      (sourcePath : String) (tasks : List Task) (kv : String × Value) :
      parseTasks env fuel before sourcePath rolesPath = some (tasks, none) →
      firstInclude r = some kv →
      (∀ s, kv.2 ≠ Value.str s) →
      ReachesBadInclude env rolesPath 0 (before ++ r :: after) sourcePath
  | deeper (fuel d : Nat) (before : List Record) (r : Record) (after : List Record)
      (sourcePath : String) (tasks : List Task) (k includePath data : String)
      (includedRaw : List Record) :
      parseTasks env fuel before sourcePath rolesPath = some (tasks, none) →
      firstInclude r = some (k, Value.str includePath) →
      env.ReadFile (env.Join [env.Dir sourcePath, includePath]) = .ok data →
      env.Unmarshal data = .ok includedRaw →
      ReachesBadInclude env rolesPath d includedRaw
        (env.Join [env.Dir sourcePath, includePath]) →
      ReachesBadInclude env rolesPath (d + 1) (before ++ r :: after) sourcePath

/-! ## Example inputs -/

/-- The directory of a slash-separated relative path; agrees with
`filepath.Dir` on clean relative paths. -/
def exampleDir (p : String) : String :=
  match ((p.data.reverse.dropWhile (fun c => !(c = '/'))).drop 1).reverse with
  | [] => "."
  | dir => String.mk dir

/-- Joins path elements with a slash, leaving out empty elements and `.`;
agrees with `filepath.Join` on clean relative elements. -/
def exampleJoin (parts : List String) : String :=
  match parts.filter (fun s => !(s = "" || s = ".")) with
  | [] => if parts.all (fun s => s = "") then "" else "."
  | first :: rest => rest.foldl (fun acc s => acc ++ "/" ++ s) first

/-- Printable ASCII, the part of `unicode.IsPrint` below U+0080. -/
def asciiIsPrint (c : Char) : Bool := 32 ≤ c.toNat && c.toNat < 127

/-- The `%+v` rendering of the empty map; the examples format no other map. -/
def exampleFormatV (r : Record) : String :=
  match r with
  | [] => "map[]"
  | _ => "map[...]"

/-- The record `- name: say hello` / `ansible.builtin.debug: {msg: hello}`. -/
def sayHello : Record :=
  [("name", .str "say hello"), ("ansible.builtin.debug", .map [("msg", .str "hello")])]

/-- The record `- name: run shell` / `ansible.builtin.shell: echo hello`
with `vars` and `loop`. -/
def runShell : Record :=
  [("ansible.builtin.shell", .str "echo hello"), ("loop", .str "items"),
   ("vars", .map [("message", .str "hello")]), ("name", .str "run shell")]

/-- A record with a module key and an `include_role` key, the module key
visited first. -/
def debugThenRole : Record :=
  [("ansible.builtin.debug", .map [("msg", .str "hi")]),
   ("include_role", .map [("name", .str "myrole")])]

/-- An environment over an in-memory file tree: `files` gives the content of
each readable path, `docs` the records each decodable content decodes to; a
read of another path fails as `os.ReadFile` does on a missing file, and any
other content fails to decode.  The message of the decode failure is an
example of a message of the decoder; the theorems hold for every message. -/
def memoryEnv (files : List (String × String)) (docs : List (String × List Record)) : Env :=
  { ReadFile := fun p =>
      match files.find? (fun f => f.1 = p) with
      | some f => .ok f.2
      | none => .error (.newError ("open " ++ p ++ ": no such file or directory"))
    Unmarshal := fun data =>
      match docs.find? (fun d => d.1 = data) with
      | some d => .ok d.2
      | none => .error (.newError "yaml: did not find expected key")
    Dir := exampleDir
    Join := exampleJoin
    IsPrint := asciiIsPrint
    FormatV := exampleFormatV }

/-- A file system without files. -/
def emptyEnv : Env := memoryEnv [] []

/-- The text of the task file `included.yml` of the tests. -/
def includedText : String :=
  "- name: included | say hi\n  ansible.builtin.debug:\n    msg: hi from included\n"

/-- The record of `included.yml`. -/
def sayHi : Record :=
  [("name", .str "included | say hi"),
   ("ansible.builtin.debug", .map [("msg", .str "hi from included")])]

/-- The record `- name: include real tasks` /
`ansible.builtin.include_tasks: included.yml`. -/
def includeReal : Record :=
  [("name", .str "include real tasks"), ("ansible.builtin.include_tasks", .str "included.yml")]

/-- The file tree of the tests: `included.yml` next to the playbook. -/
def testEnv : Env :=
  memoryEnv [("included.yml", includedText)] [(includedText, [sayHi])]

/-- The record `- name: bad include` / `ansible.builtin.include_tasks: {foo: bar}`. -/
def badInclude : Record :=
  [("name", .str "bad include"),
   ("ansible.builtin.include_tasks", .map [("foo", .str "bar")])]

/-- The text of an `included.yml` whose only record is `badInclude`. -/
def nestedBadText : String :=
  "- name: bad include\n  ansible.builtin.include_tasks:\n    foo: bar\n"

/-- The file tree of the test of a nested failure: `included.yml` holds a bad
include. -/
def nestedBadEnv : Env :=
  memoryEnv [("included.yml", nestedBadText)] [(nestedBadText, [badInclude])]

/-- A record with both include keys, `include_tasks: included.yml` visited
before `ansible.builtin.include_tasks: 5`. -/
def bothIncludes : Record :=
  [("include_tasks", .str "included.yml"), ("ansible.builtin.include_tasks", .int 5)]

/-- The record `- name: include file that does not exist` /
`ansible.builtin.include_tasks: not_here.yml`. -/
def includeMissing : Record :=
  [("name", .str "include file that does not exist"),
   ("ansible.builtin.include_tasks", .str "not_here.yml")]

/-- The text of the broken `included.yml` of the tests. -/
def brokenText : String :=
  "- name: bad\n  ansible.builtin.debug\n    msg: \"oops\n"

/-- The file tree of the test of an undecodable include. -/
def brokenEnv : Env := memoryEnv [("included.yml", brokenText)] []

/-- A record with both include keys, both strings: `included.yml`, which
exists, visited before `not_here.yml`, which does not. -/
def bothStrings : Record :=
  [("ansible.builtin.include_tasks", .str "included.yml"),
   ("include_tasks", .str "not_here.yml")]

/-- The record `- name: include role, short form` / `include_role: myrole`. -/
def shortFormRole : Record :=
  [("name", .str "include role, short form"), ("include_role", .str "myrole")]

/-- A play `test play` on `all` with a task and a short-form `include_role`. -/
def shortFormPlay : Record :=
  [("name", .str "test play"), ("hosts", .str "all"),
   ("tasks", .seq [.map sayHello, .map shortFormRole, .map runShell])]

/-- The text of a playbook that decodes to `shortFormPlay`. -/
def shortFormText : String :=
  "- name: test play\n  hosts: all\n  tasks:\n    - name: say hello\n      ansible.builtin.debug:\n        msg: hello\n    - name: include role, short form\n      include_role: myrole\n    - name: run shell\n      ansible.builtin.shell: echo hello\n      loop: items\n      vars:\n        message: hello\n"

/-- A file tree with no role, and the decoder of `shortFormText`. -/
def shortFormEnv : Env := memoryEnv [] [(shortFormText, [shortFormPlay])]

/-- The record `- name: include role that does not exist` with
`ansible.builtin.include_role: {name: not_a_real_role}`. -/
def includeMissingRole : Record :=
  [("name", .str "include role that does not exist"),
   ("ansible.builtin.include_role", .map [("name", .str "not_a_real_role")])]

/-- A play with a task and then the include of a role that does not exist. -/
def missingRolePlay : Record :=
  [("name", .str "test play"), ("hosts", .str "all"),
   ("tasks", .seq [.map sayHello, .map includeMissingRole])]

/-- The text of a playbook that decodes to `missingRolePlay`. -/
def missingRoleText : String :=
  "- name: test play\n  hosts: all\n  tasks:\n    - name: say hello\n      ansible.builtin.debug:\n        msg: hello\n    - name: include role that does not exist\n      ansible.builtin.include_role:\n        name: not_a_real_role\n"

/-- A file tree with no role, and the decoder of `missingRoleText`. -/
def missingRoleEnv : Env := memoryEnv [] [(missingRoleText, [missingRolePlay])]

/-- The include of the role `first_role`. -/
def includeFirstRole : Record :=
  [("name", .str "first"), ("ansible.builtin.include_role", .map [("name", .str "first_role")])]

/-- The include of the role `second_role`. -/
def includeSecondRole : Record :=
  [("name", .str "second"),
   ("ansible.builtin.include_role", .map [("name", .str "second_role")])]

/-- A play that includes `first_role` and then `second_role`. -/
def twoRolesPlay : Record :=
  [("name", .str "test play"), ("hosts", .str "all"),
   ("tasks", .seq [.map includeFirstRole, .map includeSecondRole])]

/-- The text of a playbook that decodes to `twoRolesPlay`. -/
def twoRolesText : String :=
  "- name: test play\n  hosts: all\n  tasks:\n    - name: first\n      ansible.builtin.include_role:\n        name: first_role\n    - name: second\n      ansible.builtin.include_role:\n        name: second_role\n"

/-- A file tree with no role, and the decoder of `twoRolesText`. -/
def twoRolesEnv : Env := memoryEnv [] [(twoRolesText, [twoRolesPlay])]

/-- A play that includes a role whose name holds a double quote, `my"role`. -/
def quotedRolePlay : Record :=
  [("name", .str "test play"), ("hosts", .str "all"),
   ("tasks", .seq [.map [("include_role", .map [("name", .str "my\"role")])]])]

/-- The text of a playbook that decodes to `quotedRolePlay`. -/
def quotedRoleText : String :=
  "- name: test play\n  hosts: all\n  tasks:\n    - include_role:\n        name: 'my\"role'\n"

/-- A file tree with no role, and the decoder of `quotedRoleText`. -/
def quotedRoleEnv : Env := memoryEnv [] [(quotedRoleText, [quotedRolePlay])]

/-- The text of `roles/myrole/tasks/main.yml` of the tests. -/
def roleText : String := "- name: role | main | test\n  ansible.builtin.debug:\n    msg: from role\n"

/-- The record of the task file of `myrole`. -/
def roleDebug : Record :=
  [("name", .str "role | main | test"),
   ("ansible.builtin.debug", .map [("msg", .str "from role")])]

/-- The record `- name: include real role` with
`ansible.builtin.include_role: {name: myrole}`. -/
def includeRealRole : Record :=
  [("name", .str "include real role"),
   ("ansible.builtin.include_role", .map [("name", .str "myrole")])]

/-- A play with a task, the include of `myrole`, and a task after it. -/
def rolePlay : Record :=
  [("name", .str "test play"), ("hosts", .str "all"),
   ("tasks", .seq [.map sayHello, .map includeRealRole, .map runShell])]

/-- The text of a playbook that decodes to `rolePlay`. -/
def rolePlayText : String :=
  "- name: test play\n  hosts: all\n  tasks:\n    - name: say hello\n      ansible.builtin.debug:\n        msg: hello\n    - name: include real role\n      ansible.builtin.include_role:\n        name: myrole\n    - name: run shell\n      ansible.builtin.shell: echo hello\n      loop: items\n      vars:\n        message: hello\n"

/-- The file tree of the test of a role that loads: the task file of `myrole`. -/
def roleEnv : Env :=
  memoryEnv [("roles/myrole/tasks/main.yml", roleText)]
    [(roleText, [roleDebug]), (rolePlayText, [rolePlay])]

/-- The file tree of the test of a role with a broken task file. -/
def badRoleEnv : Env := memoryEnv [("roles/badyaml/tasks/main.yml", brokenText)] []

/-- A play record whose `tasks` is the scalar `this is not a list`. -/
def badTasksPlay : Record :=
  [("name", .str "bad task play"), ("hosts", .str "all"),
   ("tasks", .str "this is not a list")]

/-- The text of the playbook of the test `invalid tasks type`. -/
def badTasksText : String := "- name: bad task play\n  hosts: all\n  tasks: this is not a list\n"

/-- The decoder of `badTasksText`, over an empty file tree. -/
def badTasksEnv : Env := memoryEnv [] [(badTasksText, [badTasksPlay])]

/-- A play `test play` on `all` with the single task `sayHello`. -/
def helloPlay : Record :=
  [("name", .str "test play"), ("hosts", .str "all"), ("tasks", .seq [.map sayHello])]

/-- A play record whose `tasks` is a mapping. -/
def mappingTasksPlay : Record :=
  [("name", .str "mapping play"), ("hosts", .str "db"),
   ("tasks", .map [("ansible.builtin.debug", .map [("msg", .str "hi")])])]

/-- The text of a playbook with `helloPlay`, `badTasksPlay` and `mappingTasksPlay`. -/
def threePlaysText : String :=
  "- name: test play\n  hosts: all\n  tasks:\n    - name: say hello\n      ansible.builtin.debug:\n        msg: hello\n- name: bad task play\n  hosts: all\n  tasks: this is not a list\n- name: mapping play\n  hosts: db\n  tasks:\n    ansible.builtin.debug:\n      msg: hi\n"

/-- The decoder of `threePlaysText`, over an empty file tree. -/
def threePlaysEnv : Env :=
  memoryEnv [] [(threePlaysText, [helloPlay, badTasksPlay, mappingTasksPlay])]

/-- A play whose second record has a bad `include_tasks`. -/
def badIncludePlay : Record :=
  [("name", .str "second play"), ("hosts", .str "all"),
   ("tasks", .seq [.map sayHello, .map badInclude])]

/-- The text of a playbook with `helloPlay` and then `badIncludePlay`. -/
def goodThenBadText : String :=
  "- name: test play\n  hosts: all\n  tasks:\n    - name: say hello\n      ansible.builtin.debug:\n        msg: hello\n- name: second play\n  hosts: all\n  tasks:\n    - name: say hello\n      ansible.builtin.debug:\n        msg: hello\n    - name: bad include\n      ansible.builtin.include_tasks:\n        foo: bar\n"

/-- The decoder of `goodThenBadText`, over an empty file tree. -/
def goodThenBadEnv : Env := memoryEnv [] [(goodThenBadText, [helloPlay, badIncludePlay])]

/-- A play whose `tasks` sequence holds a mapping, a string, a number and the
mapping `1: x`, whose key is not a string. -/
def mixedTasksPlay : Record :=
  [("name", .str "mixed play"), ("hosts", .str "all"),
   ("tasks", .seq [.map sayHello, .str "oops", .int 3, .imap [(.int 1, .str "x")]])]

/-- The text of a playbook with `helloPlay`, `mixedTasksPlay` and `badTasksPlay`. -/
def mixedTasksText : String :=
  "- name: test play\n  hosts: all\n  tasks:\n    - name: say hello\n      ansible.builtin.debug:\n        msg: hello\n- name: mixed play\n  hosts: all\n  tasks:\n    - name: say hello\n      ansible.builtin.debug:\n        msg: hello\n    - oops\n    - 3\n    - 1: x\n- name: bad task play\n  hosts: all\n  tasks: this is not a list\n"

/-- The decoder of `mixedTasksText`, over an empty file tree. -/
def mixedTasksEnv : Env :=
  memoryEnv [] [(mixedTasksText, [helloPlay, mixedTasksPlay, badTasksPlay])]

/-- A record whose `vars` is a string and whose `loop` is a sequence. -/
def oddVarsAndLoop : Record :=
  [("name", .str "odd"), ("vars", .str "not a mapping"),
   ("ansible.builtin.debug", .map [("msg", .str "hi")]),
   ("loop", .seq [.str "a", .str "b"])]

/-- The record `- name: int key` / `ansible.builtin.debug: {1: x}`: the module
value is a mapping whose key is the number 1. -/
def intKeyArgs : Record :=
  [("name", .str "int key"), ("ansible.builtin.debug", .imap [(.int 1, .str "x")])]

/-- A record whose `vars` is the mapping `1: x`, whose key is the number 1. -/
def intKeyVars : Record :=
  [("name", .str "int key vars"), ("vars", .imap [(.int 1, .str "x")]),
   ("ansible.builtin.debug", .map [("msg", .str "hi")])]

/-- The record `- include_tasks: tasks/outer.yml`. -/
def includeOuter : Record := [("include_tasks", .str "tasks/outer.yml")]

/-- The record `- include_tasks: inner.yml`. -/
def includeInner : Record := [("include_tasks", .str "inner.yml")]

/-- The own record of `outer.yml`. -/
def outerTask : Record :=
  [("name", .str "outer"), ("ansible.builtin.debug", .map [("msg", .str "outer")])]

/-- The record of `inner.yml`. -/
def innerTask : Record :=
  [("name", .str "inner"), ("ansible.builtin.debug", .map [("msg", .str "inner")])]

/-- The text of `outer.yml`: a task, then the include of `inner.yml`. -/
def outerText : String :=
  "- name: outer\n  ansible.builtin.debug:\n    msg: outer\n- include_tasks: inner.yml\n"

/-- The text of `inner.yml`. -/
def innerText : String :=
  "- name: inner\n  ansible.builtin.debug:\n    msg: inner\n"

/-- A file tree with `site/tasks/outer.yml`, which includes `inner.yml`, and
`site/tasks/inner.yml`. -/
def nestedEnv : Env :=
  memoryEnv [("site/tasks/outer.yml", outerText), ("site/tasks/inner.yml", innerText)]
    [(outerText, [outerTask, includeInner]), (innerText, [innerTask])]

/-- The record `- include_tasks: extra.yml`. -/
def includeExtra : Record := [("include_tasks", .str "extra.yml")]

/-- The record of `extra.yml`. -/
def extraTask : Record :=
  [("name", .str "extra"), ("ansible.builtin.debug", .map [("msg", .str "extra")])]

/-- The text of a role task file with a task and the include of `extra.yml`. -/
def roleMainText : String :=
  "- name: role | main | test\n  ansible.builtin.debug:\n    msg: from role\n- include_tasks: extra.yml\n"

/-- The text of `extra.yml`. -/
def extraText : String :=
  "- name: extra\n  ansible.builtin.debug:\n    msg: extra\n"

/-- A file tree in which the task file of `myrole` includes `extra.yml`. -/
def roleIncludeEnv : Env :=
  memoryEnv [("roles/myrole/tasks/main.yml", roleMainText),
             ("roles/myrole/tasks/extra.yml", extraText)]
    [(roleMainText, [roleDebug, includeExtra]), (extraText, [extraTask]),
     (rolePlayText, [rolePlay])]

/-- The record `- include_role: {name: inner}`. -/
def includeInnerRole : Record := [("include_role", .map [("name", .str "inner")])]

/-- The text of a role task file with a task and an `include_role` record. -/
def roleWithRoleText : String :=
  "- name: role | main | test\n  ansible.builtin.debug:\n    msg: from role\n- include_role:\n    name: inner\n"

/-- A file tree in which the task file of `myrole` holds an `include_role`
record. -/
def roleWithRoleEnv : Env :=
  memoryEnv [("roles/myrole/tasks/main.yml", roleWithRoleText)]
    [(roleWithRoleText, [roleDebug, includeInnerRole]), (rolePlayText, [rolePlay])]

/-- A record with the two module keys `ansible.builtin.debug` and
`ansible.builtin.shell`, visited in that order. -/
def debugThenShell : Record :=
  [("name", .str "two modules"), ("ansible.builtin.debug", .map [("msg", .str "hi")]),
   ("ansible.builtin.shell", .str "echo hi")]

/-- The same record as `debugThenShell`, its keys visited in another order. -/
def shellThenDebug : Record :=
  [("ansible.builtin.shell", .str "echo hi"), ("name", .str "two modules"),
   ("ansible.builtin.debug", .map [("msg", .str "hi")])]

/-- The record `includeReal` with `vars`, `loop` and a module key added. -/
def includeRealDressed : Record :=
  [("vars", .map [("message", .str "hello")]), ("name", .str "another name"),
   ("ansible.builtin.include_tasks", .str "included.yml"), ("loop", .str "items"),
   ("ansible.builtin.debug", .map [("msg", .str "never used")])]

/-- The include of `myrole` under the short key, with another name, `vars`,
`loop` and a further argument. -/
def includeRealRoleDressed : Record :=
  [("loop", .str "items"), ("name", .str "another name"),
   ("include_role", .map [("tasks_from", .str "main"), ("name", .str "myrole")]),
   ("vars", .map [("message", .str "hello")])]

/-- The play `rolePlay` with `includeRealRoleDressed` for `includeRealRole`. -/
def rolePlayDressed : Record :=
  [("name", .str "test play"), ("hosts", .str "all"),
   ("tasks", .seq [.map sayHello, .map includeRealRoleDressed, .map runShell])]

/-- The text of a playbook that decodes to `rolePlayDressed`. -/
def rolePlayDressedText : String :=
  "- name: test play\n  hosts: all\n  tasks:\n    - name: say hello\n      ansible.builtin.debug:\n        msg: hello\n    - name: another name\n      include_role:\n        name: myrole\n        tasks_from: main\n      vars:\n        message: hello\n      loop: items\n    - name: run shell\n      ansible.builtin.shell: echo hello\n      loop: items\n      vars:\n        message: hello\n"

/-- The file tree of `roleEnv`, with the decoder of both playbooks. -/
def twoPlaybooksEnv : Env :=
  memoryEnv [("roles/myrole/tasks/main.yml", roleText)]
    [(roleText, [roleDebug]), (rolePlayText, [rolePlay]),
     (rolePlayDressedText, [rolePlayDressed])]

/-- The record `- name: include role without name` with
`ansible.builtin.include_role: {}`. -/
def includeRoleEmpty : Record :=
  [("name", .str "include role without name"), ("ansible.builtin.include_role", .map [])]

/-- A play with a nameless `include_role` and, after it, a bad `include_tasks`. -/
def roleThenBadIncludePlay : Record :=
  [("name", .str "test play"), ("hosts", .str "all"),
   ("tasks", .seq [.map includeRoleEmpty, .map sayHello, .map badInclude])]

/-- The text of a playbook that decodes to `roleThenBadIncludePlay`. -/
def roleThenBadIncludeText : String :=
  "- name: test play\n  hosts: all\n  tasks:\n    - name: include role without name\n      ansible.builtin.include_role: \x7b\x7d\n    - name: say hello\n      ansible.builtin.debug:\n        msg: hello\n    - name: bad include\n      ansible.builtin.include_tasks:\n        foo: bar\n"

/-- The decoder of `roleThenBadIncludeText`, over an empty file tree. -/
def roleThenBadIncludeEnv : Env :=
  memoryEnv [] [(roleThenBadIncludeText, [roleThenBadIncludePlay])]

/-- A play whose only task is a nameless `include_role`. -/
def roleEmptyPlay : Record :=
  [("name", .str "first play"), ("hosts", .str "all"), ("tasks", .seq [.map includeRoleEmpty])]

/-- The text of a playbook with `roleEmptyPlay` and then `roleThenBadIncludePlay`. -/
def twoFailingPlaysText : String :=
  "- name: first play\n  hosts: all\n  tasks:\n    - name: include role without name\n      ansible.builtin.include_role: \x7b\x7d\n- name: test play\n  hosts: all\n  tasks:\n    - name: include role without name\n      ansible.builtin.include_role: \x7b\x7d\n    - name: say hello\n      ansible.builtin.debug:\n        msg: hello\n    - name: bad include\n      ansible.builtin.include_tasks:\n        foo: bar\n"

/-- The decoder of `twoFailingPlaysText`, over an empty file tree. -/
def twoFailingPlaysEnv : Env :=
  memoryEnv [] [(twoFailingPlaysText, [roleEmptyPlay, roleThenBadIncludePlay])]

/-- The record `- name: again` / `include_tasks: loop.yml`. -/
def includeLoop : Record := [("name", .str "again"), ("include_tasks", .str "loop.yml")]

/-- The text of `loop.yml`: a task, the include of `included.yml`, then the
include of `loop.yml` itself. -/
def loopText : String :=
  "- name: say hello\n  ansible.builtin.debug:\n    msg: hello\n- name: include real tasks\n  ansible.builtin.include_tasks: included.yml\n- name: again\n  include_tasks: loop.yml\n"

/-- A file tree in which `loop.yml` includes `included.yml` and then itself. -/
def loopEnv : Env :=
  memoryEnv [("loop.yml", loopText), ("included.yml", includedText)]
    [(loopText, [sayHello, includeReal, includeLoop]), (includedText, [sayHi])]

/-- A record with both include keys: `included.yml` is visited before
`self.yml`, the file the record stands in. -/
def bothSelf : Record :=
  [("ansible.builtin.include_tasks", .str "included.yml"), ("include_tasks", .str "self.yml")]

/-- The text of `self.yml`, which decodes to `bothSelf`. -/
def selfText : String := "- ansible.builtin.include_tasks: included.yml\n  include_tasks: self.yml\n"

/-- The record `- include_tasks: late.yml`. -/
def includeLate : Record := [("include_tasks", .str "late.yml")]

/-- The text of `late.yml`: a bad include, then the include of `late.yml` itself. -/
def lateText : String :=
  "- name: bad include\n  ansible.builtin.include_tasks:\n    foo: bar\n- include_tasks: late.yml\n"

/-- A file tree with `self.yml`, `late.yml` and `included.yml`. -/
def selfEnv : Env :=
  memoryEnv [("self.yml", selfText), ("late.yml", lateText), ("included.yml", includedText)]
    [(selfText, [bothSelf]), (lateText, [badInclude, includeLate]), (includedText, [sayHi])]

/-! # Theorems -/

/-! ## The key loop on a record without include key -/

theorem rangeTaskMap_noInclude (env : Env)
    (recurse : List Record → String → Option (Returned Task))
    (baseDir : String) (r : Record) (task : Task) (h : hasIncludeTasksKey r = false) :
    rangeTaskMap env recurse baseDir r task = some (.done (r.foldl stepKey task)) := by
  induction r generalizing task with
  | nil => rfl
  | cons kv rest ih =>
    obtain ⟨k, v⟩ := kv
    simp only [hasIncludeTasksKey, List.any_cons, Bool.or_eq_false_iff] at h
    have hrest : hasIncludeTasksKey rest = false := h.2
    have hk : isIncludeTasksKey k = false := h.1
    simp only [rangeTaskMap, List.foldl_cons, stepKey, hk]
    by_cases h1 : k = "name"
    · simp only [h1, if_true]; exact ih _ hrest
    · by_cases h2 : k = "vars"
      · simp only [h2, if_true]
        cases v <;> simp <;> exact ih _ hrest
      · by_cases h3 : k = "loop"
        · simp only [h3, if_true]
          cases v <;> simp <;> exact ih _ hrest
        · simp only [h1, h2, h3, if_false]
          simp only [Bool.false_eq_true, if_false]
          exact ih _ hrest

theorem rangeRawTasks_acc (env : Env) (recurse : List Record → String → Option (Returned Task))
    (sourcePath baseDir : String) (recs : List Record) (acc : List Task) :
    rangeRawTasks env recurse sourcePath baseDir recs acc
      = prependTasks acc (rangeRawTasks env recurse sourcePath baseDir recs []) := by
  induction recs generalizing acc with
  | nil => simp [rangeRawTasks, prependTasks]
  | cons r rest ih =>
    simp only [rangeRawTasks]
    cases hk : rangeTaskMap env recurse baseDir r (initialTask r sourcePath) with
    | none => simp [prependTasks]
    | some out =>
      cases out with
      | returned e => simp [prependTasks]
      | nextTask inc =>
        simp only
        rw [ih (acc ++ inc), ih ([] ++ inc)]
        cases rangeRawTasks env recurse sourcePath baseDir rest [] with
        | none => rfl
        | some res =>
          obtain ⟨ts, e⟩ := res
          cases e <;> simp [prependTasks]
      | done t =>
        simp only
        rw [ih (acc ++ [t]), ih ([] ++ [t])]
        cases rangeRawTasks env recurse sourcePath baseDir rest [] with
        | none => rfl
        | some res =>
          obtain ⟨ts, e⟩ := res
          cases e <;> simp [prependTasks]

theorem parseTasks_eq (env : Env) (fuel : Nat) (rawTasks : List Record)
    (sourcePath rolesPath : String) :
    parseTasks env fuel rawTasks sourcePath rolesPath
      = rangeRawTasks env (recurseWith env rolesPath fuel) sourcePath (env.Dir sourcePath)
          rawTasks [] := by
  cases fuel <;> rfl

/-! ## What the key loop leaves in each field -/

theorem foldl_stepKey_Name (r : Record) (task : Task) :
    (r.foldl stepKey task).Name = task.Name := by
  induction r generalizing task with
  | nil => rfl
  | cons kv rest ih =>
    rw [List.foldl_cons, ih]
    unfold stepKey
    split_ifs <;> try rfl
    all_goals split <;> rfl

theorem foldl_stepKey_Source (r : Record) (task : Task) :
    (r.foldl stepKey task).Source = task.Source := by
  induction r generalizing task with
  | nil => rfl
  | cons kv rest ih =>
    rw [List.foldl_cons, ih]
    unfold stepKey
    split_ifs <;> try rfl
    all_goals split <;> rfl

theorem foldl_stepKey_Vars_absent (r : Record) (task : Task)
    (h : ∀ kv ∈ r, kv.1 ≠ "vars") : (r.foldl stepKey task).Vars = task.Vars := by
  induction r generalizing task with
  | nil => rfl
  | cons kv rest ih =>
    rw [List.foldl_cons, ih _ (fun x hx => h x (List.mem_cons_of_mem _ hx))]
    have hk : kv.1 ≠ "vars" := h kv (List.mem_cons_self _ _)
    unfold stepKey
    split_ifs <;> try rfl
    all_goals split <;> rfl

theorem foldl_stepKey_Loop_absent (r : Record) (task : Task)
    (h : ∀ kv ∈ r, kv.1 ≠ "loop") : (r.foldl stepKey task).Loop = task.Loop := by
  induction r generalizing task with
  | nil => rfl
  | cons kv rest ih =>
    rw [List.foldl_cons, ih _ (fun x hx => h x (List.mem_cons_of_mem _ hx))]
    have hk : kv.1 ≠ "loop" := h kv (List.mem_cons_self _ _)
    unfold stepKey
    split_ifs <;> try rfl
    all_goals split <;> rfl

theorem keysUnique_cons {kv : String × Value} {rest : Record} (h : KeysUnique (kv :: rest)) :
    (∀ x ∈ rest, x.1 ≠ kv.1) ∧ KeysUnique rest := by
  unfold KeysUnique at h ⊢
  rw [List.map_cons, List.nodup_cons] at h
  refine ⟨fun x hx hxk => h.1 ?_, h.2⟩
  rw [← hxk]
  exact List.mem_map_of_mem Prod.fst hx

theorem mapIndex_cons_ne {k k1 : String} (v : Value) (rest : Record) (h : k1 ≠ k) :
    mapIndex ((k1, v) :: rest) k = mapIndex rest k := by
  simp [mapIndex, List.find?_cons, h]

theorem mapIndex_cons_eq (k : String) (v : Value) (rest : Record) :
    mapIndex ((k, v) :: rest) k = v := by
  simp [mapIndex, List.find?_cons]

theorem foldl_stepKey_Vars (r : Record) (task : Task) (hu : KeysUnique r) :
    (r.foldl stepKey task).Vars
      = (match mapIndex r "vars" with
         | .map varMap => varMap
         | _ => task.Vars) := by
  induction r generalizing task with
  | nil => rfl
  | cons kv rest ih =>
    obtain ⟨k, v⟩ := kv
    obtain ⟨hne, hrest⟩ := keysUnique_cons hu
    rw [List.foldl_cons]
    by_cases hk : k = "vars"
    · subst hk
      rw [foldl_stepKey_Vars_absent _ _ hne, mapIndex_cons_eq]
      cases v <;> simp [stepKey]
    · rw [ih _ hrest, mapIndex_cons_ne v rest hk]
      have : (stepKey task (k, v)).Vars = task.Vars := by
        unfold stepKey
        split_ifs <;> try rfl
        all_goals split <;> rfl
      rw [this]

theorem foldl_stepKey_Loop (r : Record) (task : Task) (hu : KeysUnique r) :
    (r.foldl stepKey task).Loop
      = (match mapIndex r "loop" with
         | .str loopStr => loopStr
         | _ => task.Loop) := by
  induction r generalizing task with
  | nil => rfl
  | cons kv rest ih =>
    obtain ⟨k, v⟩ := kv
    obtain ⟨hne, hrest⟩ := keysUnique_cons hu
    rw [List.foldl_cons]
    by_cases hk : k = "loop"
    · subst hk
      rw [foldl_stepKey_Loop_absent _ _ hne, mapIndex_cons_eq]
      cases v <;> simp [stepKey]
    · rw [ih _ hrest, mapIndex_cons_ne v rest hk]
      have : (stepKey task (k, v)).Loop = task.Loop := by
        unfold stepKey
        split_ifs <;> try rfl
        all_goals split <;> rfl
      rw [this]

theorem stepKey_not_module (task : Task) (k : String) (v : Value)
    (hm : isModuleKey k = false) (hi : isIncludeTasksKey k = false) :
    (stepKey task (k, v)).Module = task.Module ∧ (stepKey task (k, v)).RawArgs = task.RawArgs := by
  simp only [isModuleKey, hi, Bool.or_false, Bool.not_eq_false', Bool.or_eq_true,
    decide_eq_true_eq] at hm
  unfold stepKey
  rcases hm with (h | h) | h
  · simp [h]
  · subst h
    cases v <;> simp
  · subst h
    cases v <;> simp

theorem stepKey_module (task : Task) (k : String) (v : Value) (hm : isModuleKey k = true) :
    stepKey task (k, v) = { task with Module := k, RawArgs := moduleArgs v } := by
  simp only [isModuleKey, Bool.not_eq_true', Bool.or_eq_false_iff, decide_eq_false_iff_not] at hm
  obtain ⟨⟨⟨h1, h2⟩, h3⟩, _⟩ := hm
  simp [stepKey, h1, h2, h3]

theorem foldl_stepKey_noModule (r : Record) (task : Task)
    (hinc : hasIncludeTasksKey r = false) (hm : moduleEntries r = []) :
    (r.foldl stepKey task).Module = task.Module
      ∧ (r.foldl stepKey task).RawArgs = task.RawArgs := by
  induction r generalizing task with
  | nil => exact ⟨rfl, rfl⟩
  | cons kv rest ih =>
    obtain ⟨k, v⟩ := kv
    simp only [hasIncludeTasksKey, List.any_cons, Bool.or_eq_false_iff] at hinc
    by_cases hk : isModuleKey k = true
    · simp [moduleEntries, List.filter_cons, hk] at hm
    · have hk2 : isModuleKey k = false := by simpa using hk
      have hrest : moduleEntries rest = [] := by
        simpa [moduleEntries, List.filter_cons, hk2] using hm
      obtain ⟨a, b⟩ := ih (stepKey task (k, v)) hinc.2 hrest
      obtain ⟨c, d⟩ := stepKey_not_module task k v hk2 hinc.1
      rw [List.foldl_cons]
      exact ⟨a.trans c, b.trans d⟩

theorem foldl_stepKey_oneModule (r : Record) (task : Task) (k : String) (v : Value)
    (hinc : hasIncludeTasksKey r = false) (hm : moduleEntries r = [(k, v)]) :
    (r.foldl stepKey task).Module = k ∧ (r.foldl stepKey task).RawArgs = moduleArgs v := by
  induction r generalizing task with
  | nil => simp [moduleEntries] at hm
  | cons kv rest ih =>
    obtain ⟨k1, v1⟩ := kv
    simp only [hasIncludeTasksKey, List.any_cons, Bool.or_eq_false_iff] at hinc
    rw [List.foldl_cons]
    by_cases hk : isModuleKey k1 = true
    · simp only [moduleEntries, List.filter_cons, hk, if_true, List.cons.injEq,
        Prod.mk.injEq] at hm
      obtain ⟨⟨rfl, rfl⟩, hrest⟩ := hm
      obtain ⟨a, b⟩ := foldl_stepKey_noModule rest (stepKey task (k1, v1)) hinc.2 hrest
      rw [a, b, stepKey_module task k1 v1 hk]
      exact ⟨rfl, rfl⟩
    · have hk2 : isModuleKey k1 = false := by simpa using hk
      have hrest : moduleEntries rest = [(k, v)] := by
        simpa [moduleEntries, List.filter_cons, hk2] using hm
      exact ih (stepKey task (k1, v1)) hinc.2 hrest

theorem mapIndex_of_moduleEntries (r : Record) (k : String) (v : Value)
    (hm : moduleEntries r = [(k, v)]) : mapIndex r k = v := by
  induction r with
  | nil => simp [moduleEntries] at hm
  | cons kv rest ih =>
    obtain ⟨k1, v1⟩ := kv
    by_cases hk : isModuleKey k1 = true
    · simp only [moduleEntries, List.filter_cons, hk, if_true, List.cons.injEq,
        Prod.mk.injEq] at hm
      obtain ⟨⟨rfl, rfl⟩, _⟩ := hm
      exact mapIndex_cons_eq _ _ _
    · have hk2 : isModuleKey k1 = false := by simpa using hk
      have hrest : moduleEntries rest = [(k, v)] := by
        simpa [moduleEntries, List.filter_cons, hk2] using hm
      have hkm : isModuleKey k = true := by
        have : (k, v) ∈ moduleEntries rest := by rw [hrest]; exact List.mem_singleton_self _
        simpa using (List.mem_filter.mp this).2
      have hne : k1 ≠ k := by
        intro h; rw [h] at hk2; rw [hk2] at hkm; cases hkm
      rw [mapIndex_cons_ne v1 rest hne]
      exact ih hrest

theorem foldl_stepKey_single (r : Record) (k : String) (v : Value) (sourcePath : String)
    (hu : KeysUnique r) (hinc : hasIncludeTasksKey r = false)
    (hm : moduleEntries r = [(k, v)]) :
    r.foldl stepKey (initialTask r sourcePath) = taskOfRecord r k sourcePath := by
  have eta : ∀ t : Task, t = ⟨t.Name, t.Module, t.RawArgs, t.Vars, t.Loop, t.Source⟩ :=
    fun _ => rfl
  obtain ⟨hmod, hargs⟩ := foldl_stepKey_oneModule r (initialTask r sourcePath) k v hinc hm
  rw [eta (r.foldl stepKey (initialTask r sourcePath)), hmod, hargs, foldl_stepKey_Name,
    foldl_stepKey_Source, foldl_stepKey_Vars r _ hu, foldl_stepKey_Loop r _ hu,
    ← mapIndex_of_moduleEntries r k v hm]
  rfl

theorem moduleKey_of_moduleEntries (r : Record) (k : String) (v : Value)
    (hm : moduleEntries r = [(k, v)]) : moduleKey r = k := by
  simp [moduleKey, hm]

theorem rangeRawTasks_noInclude (env : Env)
    (recurse : List Record → String → Option (Returned Task))
    (sourcePath baseDir : String) (records : List Record)
    (h : ∀ r ∈ records, KeysUnique r ∧ hasIncludeTasksKey r = false
      ∧ (moduleEntries r).length = 1) :
    rangeRawTasks env recurse sourcePath baseDir records []
      = some (records.map (fun r => taskOfRecord r (moduleKey r) sourcePath), none) := by
  induction records with
  | nil => rfl
  | cons r rest ih =>
    obtain ⟨hu, hinc, hlen⟩ := h r (List.mem_cons_self _ _)
    obtain ⟨kv, hkv⟩ := List.length_eq_one.mp hlen
    obtain ⟨k, v⟩ := kv
    rw [rangeRawTasks, rangeTaskMap_noInclude env recurse baseDir r _ hinc]
    simp only
    rw [rangeRawTasks_acc, ih (fun x hx => h x (List.mem_cons_of_mem _ hx)),
      foldl_stepKey_single r k v sourcePath hu hinc hkv, List.map_cons,
      moduleKey_of_moduleEntries r k v hkv]
    rfl

/-- C1 (as amended): when no record has an `include_tasks` /
`ansible.builtin.include_tasks` key and every record has exactly one key other
than `name`, `vars` and `loop` (an `include_role` key counts as such a key),
`parseTasks` returns, without error and whatever the fuel, one Task per record
in record order; Task i has Module equal to that key of record i, RawArgs the
argument map of its value, Vars and Loop those of record i, and Source the
source path. -/
theorem parseTasks_mirrors_records (env : Env) (fuel : Nat) (records : List Record)
    (sourcePath rolesPath : String)
    (h : ∀ r ∈ records, KeysUnique r ∧ hasIncludeTasksKey r = false
      ∧ (moduleEntries r).length = 1) :
    parseTasks env fuel records sourcePath rolesPath
      = some (records.map (fun r => taskOfRecord r (moduleKey r) sourcePath), none) := by
  rw [parseTasks_eq]
  exact rangeRawTasks_noInclude env _ sourcePath _ records h

/-- Witness of C1 (as amended): the two example records, the second one with
`vars`, `loop` and a short-form module value. -/
theorem parseTasks_mirrors_records_witness :
    (∀ r ∈ [sayHello, runShell], KeysUnique r ∧ hasIncludeTasksKey r = false
      ∧ (moduleEntries r).length = 1)
    ∧ parseTasks emptyEnv 0 [sayHello, runShell] "playbook.yml" "roles"
      = some ([sayHello, runShell].map
          (fun r => taskOfRecord r (moduleKey r) "playbook.yml"), none) :=
  ⟨by decide, parseTasks_mirrors_records emptyEnv 0 [sayHello, runShell] "playbook.yml" "roles"
    (by decide)⟩

/-- C1 (counterexample): the record with keys `ansible.builtin.debug` and
`include_role` has no `include_tasks` key and exactly one non-reserved key,
`ansible.builtin.debug`; visited in that order, `parseTasks` gives it the Module
`include_role` and the arguments of `include_role`. -/
theorem parseTasks_module_is_reserved_key :
    (∀ r ∈ [debugThenRole], KeysUnique r ∧ hasIncludeTasksKey r = false
      ∧ nonReservedKeys r = ["ansible.builtin.debug"])
    ∧ (parseTasks emptyEnv 0 [debugThenRole] "playbook.yml" "roles").map
        (fun res => (res.1.map (fun t => (t.Module, t.RawArgs.map Prod.fst)), res.2))
      = some ([("include_role", ["name"])], none) := by
  decide

/-! ## The key loop in general -/

theorem isIncludeTasksKey_cases {k : String} (h : isIncludeTasksKey k = true) :
    k = "include_tasks" ∨ k = "ansible.builtin.include_tasks" := by
  simpa [isIncludeTasksKey] using h

theorem rangeTaskMap_cons_include (env : Env)
    (recurse : List Record → String → Option (Returned Task)) (baseDir : String)
    (k : String) (v : Value) (rest : Record) (task : Task) (hk : isIncludeTasksKey k = true) :
    rangeTaskMap env recurse baseDir ((k, v) :: rest) task
      = includeOutcome env recurse baseDir v := by
  have h1 : k ≠ "name" := by rcases isIncludeTasksKey_cases hk with h | h <;> rw [h] <;> decide
  have h2 : k ≠ "vars" := by rcases isIncludeTasksKey_cases hk with h | h <;> rw [h] <;> decide
  have h3 : k ≠ "loop" := by rcases isIncludeTasksKey_cases hk with h | h <;> rw [h] <;> decide
  simp only [rangeTaskMap, h1, h2, h3, hk, if_true, if_false, includeOutcome]

theorem rangeTaskMap_cons_other (env : Env)
    (recurse : List Record → String → Option (Returned Task)) (baseDir : String)
    (k : String) (v : Value) (rest : Record) (task : Task) (hk : isIncludeTasksKey k = false) :
    rangeTaskMap env recurse baseDir ((k, v) :: rest) task
      = rangeTaskMap env recurse baseDir rest (stepKey task (k, v)) := by
  simp only [rangeTaskMap, stepKey, hk]
  by_cases h1 : k = "name"
  · simp only [h1, if_true]
  · by_cases h2 : k = "vars"
    · simp only [h2, if_true]
      cases v <;> simp
    · by_cases h3 : k = "loop"
      · simp only [h3, if_true]
        cases v <;> simp
      · simp only [h1, h2, h3, if_false]
        simp only [Bool.false_eq_true, if_false]
        rfl

/-- The key loop is decided by the first include key visited: without one the
record is folded into a task, with one the include is run on its value. -/
theorem rangeTaskMap_eq (env : Env)
    (recurse : List Record → String → Option (Returned Task)) (baseDir : String)
    (r : Record) (task : Task) :
    rangeTaskMap env recurse baseDir r task
      = (match firstInclude r with
         | none => some (.done (r.foldl stepKey task))
         | some kv => includeOutcome env recurse baseDir kv.2) := by
  induction r generalizing task with
  | nil => rfl
  | cons kv rest ih =>
    obtain ⟨k, v⟩ := kv
    by_cases hk : isIncludeTasksKey k = true
    · rw [rangeTaskMap_cons_include env recurse baseDir k v rest task hk]
      simp [firstInclude, List.find?_cons, hk]
    · have hk2 : isIncludeTasksKey k = false := by simpa using hk
      rw [rangeTaskMap_cons_other env recurse baseDir k v rest task hk2, ih]
      simp [firstInclude, List.find?_cons, hk2]

theorem firstInclude_eq_none {r : Record} :
    firstInclude r = none ↔ hasIncludeTasksKey r = false := by
  simp [firstInclude, hasIncludeTasksKey, List.find?_eq_none]

theorem firstInclude_some {r : Record} {kv : String × Value} (h : firstInclude r = some kv) :
    kv ∈ r ∧ isIncludeTasksKey kv.1 = true := by
  unfold firstInclude at h
  exact ⟨List.mem_of_find?_eq_some h, by simpa using List.find?_some h⟩

theorem includeOutcome_nextTask {env : Env}
    {recurse : List Record → String → Option (Returned Task)} {baseDir : String} {v : Value}
    {ts : List Task} (h : includeOutcome env recurse baseDir v = some (.nextTask ts)) :
    ∃ includePath data includedRaw, v = .str includePath
      ∧ env.ReadFile (env.Join [baseDir, includePath]) = .ok data
      ∧ env.Unmarshal data = .ok includedRaw
      ∧ recurse includedRaw (env.Join [baseDir, includePath]) = some (ts, none) := by
  cases v with
  | str includePath =>
    simp only [includeOutcome] at h
    cases hr : env.ReadFile (env.Join [baseDir, includePath]) with
    | error e => rw [hr] at h; simp at h
    | ok data =>
      rw [hr] at h
      simp only at h
      cases hu : env.Unmarshal data with
      | error e => rw [hu] at h; simp at h
      | ok includedRaw =>
        rw [hu] at h
        simp only at h
        cases hrec : recurse includedRaw (env.Join [baseDir, includePath]) with
        | none => rw [hrec] at h; simp at h
        | some res =>
          obtain ⟨ts1, e⟩ := res
          rw [hrec] at h
          cases e with
          | some err => simp at h
          | none =>
            simp only [Option.some.injEq, KeyLoop.nextTask.injEq] at h
            exact ⟨includePath, data, includedRaw, rfl, hr, hu, by rw [hrec, h]⟩
  | _ => simp [includeOutcome] at h

theorem includeOutcome_not_done {env : Env}
    {recurse : List Record → String → Option (Returned Task)} {baseDir : String} {v : Value}
    {t : Task} : includeOutcome env recurse baseDir v ≠ some (.done t) := by
  intro h
  cases v with
  | str includePath =>
    simp only [includeOutcome] at h
    cases hr : env.ReadFile (env.Join [baseDir, includePath]) with
    | error e => rw [hr] at h; simp at h
    | ok data =>
      rw [hr] at h
      simp only at h
      cases hu : env.Unmarshal data with
      | error e => rw [hu] at h; simp at h
      | ok includedRaw =>
        rw [hu] at h
        simp only at h
        cases hrec : recurse includedRaw (env.Join [baseDir, includePath]) with
        | none => rw [hrec] at h; simp at h
        | some res =>
          obtain ⟨ts1, e⟩ := res
          rw [hrec] at h
          cases e <;> simp at h
  | _ => simp [includeOutcome] at h

/-! ## The record loop -/

theorem prependTasks_ok {acc tasks : List Task} {x : Option (Returned Task)}
    (h : prependTasks acc x = some (tasks, none)) :
    ∃ ts, x = some (ts, none) ∧ tasks = acc ++ ts := by
  cases x with
  | none => simp [prependTasks] at h
  | some res =>
    obtain ⟨ts, e⟩ := res
    cases e with
    | some err => simp [prependTasks] at h
    | none =>
      simp only [prependTasks, Option.some.injEq, Prod.mk.injEq, and_true] at h
      exact ⟨ts, rfl, h.symm⟩

theorem recurseWith_ok {env : Env} {rolesPath : String} {fuel : Nat} {raw : List Record}
    {path : String} {res : Returned Task}
    (h : recurseWith env rolesPath fuel raw path = some res) :
    ∃ fuel1, fuel = fuel1 + 1 ∧ parseTasks env fuel1 raw path rolesPath = some res := by
  cases fuel with
  | zero => simp [recurseWith] at h
  | succ n => exact ⟨n, rfl, h⟩

theorem rangeRawTasks_concat (env : Env) (fuel : Nat) (sourcePath rolesPath : String)
    (records : List Record) (tasks : List Task)
    (h : rangeRawTasks env (recurseWith env rolesPath fuel) sourcePath (env.Dir sourcePath)
      records [] = some (tasks, none)) :
    ∃ parts, List.Forall₂ (Contributes env fuel sourcePath rolesPath) records parts
      ∧ tasks = parts.flatten := by
  induction records generalizing tasks with
  | nil =>
    simp only [rangeRawTasks, Option.some.injEq, Prod.mk.injEq, and_true] at h
    exact ⟨[], List.Forall₂.nil, by simp [← h]⟩
  | cons r rest ih =>
    rw [rangeRawTasks, rangeTaskMap_eq] at h
    cases hf : firstInclude r with
    | none =>
      rw [hf] at h
      simp only at h
      rw [rangeRawTasks_acc] at h
      obtain ⟨ts, hts, htasks⟩ := prependTasks_ok h
      obtain ⟨parts, hparts, hflat⟩ := ih ts hts
      refine ⟨[r.foldl stepKey (initialTask r sourcePath)] :: parts,
        List.Forall₂.cons ⟨fun _ => rfl, fun hinc => ?_⟩ hparts, ?_⟩
      · rw [firstInclude_eq_none.mp hf] at hinc
        cases hinc
      · rw [htasks, hflat]
        simp
    | some kv =>
      rw [hf] at h
      simp only at h
      cases ho : includeOutcome env (recurseWith env rolesPath fuel) (env.Dir sourcePath) kv.2 with
      | none => rw [ho] at h; simp at h
      | some out =>
        rw [ho] at h
        cases out with
        | returned e => simp at h
        | done t => exact absurd ho includeOutcome_not_done
        | nextTask inc =>
          simp only at h
          rw [rangeRawTasks_acc] at h
          obtain ⟨ts, hts, htasks⟩ := prependTasks_ok h
          obtain ⟨parts, hparts, hflat⟩ := ih ts hts
          obtain ⟨includePath, data, includedRaw, hv, hread, hdec, hrec⟩ :=
            includeOutcome_nextTask ho
          obtain ⟨fuel1, hfuel, hparse⟩ := recurseWith_ok hrec
          obtain ⟨hmem, hkey⟩ := firstInclude_some hf
          refine ⟨inc :: parts, List.Forall₂.cons ⟨fun hinc => ?_, fun _ => ?_⟩ hparts, ?_⟩
          · rw [firstInclude_eq_none.mpr hinc] at hf
            cases hf
          · refine ⟨kv.1, includePath, data, includedRaw, fuel1, hfuel, ?_, hkey, hread, hdec,
              hparse⟩
            rw [← hv]
            exact hmem
          · rw [htasks, hflat]
            simp

/-- C2: the output of a successful `parseTasks` is the concatenation, in record
order, of one part per record; a record without include key contributes
exactly its own Task, a record with an include key contributes exactly the
Tasks that `parseTasks` returns for the file one of its include keys names
(read, decoded and resolved with one unit of fuel less) and no Task of its own. -/
theorem parseTasks_concatenates_contributions (env : Env) (fuel : Nat)
    (records : List Record) (sourcePath rolesPath : String) (tasks : List Task)
    (h : parseTasks env fuel records sourcePath rolesPath = some (tasks, none)) :
    ∃ parts, List.Forall₂ (Contributes env fuel sourcePath rolesPath) records parts
      ∧ tasks = parts.flatten := by
  rw [parseTasks_eq] at h
  exact rangeRawTasks_concat env fuel sourcePath rolesPath records tasks h

/-- Witness of C2: a task, the include of `included.yml`, and a task after it. -/
theorem parseTasks_concatenates_contributions_witness :
    parseTasks testEnv 1 [sayHello, includeReal, runShell] "playbook.yml" "roles"
        = some ([taskOfRecord sayHello "ansible.builtin.debug" "playbook.yml",
                 taskOfRecord sayHi "ansible.builtin.debug" "included.yml",
                 taskOfRecord runShell "ansible.builtin.shell" "playbook.yml"], none)
    ∧ ∃ parts, List.Forall₂ (Contributes testEnv 1 "playbook.yml" "roles")
          [sayHello, includeReal, runShell] parts
        ∧ [taskOfRecord sayHello "ansible.builtin.debug" "playbook.yml",
           taskOfRecord sayHi "ansible.builtin.debug" "included.yml",
           taskOfRecord runShell "ansible.builtin.shell" "playbook.yml"] = parts.flatten :=
  ⟨rfl, parseTasks_concatenates_contributions testEnv 1 [sayHello, includeReal, runShell]
    "playbook.yml" "roles" _ rfl⟩

/-! ## More fuel changes no result -/

theorem includeOutcome_mono {env : Env}
    {f g : List Record → String → Option (Returned Task)} (hfg : Extends f g)
    {baseDir : String} {v : Value} {out : KeyLoop}
    (h : includeOutcome env f baseDir v = some out) :
    includeOutcome env g baseDir v = some out := by
  cases v with
  | str includePath =>
    simp only [includeOutcome] at h ⊢
    cases hr : env.ReadFile (env.Join [baseDir, includePath]) with
    | error e => rw [hr] at h; exact h
    | ok data =>
      rw [hr] at h
      simp only at h ⊢
      cases hu : env.Unmarshal data with
      | error e => rw [hu] at h; exact h
      | ok includedRaw =>
        rw [hu] at h
        simp only at h ⊢
        cases hrec : f includedRaw (env.Join [baseDir, includePath]) with
        | none => rw [hrec] at h; simp at h
        | some res =>
          rw [hrec] at h
          rw [hfg _ _ _ hrec]
          exact h
  | _ => exact h

theorem rangeTaskMap_mono {env : Env}
    {f g : List Record → String → Option (Returned Task)} (hfg : Extends f g)
    {baseDir : String} {r : Record} {task : Task} {out : KeyLoop}
    (h : rangeTaskMap env f baseDir r task = some out) :
    rangeTaskMap env g baseDir r task = some out := by
  rw [rangeTaskMap_eq] at h ⊢
  cases hf : firstInclude r with
  | none => rw [hf] at h; exact h
  | some kv =>
    rw [hf] at h
    exact includeOutcome_mono hfg h

theorem rangeRawTasks_mono {env : Env}
    {f g : List Record → String → Option (Returned Task)} (hfg : Extends f g)
    {sourcePath baseDir : String} {records : List Record} {acc : List Task}
    {res : Returned Task}
    (h : rangeRawTasks env f sourcePath baseDir records acc = some res) :
    rangeRawTasks env g sourcePath baseDir records acc = some res := by
  induction records generalizing acc with
  | nil => exact h
  | cons r rest ih =>
    rw [rangeRawTasks] at h ⊢
    cases hk : rangeTaskMap env f baseDir r (initialTask r sourcePath) with
    | none => rw [hk] at h; simp at h
    | some out =>
      rw [hk] at h
      rw [rangeTaskMap_mono hfg hk]
      cases out with
      | returned e => exact h
      | nextTask inc => exact ih h
      | done t => exact ih h

theorem recurseWith_extends (env : Env) (rolesPath : String) (fuel : Nat) :
    Extends (recurseWith env rolesPath fuel) (recurseWith env rolesPath (fuel + 1)) := by
  induction fuel with
  | zero => intro raw path res h; simp [recurseWith] at h
  | succ n ih =>
    intro raw path res h
    simp only [recurseWith] at h ⊢
    rw [parseTasks_eq] at h ⊢
    exact rangeRawTasks_mono ih h

theorem parseTasks_mono {env : Env} {fuel fuel1 : Nat} {records : List Record}
    {sourcePath rolesPath : String} {res : Returned Task} (hle : fuel ≤ fuel1)
    (h : parseTasks env fuel records sourcePath rolesPath = some res) :
    parseTasks env fuel1 records sourcePath rolesPath = some res := by
  induction hle with
  | refl => exact h
  | step _ ih =>
    rw [parseTasks_eq] at ih ⊢
    exact rangeRawTasks_mono (recurseWith_extends env rolesPath _) ih

/-! ## The records before the one that decides -/

theorem rangeRawTasks_append (env : Env)
    (recurse : List Record → String → Option (Returned Task))
    (sourcePath baseDir : String) (before after : List Record) (acc tasks : List Task)
    (h : rangeRawTasks env recurse sourcePath baseDir before acc = some (tasks, none)) :
    rangeRawTasks env recurse sourcePath baseDir (before ++ after) acc
      = rangeRawTasks env recurse sourcePath baseDir after tasks := by
  induction before generalizing acc with
  | nil =>
    simp only [rangeRawTasks, Option.some.injEq, Prod.mk.injEq, and_true] at h
    rw [List.nil_append, h]
  | cons r rest ih =>
    rw [List.cons_append, rangeRawTasks]
    rw [rangeRawTasks] at h
    cases hk : rangeTaskMap env recurse baseDir r (initialTask r sourcePath) with
    | none => rw [hk] at h; simp at h
    | some out =>
      rw [hk] at h
      cases out with
      | returned e => simp at h
      | nextTask inc => exact ih _ h
      | done t => exact ih _ h

theorem rangeRawTasks_cons_returned (env : Env)
    (recurse : List Record → String → Option (Returned Task))
    (sourcePath baseDir : String) (r : Record) (after : List Record) (acc : List Task)
    (kv : String × Value) (err : GoError) (hf : firstInclude r = some kv)
    (ho : includeOutcome env recurse baseDir kv.2 = some (.returned err)) :
    rangeRawTasks env recurse sourcePath baseDir (r :: after) acc = some ([], some err) := by
  rw [rangeRawTasks, rangeTaskMap_eq, hf]
  simp only
  rw [ho]

theorem includeOutcome_not_string (env : Env)
    (recurse : List Record → String → Option (Returned Task)) (baseDir : String) (v : Value)
    (hv : ∀ s, v ≠ Value.str s) :
    includeOutcome env recurse baseDir v = some (.returned pathMustBeString) := by
  cases v with
  | str s => exact absurd rfl (hv s)
  | _ => rfl

theorem includeOutcome_recurse (env : Env)
    (recurse : List Record → String → Option (Returned Task)) (baseDir includePath : String)
    (data : String) (includedRaw : List Record)
    (hread : env.ReadFile (env.Join [baseDir, includePath]) = .ok data)
    (hdec : env.Unmarshal data = .ok includedRaw) :
    includeOutcome env recurse baseDir (.str includePath)
      = (match recurse includedRaw (env.Join [baseDir, includePath]) with
         | none => none
         | some (_, some err) => some (.returned err)
         | some (includedTasks, none) => some (.nextTask includedTasks)) := by
  simp only [includeOutcome, hread, hdec]

theorem parseTasks_fails_at (env : Env) (fuel : Nat) (before : List Record) (r : Record)
    (after : List Record) (sourcePath rolesPath : String) (tasks : List Task)
    (kv : String × Value) (err : GoError)
    (hbefore : parseTasks env fuel before sourcePath rolesPath = some (tasks, none))
    (hf : firstInclude r = some kv)
    (ho : includeOutcome env (recurseWith env rolesPath fuel) (env.Dir sourcePath) kv.2
      = some (.returned err)) :
    parseTasks env fuel (before ++ r :: after) sourcePath rolesPath = some ([], some err) := by
  rw [parseTasks_eq] at hbefore ⊢
  rw [rangeRawTasks_append env _ sourcePath _ before (r :: after) [] tasks hbefore]
  exact rangeRawTasks_cons_returned env _ sourcePath _ r after tasks kv err hf ho

/-- C4 (as amended): at every include depth `d`, when a record is reached whose
first visited include key (in particular its only include key) has a value
that is not a string, the top-level `parseTasks` returns, for every fuel from
some bound on, no tasks and the error `include_tasks path must be a string`
itself, an error without cause. -/
theorem parseTasks_bad_include_any_depth (env : Env) (rolesPath : String) (d : Nat)
    (records : List Record) (sourcePath : String)
    (h : ReachesBadInclude env rolesPath d records sourcePath) :
    ∃ fuel0, ∀ fuel, fuel0 ≤ fuel →
      parseTasks env fuel records sourcePath rolesPath
        = some ([], some (.newError "include_tasks path must be a string")) := by
  induction h with
  | here fuel0 before r after sourcePath tasks kv hbefore hf hv =>
    refine ⟨fuel0, fun fuel hle => ?_⟩
    exact parseTasks_fails_at env fuel before r after sourcePath rolesPath tasks kv _
      (parseTasks_mono hle hbefore) hf (includeOutcome_not_string env _ _ kv.2 hv)
  | deeper fuel0 d before r after sourcePath tasks k includePath data includedRaw hbefore hf
      hread hdec _ ih =>
    obtain ⟨fuel1, hfuel1⟩ := ih
    refine ⟨max fuel0 (fuel1 + 1), fun fuel hle => ?_⟩
    obtain ⟨n, rfl⟩ : ∃ n, fuel = n + 1 := ⟨fuel - 1, by omega⟩
    refine parseTasks_fails_at env (n + 1) before r after sourcePath rolesPath tasks _ _
      (parseTasks_mono (by omega) hbefore) hf ?_
    rw [includeOutcome_recurse env _ _ includePath data includedRaw hread hdec]
    simp only [recurseWith]
    rw [hfuel1 n (by omega)]

/-- Witness of C4 (as amended): the nested failure of the tests, a bad include
in `included.yml`, reached at depth 1 after one resolved record. -/
theorem parseTasks_bad_include_any_depth_witness :
    ReachesBadInclude nestedBadEnv "roles" 1 ([sayHello] ++ includeReal :: [runShell])
      "playbook.yml"
    ∧ ∃ fuel0, ∀ fuel, fuel0 ≤ fuel →
      parseTasks nestedBadEnv fuel ([sayHello] ++ includeReal :: [runShell]) "playbook.yml"
        "roles" = some ([], some (.newError "include_tasks path must be a string")) :=
  have reach : ReachesBadInclude nestedBadEnv "roles" 1
      ([sayHello] ++ includeReal :: [runShell]) "playbook.yml" :=
    .deeper 0 0 [sayHello] includeReal [runShell] "playbook.yml"
      [taskOfRecord sayHello "ansible.builtin.debug" "playbook.yml"]
      "ansible.builtin.include_tasks" "included.yml" nestedBadText [badInclude] rfl rfl rfl rfl
      (.here 0 [] badInclude [] "included.yml" []
        ("ansible.builtin.include_tasks", .map [("foo", .str "bar")]) rfl rfl
        (fun _ hs => Value.noConfusion hs))
  ⟨reach, parseTasks_bad_include_any_depth nestedBadEnv "roles" 1 _ "playbook.yml" reach⟩

/-- C4 (counterexample): the record `bothIncludes` has the key
`ansible.builtin.include_tasks` with the value 5, which is not a string, and
no record comes before it; visited after `include_tasks: included.yml`, that
key is never looked at and `parseTasks` returns the Task of `included.yml`
without error. -/
theorem parseTasks_second_include_key_ignored :
    KeysUnique bothIncludes
    ∧ bothIncludes.map Prod.fst = ["include_tasks", "ansible.builtin.include_tasks"]
    ∧ safeString (mapIndex bothIncludes "include_tasks") = "included.yml"
    ∧ (∀ s, mapIndex bothIncludes "ansible.builtin.include_tasks" ≠ Value.str s)
    ∧ (parseTasks testEnv 1 [bothIncludes] "playbook.yml" "roles").map
        (fun res => (res.1.map (fun t => (t.Name, t.Source)), res.2))
      = some ([("included | say hi", "included.yml")], none) :=
  ⟨by decide, by decide, by decide, fun _ hs => Value.noConfusion hs, by decide⟩

/-- C5 (as amended): when the records before `r` resolve without error and the
first include key that the key loop visits in `r` (in particular its only
include key) has the string value `includePath`, then with `fullPath` the join
of the directory of the source path and `includePath`: if `fullPath` cannot be
read, `parseTasks` returns no tasks and an error that wraps the read failure
with the message `failed to read included task file `, `fullPath`, `: ` and the
message of the read failure; if it is read but does not decode, the same with
`failed to parse included task file ` and the decode failure. -/
theorem parseTasks_include_file_errors (env : Env) (fuel : Nat) (before : List Record)
    (r : Record) (after : List Record) (sourcePath rolesPath : String) (tasks : List Task)
    (k includePath : String)
    (hbefore : parseTasks env fuel before sourcePath rolesPath = some (tasks, none))
    (hf : firstInclude r = some (k, Value.str includePath)) :
    (∀ e, env.ReadFile (env.Join [env.Dir sourcePath, includePath]) = .error e →
      parseTasks env fuel (before ++ r :: after) sourcePath rolesPath
        = some ([], some (.wrapError
            ("failed to read included task file "
              ++ env.Join [env.Dir sourcePath, includePath] ++ ": " ++ e.Error) e)))
    ∧ (∀ data e, env.ReadFile (env.Join [env.Dir sourcePath, includePath]) = .ok data →
      env.Unmarshal data = .error e →
      parseTasks env fuel (before ++ r :: after) sourcePath rolesPath
        = some ([], some (.wrapError
            ("failed to parse included task file "
              ++ env.Join [env.Dir sourcePath, includePath] ++ ": " ++ e.Error) e))) := by
  refine ⟨fun e hread => ?_, fun data e hread hdec => ?_⟩
  · refine parseTasks_fails_at env fuel before r after sourcePath rolesPath tasks _ _
      hbefore hf ?_
    simp only [includeOutcome, hread]
  · refine parseTasks_fails_at env fuel before r after sourcePath rolesPath tasks _ _
      hbefore hf ?_
    simp only [includeOutcome, hread, hdec]

/-- Witness of C5 (as amended): the missing file and the broken file of the
tests, each after one resolved record. -/
theorem parseTasks_include_file_errors_witness :
    parseTasks emptyEnv 0 ([sayHello] ++ includeMissing :: [runShell]) "playbook.yml" "roles"
      = some ([], some (.wrapError
          ("failed to read included task file " ++ "not_here.yml" ++ ": "
            ++ "open not_here.yml: no such file or directory")
          (.newError "open not_here.yml: no such file or directory")))
    ∧ parseTasks brokenEnv 0 ([sayHello] ++ includeReal :: [runShell]) "playbook.yml" "roles"
      = some ([], some (.wrapError
          ("failed to parse included task file " ++ "included.yml" ++ ": "
            ++ "yaml: did not find expected key")
          (.newError "yaml: did not find expected key"))) :=
  ⟨(parseTasks_include_file_errors emptyEnv 0 [sayHello] includeMissing [runShell]
      "playbook.yml" "roles" _ "ansible.builtin.include_tasks" "not_here.yml" rfl rfl).1
      (.newError "open not_here.yml: no such file or directory") rfl,
   (parseTasks_include_file_errors brokenEnv 0 [sayHello] includeReal [runShell]
      "playbook.yml" "roles" _ "ansible.builtin.include_tasks" "included.yml" rfl rfl).2
      brokenText (.newError "yaml: did not find expected key") rfl rfl⟩

/-- C5 (counterexample): two runs in which a record has a string-valued
`include_tasks` key whose file cannot be read and `parseTasks` does not return
the read error.  In `bothStrings` the other include key is visited first and
the call succeeds with the Task of `included.yml`; after the record
`badInclude` the call fails with the error of that earlier record. -/
theorem parseTasks_unreadable_include_not_reported :
    KeysUnique bothStrings
    ∧ safeString (mapIndex bothStrings "include_tasks") = "not_here.yml"
    ∧ testEnv.ReadFile (testEnv.Join [testEnv.Dir "playbook.yml", "not_here.yml"])
        = .error (.newError "open not_here.yml: no such file or directory")
    ∧ (parseTasks testEnv 1 [bothStrings] "playbook.yml" "roles").map
        (fun res => (res.1.map (fun t => (t.Name, t.Source)), res.2))
      = some ([("included | say hi", "included.yml")], none)
    ∧ (parseTasks testEnv 1 [badInclude, includeMissing] "playbook.yml" "roles").map
        (fun res => (res.1.length, res.2))
      = some (0, some (.newError "include_tasks path must be a string")) :=
  ⟨by decide, by decide, rfl, by decide, by decide⟩

/-! ## Loops that append or return an error -/

theorem rangeLoop_acc {α β : Type} (step : α → Option (Returned β)) (xs : List α)
    (acc : List β) :
    rangeLoop step xs acc
      = (match rangeLoop step xs [] with
         | none => none
         | some (out, none) => some (acc ++ out, none)
         | some (out, some e) => some (out, some e)) := by
  induction xs generalizing acc with
  | nil => simp [rangeLoop]
  | cons x rest ih =>
    simp only [rangeLoop]
    cases hs : step x with
    | none => rfl
    | some res =>
      obtain ⟨part, e⟩ := res
      cases e with
      | some err => rfl
      | none =>
        simp only
        rw [ih (acc ++ part), ih ([] ++ part)]
        cases rangeLoop step rest [] with
        | none => rfl
        | some res =>
          obtain ⟨out, e⟩ := res
          cases e <;> simp

theorem rangeLoop_ok_iff {α β : Type} (step : α → Option (Returned β)) (xs : List α)
    (out : List β) :
    rangeLoop step xs [] = some (out, none)
      ↔ ∃ parts, List.Forall₂ (fun x part => step x = some (part, none)) xs parts
          ∧ out = parts.flatten := by
  induction xs generalizing out with
  | nil =>
    simp only [rangeLoop, Option.some.injEq, Prod.mk.injEq, and_true]
    constructor
    · intro h; exact ⟨[], List.Forall₂.nil, by simp [← h]⟩
    · rintro ⟨parts, hparts, rfl⟩
      cases hparts
      rfl
  | cons x rest ih =>
    simp only [rangeLoop]
    constructor
    · intro h
      cases hs : step x with
      | none => rw [hs] at h; simp at h
      | some res =>
        obtain ⟨part, e⟩ := res
        rw [hs] at h
        cases e with
        | some err => simp at h
        | none =>
          simp only at h
          rw [rangeLoop_acc] at h
          cases hr : rangeLoop step rest [] with
          | none => rw [hr] at h; simp at h
          | some res =>
            obtain ⟨out1, e1⟩ := res
            rw [hr] at h
            cases e1 with
            | some err => simp at h
            | none =>
              simp only [List.nil_append, Option.some.injEq, Prod.mk.injEq, and_true] at h
              obtain ⟨parts, hparts, hflat⟩ := (ih out1).mp hr
              exact ⟨part :: parts, List.Forall₂.cons hs hparts, by simp [← h, hflat]⟩
    · rintro ⟨parts, hparts, rfl⟩
      cases hparts with
      | cons hx hrest =>
        rename_i part parts1
        rw [hx]
        simp only
        rw [rangeLoop_acc, (ih parts1.flatten).mpr ⟨parts1, hrest, rfl⟩]
        simp

theorem rangeLoop_fails_at {α β : Type} (step : α → Option (Returned β))
    (before : List α) (x : α) (after : List α) (part : List β) (err : GoError)
    (hbefore : ∀ y ∈ before, ∃ p, step y = some (p, none))
    (hx : step x = some (part, some err)) (acc : List β) :
    rangeLoop step (before ++ x :: after) acc = some ([], some err) := by
  induction before generalizing acc with
  | nil => simp [rangeLoop, hx]
  | cons y rest ih =>
    obtain ⟨p, hp⟩ := hbefore y (List.mem_cons_self _ _)
    rw [List.cons_append, rangeLoop, hp]
    exact ih (fun z hz => hbefore z (List.mem_cons_of_mem _ hz)) _

theorem rangeParsedTasks_eq (env : Env) (fuel : Nat) (rolesPath : String)
    (tasks acc : List Task) :
    rangeParsedTasks env fuel rolesPath tasks acc
      = rangeLoop (inlineTask env fuel rolesPath) tasks acc := by
  induction tasks generalizing acc with
  | nil => rfl
  | cons t rest ih =>
    rw [rangeParsedTasks, rangeLoop]
    unfold inlineTask
    by_cases hr : isIncludeRole t = true
    · simp only [hr, if_true]
      by_cases hn : safeString (mapIndex t.RawArgs "name") = ""
      · simp only [hn, if_true]
      · simp only [hn, if_false]
        cases hl : LoadRoleTasks env fuel (safeString (mapIndex t.RawArgs "name")) rolesPath with
        | none => rfl
        | some res =>
          obtain ⟨roleTasks, e⟩ := res
          cases e with
          | some err => rfl
          | none => exact ih _
    · simp only [hr, if_false, Bool.false_eq_true]
      exact ih _

theorem rangeRawPlays_eq (env : Env) (fuel : Nat) (playbookPath rolesPath : String)
    (rawPlays : List Record) (acc : List Play) :
    rangeRawPlays env fuel playbookPath rolesPath rawPlays acc
      = rangeLoop (resolvePlay env fuel playbookPath rolesPath) rawPlays acc := by
  induction rawPlays generalizing acc with
  | nil => rfl
  | cons rawPlay rest ih =>
    rw [rangeRawPlays, rangeLoop]
    unfold resolvePlay
    cases ht : mapIndex rawPlay "tasks" with
    | seq rawTasks =>
      simp only
      cases hp : parseTasks env fuel (rawTaskMaps rawTasks) playbookPath rolesPath with
      | none => rfl
      | some res =>
        obtain ⟨parsedTasks, e⟩ := res
        cases e with
        | some err => rfl
        | none =>
          simp only
          cases hq : rangeParsedTasks env fuel rolesPath parsedTasks [] with
          | none => rfl
          | some res =>
            obtain ⟨playTasks, e⟩ := res
            cases e with
            | some err => rfl
            | none => exact ih _
    | _ => simp only [List.append_nil]; exact ih _

/-! ## Plays -/

theorem safeString_eq_nonempty {v : Value} {n : String} (h : safeString v = n)
    (hn : n ≠ "") : v = Value.str n := by
  cases v with
  | str s => simp only [safeString] at h; rw [h]
  | _ => exact absurd h.symm hn

theorem inlineTask_ok_iff (env : Env) (fuel : Nat) (rolesPath : String) (t : Task)
    (part : List Task) :
    inlineTask env fuel rolesPath t = some (part, none) ↔ Inlines env fuel rolesPath t part := by
  unfold inlineTask Inlines
  by_cases hr : isIncludeRole t = true
  · simp only [hr, if_true, Bool.true_eq_false, false_implies, true_and, true_implies]
    by_cases hn : safeString (mapIndex t.RawArgs "name") = ""
    · simp only [hn, if_true]
      constructor
      · intro h; simp at h
      · rintro ⟨roleName, hname, hne, _⟩
        rw [hname] at hn
        exact absurd hn hne
    · simp only [hn, if_false]
      constructor
      · intro h
        refine ⟨safeString (mapIndex t.RawArgs "name"), safeString_eq_nonempty rfl hn, hn, ?_⟩
        cases hl : LoadRoleTasks env fuel (safeString (mapIndex t.RawArgs "name")) rolesPath with
        | none => rw [hl] at h; simp at h
        | some res =>
          obtain ⟨roleTasks, e⟩ := res
          rw [hl] at h
          cases e with
          | some err => simp at h
          | none =>
            simp only [Option.some.injEq, Prod.mk.injEq, and_true] at h
            rw [h]
      · rintro ⟨roleName, hname, _, hload⟩
        rw [hname]
        simp only [safeString]
        rw [hload]
  · have hr2 : isIncludeRole t = false := by simpa using hr
    simp only [hr2, Bool.false_eq_true, if_false, true_implies, false_implies, and_true,
      Option.some.injEq, Prod.mk.injEq]
    exact eq_comm

theorem resolvePlay_skip (env : Env) (fuel : Nat) (playbookPath rolesPath : String)
    (rawPlay : Record) (h : hasTaskSequence rawPlay = false) :
    resolvePlay env fuel playbookPath rolesPath rawPlay = some ([], none) := by
  unfold hasTaskSequence at h
  unfold resolvePlay
  cases ht : mapIndex rawPlay "tasks" with
  | seq rawTasks => rw [ht] at h; simp at h
  | _ => rfl

theorem resolvePlay_ok_iff (env : Env) (fuel : Nat) (playbookPath rolesPath : String)
    (rawPlay : Record) (part : List Play) (h : hasTaskSequence rawPlay = true) :
    resolvePlay env fuel playbookPath rolesPath rawPlay = some (part, none)
      ↔ ∃ play, part = [play] ∧ PlayOf env fuel playbookPath rolesPath rawPlay play := by
  unfold hasTaskSequence at h
  unfold resolvePlay PlayOf
  cases ht : mapIndex rawPlay "tasks" with
  | seq rawTasks =>
    simp only [Value.seq.injEq, exists_and_left, exists_eq_left']
    cases hp : parseTasks env fuel (rawTaskMaps rawTasks) playbookPath rolesPath with
    | none => simp
    | some res =>
      obtain ⟨parsedTasks, e⟩ := res
      cases e with
      | some err => simp
      | none =>
        simp only [Option.some.injEq, Prod.mk.injEq, and_true, exists_eq_left']
        constructor
        · intro hq
          cases hl : rangeParsedTasks env fuel rolesPath parsedTasks [] with
          | none => rw [hl] at hq; simp at hq
          | some res =>
            obtain ⟨playTasks, e⟩ := res
            rw [hl] at hq
            cases e with
            | some err => simp at hq
            | none =>
              simp only [Option.some.injEq, Prod.mk.injEq, and_true] at hq
              rw [rangeParsedTasks_eq, rangeLoop_ok_iff] at hl
              obtain ⟨parts, hparts, hflat⟩ := hl
              refine ⟨_, hq.symm, parts, ?_, by rw [hflat]⟩
              exact hparts.imp (fun _ _ hx => (inlineTask_ok_iff env fuel rolesPath _ _).mp hx)
        · rintro ⟨play, rfl, parts, hparts, rfl⟩
          have hl : rangeParsedTasks env fuel rolesPath parsedTasks []
              = some (parts.flatten, none) := by
            rw [rangeParsedTasks_eq, rangeLoop_ok_iff]
            exact ⟨parts,
              hparts.imp (fun _ _ hx => (inlineTask_ok_iff env fuel rolesPath _ _).mpr hx), rfl⟩
          rw [hl]
  | _ => rw [ht] at h; simp at h

theorem forall₂_resolvePlay_iff (env : Env) (fuel : Nat) (playbookPath rolesPath : String)
    (rawPlays : List Record) (plays : List Play) :
    (∃ parts, List.Forall₂
        (fun x part => resolvePlay env fuel playbookPath rolesPath x = some (part, none))
        rawPlays parts ∧ plays = parts.flatten)
      ↔ List.Forall₂ (PlayOf env fuel playbookPath rolesPath)
          (rawPlays.filter hasTaskSequence) plays := by
  induction rawPlays generalizing plays with
  | nil =>
    constructor
    · rintro ⟨parts, hparts, rfl⟩
      cases hparts
      exact List.Forall₂.nil
    · intro h
      cases h
      exact ⟨[], List.Forall₂.nil, rfl⟩
  | cons rawPlay rest ih =>
    by_cases hs : hasTaskSequence rawPlay = true
    · rw [List.filter_cons_of_pos hs]
      constructor
      · rintro ⟨parts, hparts, rfl⟩
        cases hparts with
        | cons hx hrest =>
          rename_i part parts1
          obtain ⟨play, rfl, hplay⟩ :=
            (resolvePlay_ok_iff env fuel playbookPath rolesPath rawPlay part hs).mp hx
          simp only [List.flatten_cons, List.singleton_append]
          exact List.Forall₂.cons hplay ((ih _).mp ⟨parts1, hrest, rfl⟩)
      · intro h
        cases h with
        | cons hplay hrest =>
          rename_i play plays1
          obtain ⟨parts1, hparts1, hflat⟩ := (ih plays1).mpr hrest
          refine ⟨[play] :: parts1, List.Forall₂.cons ?_ hparts1, by simp [hflat]⟩
          exact (resolvePlay_ok_iff env fuel playbookPath rolesPath rawPlay _ hs).mpr
            ⟨play, rfl, hplay⟩
    · have hs2 : hasTaskSequence rawPlay = false := by simpa using hs
      rw [List.filter_cons_of_neg hs]
      have hskip := resolvePlay_skip env fuel playbookPath rolesPath rawPlay hs2
      constructor
      · rintro ⟨parts, hparts, rfl⟩
        cases hparts with
        | cons hx hrest =>
          rename_i part parts1
          rw [hskip] at hx
          simp only [Option.some.injEq, Prod.mk.injEq, and_true] at hx
          rw [← hx]
          simp only [List.flatten_cons, List.nil_append]
          exact (ih _).mp ⟨parts1, hrest, rfl⟩
      · intro h
        obtain ⟨parts1, hparts1, hflat⟩ := (ih plays).mpr h
        exact ⟨[] :: parts1, List.Forall₂.cons hskip hparts1, by simp [hflat]⟩

/-- C6: `LoadPlaybook` returns plays without error exactly when the document
decodes and the plays are, in order, the Plays of the play records whose
`tasks` is a sequence; the Tasks of each such Play are the output of
`parseTasks` for its task records in which every Task whose Module is
`include_role` or `ansible.builtin.include_role` is replaced, at its position,
by the whole output of `LoadRoleTasks` for the name in its RawArgs, and every
other Task is kept. -/
theorem LoadPlaybook_inlines_roles (env : Env) (fuel : Nat)
    (data playbookPath rolesPath : String) (plays : List Play) :
    LoadPlaybook env fuel data playbookPath rolesPath = some (plays, none)
      ↔ ∃ rawPlays, env.Unmarshal data = .ok rawPlays
          ∧ List.Forall₂ (PlayOf env fuel playbookPath rolesPath)
              (rawPlays.filter hasTaskSequence) plays := by
  unfold LoadPlaybook
  cases hu : env.Unmarshal data with
  | error e => simp
  | ok rawPlays =>
    simp only [Except.ok.injEq, exists_eq_left']
    rw [rangeRawPlays_eq, rangeLoop_ok_iff]
    exact forall₂_resolvePlay_iff env fuel playbookPath rolesPath rawPlays plays

/-! ## The first failure of a loop -/

theorem rangeLoop_fails_with {α β : Type} (step : α → Option (Returned β))
    (P : GoError → Prop) (before : List α) (x : α) (after : List α)
    (hbefore : ∀ y ∈ before, (∃ p, step y = some (p, none))
      ∨ (∃ p e, step y = some (p, some e) ∧ P e))
    (hx : ∃ p e, step x = some (p, some e) ∧ P e) (acc : List β) :
    ∃ e, rangeLoop step (before ++ x :: after) acc = some ([], some e) ∧ P e := by
  induction before generalizing acc with
  | nil =>
    obtain ⟨p, e, hs, hP⟩ := hx
    exact ⟨e, by simp [rangeLoop, hs], hP⟩
  | cons y rest ih =>
    rw [List.cons_append, rangeLoop]
    rcases hbefore y (List.mem_cons_self _ _) with ⟨p, hp⟩ | ⟨p, e, hp, hP⟩
    · rw [hp]
      exact ih (fun z hz => hbefore z (List.mem_cons_of_mem _ hz)) _
    · rw [hp]
      exact ⟨e, rfl, hP⟩

theorem rangeLoop_ok_or_fails_with {α β : Type} (step : α → Option (Returned β))
    (P : GoError → Prop) (xs : List α)
    (hxs : ∀ y ∈ xs, (∃ p, step y = some (p, none))
      ∨ (∃ p e, step y = some (p, some e) ∧ P e)) (acc : List β) :
    (∃ out, rangeLoop step xs acc = some (out, none))
      ∨ (∃ e, rangeLoop step xs acc = some ([], some e) ∧ P e) := by
  induction xs generalizing acc with
  | nil => exact Or.inl ⟨acc, rfl⟩
  | cons y rest ih =>
    rw [rangeLoop]
    rcases hxs y (List.mem_cons_self _ _) with ⟨p, hp⟩ | ⟨p, e, hp, hP⟩
    · rw [hp]
      exact ih (fun z hz => hxs z (List.mem_cons_of_mem _ hz)) _
    · rw [hp]
      exact Or.inr ⟨e, rfl, hP⟩

theorem rangeLoop_append {α β : Type} (step : α → Option (Returned β))
    (before after : List α) (acc out : List β)
    (h : rangeLoop step before acc = some (out, none)) :
    rangeLoop step (before ++ after) acc = rangeLoop step after out := by
  induction before generalizing acc with
  | nil =>
    simp only [rangeLoop, Option.some.injEq, Prod.mk.injEq, and_true] at h
    rw [List.nil_append, h]
  | cons y rest ih =>
    rw [List.cons_append, rangeLoop]
    rw [rangeLoop] at h
    cases hs : step y with
    | none => rw [hs] at h; simp at h
    | some res =>
      obtain ⟨p, e⟩ := res
      rw [hs] at h
      cases e with
      | some err => simp at h
      | none => exact ih _ h

theorem inlineTask_missing_name (env : Env) (fuel : Nat) (rolesPath : String) (t : Task)
    (hrole : isIncludeRole t = true) (hname : safeString (mapIndex t.RawArgs "name") = "") :
    inlineTask env fuel rolesPath t
      = some ([], some (.newError
          ("include_role task is missing 'name': " ++ env.FormatV t.RawArgs))) := by
  simp only [inlineTask, hrole, hname, if_true]

theorem missingName_newError (rest : String) :
    MissingName (.newError ("include_role task is missing 'name': " ++ rest)) := by
  refine ⟨": " ++ rest, ?_⟩
  show "include_role task is missing 'name': " ++ rest
    = "include_role task is missing 'name'" ++ (": " ++ rest)
  rw [← String.append_assoc]
  rfl

theorem inlineTask_ok_or_missing_name (env : Env) (fuel : Nat) (rolesPath : String)
    (tasks : List Task) (h : RolesLoad env fuel rolesPath tasks) :
    ∀ u ∈ tasks, (∃ p, inlineTask env fuel rolesPath u = some (p, none))
      ∨ (∃ p e, inlineTask env fuel rolesPath u = some (p, some e) ∧ MissingName e) := by
  intro u hu
  by_cases hr : isIncludeRole u = true
  · by_cases hn : safeString (mapIndex u.RawArgs "name") = ""
    · exact Or.inr ⟨[], _, inlineTask_missing_name env fuel rolesPath u hr hn,
        missingName_newError _⟩
    · obtain ⟨roleTasks, hload⟩ := h u hu hr hn
      exact Or.inl ⟨roleTasks, by simp only [inlineTask, hr, hn, if_true, if_false, hload]⟩
  · exact Or.inl ⟨[u], by simp only [inlineTask, hr, if_false, Bool.false_eq_true]⟩

theorem resolvePlay_ok_or_missing_name (env : Env) (fuel : Nat)
    (playbookPath rolesPath : String) (rawPlay : Record)
    (h : PlayLoads env fuel playbookPath rolesPath rawPlay) :
    (∃ p, resolvePlay env fuel playbookPath rolesPath rawPlay = some (p, none))
      ∨ (∃ p e, resolvePlay env fuel playbookPath rolesPath rawPlay = some (p, some e)
          ∧ MissingName e) := by
  unfold resolvePlay
  cases ht : mapIndex rawPlay "tasks" with
  | seq rawTasks =>
    obtain ⟨parsedTasks, hparse, hroles⟩ := h rawTasks ht
    simp only [hparse]
    rw [rangeParsedTasks_eq]
    rcases rangeLoop_ok_or_fails_with (inlineTask env fuel rolesPath) MissingName parsedTasks
      (inlineTask_ok_or_missing_name env fuel rolesPath parsedTasks hroles) []
      with ⟨out, hout⟩ | ⟨e, he, hP⟩
    · rw [hout]; exact Or.inl ⟨_, rfl⟩
    · rw [he]; exact Or.inr ⟨[], e, rfl, hP⟩
  | _ => exact Or.inl ⟨[], rfl⟩

/-- C7: when the document decodes, the task records of a play record resolve
without error to Tasks among which an `include_role` (or
`ansible.builtin.include_role`) Task has no non-empty string under `name` in
its RawArgs (the short form included), the task records of the play records
before it resolve without error, and every named role of a Task before that
Task, in that play or in an earlier one, loads without error, then
`LoadPlaybook` returns no plays and an error whose message starts with
`include_role task is missing 'name'`. -/
theorem LoadPlaybook_missing_role_name (env : Env) (fuel : Nat)
    (data playbookPath rolesPath : String) (playsBefore : List Record) (rawPlay : Record)
    (playsAfter : List Record) (rawTasks : List Value) (tasksBefore : List Task) (t : Task)
    (tasksAfter : List Task)
    (hdec : env.Unmarshal data = .ok (playsBefore ++ rawPlay :: playsAfter))
    (hplays : ∀ p ∈ playsBefore, PlayLoads env fuel playbookPath rolesPath p)
    (htasks : mapIndex rawPlay "tasks" = Value.seq rawTasks)
    (hparse : parseTasks env fuel (rawTaskMaps rawTasks) playbookPath rolesPath
      = some (tasksBefore ++ t :: tasksAfter, none))
    (hroles : RolesLoad env fuel rolesPath tasksBefore)
    (hrole : isIncludeRole t = true)
    (hname : safeString (mapIndex t.RawArgs "name") = "") :
    ∃ err, LoadPlaybook env fuel data playbookPath rolesPath = some ([], some err)
      ∧ ∃ rest, err.Error = "include_role task is missing 'name'" ++ rest := by
  unfold LoadPlaybook
  rw [hdec]
  simp only
  rw [rangeRawPlays_eq]
  refine rangeLoop_fails_with (resolvePlay env fuel playbookPath rolesPath) MissingName
    playsBefore rawPlay playsAfter
    (fun p hp => resolvePlay_ok_or_missing_name env fuel playbookPath rolesPath p
      (hplays p hp)) ?_ []
  unfold resolvePlay
  simp only [htasks, hparse]
  rw [rangeParsedTasks_eq]
  obtain ⟨e, he, hP⟩ := rangeLoop_fails_with (inlineTask env fuel rolesPath) MissingName
    tasksBefore t tasksAfter
    (inlineTask_ok_or_missing_name env fuel rolesPath tasksBefore hroles)
    ⟨[], _, inlineTask_missing_name env fuel rolesPath t hrole hname, missingName_newError _⟩ []
  rw [he]
  exact ⟨[], e, rfl, hP⟩

set_option maxRecDepth 100000 in
/-- Witness of C7: the short form `include_role: myrole` after one task. -/
theorem LoadPlaybook_missing_role_name_witness :
    ∃ err, LoadPlaybook shortFormEnv 0 shortFormText "playbook.yml" "roles"
        = some ([], some err)
      ∧ ∃ rest, err.Error = "include_role task is missing 'name'" ++ rest :=
  LoadPlaybook_missing_role_name shortFormEnv 0 shortFormText "playbook.yml" "roles" []
    shortFormPlay [] [.map sayHello, .map shortFormRole, .map runShell]
    [taskOfRecord sayHello "ansible.builtin.debug" "playbook.yml"]
    { Name := "include role, short form", Module := "include_role",
      RawArgs := [("__value__", .str "myrole")], Vars := [], Loop := "",
      Source := "playbook.yml" }
    [taskOfRecord runShell "ansible.builtin.shell" "playbook.yml"]
    rfl (fun _ hp => absurd hp (List.not_mem_nil _)) rfl rfl
    (fun u hu hr => by
      rw [List.mem_singleton] at hu
      subst hu
      exact absurd hr (by decide))
    rfl rfl

/-! ## A role that fails to load -/

theorem inlineTask_role_fails (env : Env) (fuel : Nat) (rolesPath : String) (t : Task)
    (n : String) (roleTasks : List Task) (e : GoError)
    (hrole : isIncludeRole t = true) (hname : mapIndex t.RawArgs "name" = Value.str n)
    (hne : n ≠ "") (hload : LoadRoleTasks env fuel n rolesPath = some (roleTasks, some e)) :
    inlineTask env fuel rolesPath t
      = some ([], some (.wrapError
          ("failed to load role " ++ goQuote env.IsPrint n ++ ": " ++ e.Error) e)) := by
  simp only [inlineTask, hrole, hname, safeString, hne, if_true, if_false, hload]

theorem escapeRune_plain (isPrint : Char → Bool) (c : Char) (hq : c ≠ '"')
    (hb : c ≠ '\\') (hp : isPrint c = true) : escapeRune isPrint c = [c] := by
  simp [escapeRune, hq, hb, hp]

/-- The verb `%q` puts double quotes around a string of printable characters
other than the double quote and the backslash, and changes nothing else. -/
theorem goQuote_plain (isPrint : Char → Bool) (n : String)
    (h : ∀ c ∈ n.data, c ≠ '"' ∧ c ≠ '\\' ∧ isPrint c = true) :
    goQuote isPrint n = "\"" ++ n ++ "\"" := by
  have hflat : ∀ cs : List Char, (∀ c ∈ cs, c ≠ '"' ∧ c ≠ '\\' ∧ isPrint c = true) →
      cs.flatMap (escapeRune isPrint) = cs := by
    intro cs
    induction cs with
    | nil => intro _; rfl
    | cons c rest ih =>
      intro hcs
      obtain ⟨hq, hb, hp⟩ := hcs c (List.mem_cons_self _ _)
      rw [List.flatMap_cons, escapeRune_plain isPrint c hq hb hp,
        ih (fun x hx => hcs x (List.mem_cons_of_mem _ hx))]
      rfl
  apply String.ext
  rw [goQuote, hflat n.data h]
  simp [String.data_append]

/-- C8 (as amended): when the document decodes, the play records before a play
record resolve without error, its task records resolve without error, the
Tasks before an `include_role` Task of non-empty string name `n` are inlined
without error, and `LoadRoleTasks` fails for `n` with the error `e`, then
`LoadPlaybook` returns no plays and an error that wraps `e`, whose message is
`failed to load role `, `n` as the verb `%q` renders it, `: ` and the message
of `e`. -/
theorem LoadPlaybook_role_load_error (env : Env) (fuel : Nat)
    (data playbookPath rolesPath : String) (playsBefore : List Record) (rawPlay : Record)
    (playsAfter : List Record) (plays : List Play) (rawTasks : List Value)
    (tasksBefore : List Task) (t : Task) (tasksAfter playTasks roleTasks : List Task)
    (n : String) (e : GoError)
    (hdec : env.Unmarshal data = .ok (playsBefore ++ rawPlay :: playsAfter))
    (hplays : rangeRawPlays env fuel playbookPath rolesPath playsBefore [] = some (plays, none))
    (htasks : mapIndex rawPlay "tasks" = Value.seq rawTasks)
    (hparse : parseTasks env fuel (rawTaskMaps rawTasks) playbookPath rolesPath
      = some (tasksBefore ++ t :: tasksAfter, none))
    (hbefore : rangeParsedTasks env fuel rolesPath tasksBefore [] = some (playTasks, none))
    (hrole : isIncludeRole t = true)
    (hname : mapIndex t.RawArgs "name" = Value.str n) (hne : n ≠ "")
    (hload : LoadRoleTasks env fuel n rolesPath = some (roleTasks, some e)) :
    LoadPlaybook env fuel data playbookPath rolesPath
      = some ([], some (.wrapError
          ("failed to load role " ++ goQuote env.IsPrint n ++ ": " ++ e.Error) e)) := by
  unfold LoadPlaybook
  rw [hdec]
  simp only
  rw [rangeRawPlays_eq] at hplays ⊢
  rw [rangeLoop_append _ playsBefore (rawPlay :: playsAfter) [] plays hplays, rangeLoop]
  unfold resolvePlay
  simp only [htasks, hparse]
  rw [rangeParsedTasks_eq] at hbefore ⊢
  rw [rangeLoop_append _ tasksBefore (t :: tasksAfter) [] playTasks hbefore, rangeLoop,
    inlineTask_role_fails env fuel rolesPath t n roleTasks e hrole hname hne hload]

set_option maxRecDepth 100000 in
/-- Witness of C8 (as amended): the role `not_a_real_role` of the tests, after
one task. -/
theorem LoadPlaybook_role_load_error_witness :
    LoadPlaybook missingRoleEnv 0 missingRoleText "playbook.yml" "roles"
      = some ([], some (.wrapError
          ("failed to load role " ++ "\"not_a_real_role\"" ++ ": "
            ++ ("failed to read role tasks: "
              ++ "open roles/not_a_real_role/tasks/main.yml: no such file or directory"))
          (.wrapError
            ("failed to read role tasks: "
              ++ "open roles/not_a_real_role/tasks/main.yml: no such file or directory")
            (.newError
              "open roles/not_a_real_role/tasks/main.yml: no such file or directory")))) :=
  LoadPlaybook_role_load_error missingRoleEnv 0 missingRoleText "playbook.yml" "roles" []
    missingRolePlay [] [] [.map sayHello, .map includeMissingRole]
    [taskOfRecord sayHello "ansible.builtin.debug" "playbook.yml"]
    { Name := "include role that does not exist", Module := "ansible.builtin.include_role",
      RawArgs := [("name", .str "not_a_real_role")], Vars := [], Loop := "",
      Source := "playbook.yml" }
    [] [taskOfRecord sayHello "ansible.builtin.debug" "playbook.yml"] []
    "not_a_real_role" _ rfl rfl rfl rfl rfl rfl rfl (by decide) rfl

set_option maxRecDepth 100000 in
/-- C8 (counterexample): `first_role` and `second_role` both fail to load and
the error of `LoadPlaybook` names `first_role`, not `second_role`; and for the
role name `my"role` the message holds the name with its double quote escaped,
not the name between double quotes. -/
theorem LoadPlaybook_role_error_is_not_always_of_that_role :
    ((LoadRoleTasks twoRolesEnv 0 "second_role" "roles").map (fun res => res.2.map GoError.Error)
        = some (some ("failed to read role tasks: "
            ++ "open roles/second_role/tasks/main.yml: no such file or directory"))
      ∧ (LoadPlaybook twoRolesEnv 0 twoRolesText "playbook.yml" "roles").map
          (fun res => (res.1.length, res.2.map GoError.Error))
        = some (0, some ("failed to load role \"first_role\": failed to read role tasks: "
            ++ "open roles/first_role/tasks/main.yml: no such file or directory")))
    ∧ ((LoadRoleTasks quotedRoleEnv 0 "my\"role" "roles").map
          (fun res => res.2.map GoError.Error)
        = some (some ("failed to read role tasks: "
            ++ "open roles/my\"role/tasks/main.yml: no such file or directory"))
      ∧ (LoadPlaybook quotedRoleEnv 0 quotedRoleText "playbook.yml" "roles").map
          (fun res => (res.1.length, res.2.map GoError.Error))
        = some (0, some ("failed to load role \"my\\\"role\": failed to read role tasks: "
            ++ "open roles/my\"role/tasks/main.yml: no such file or directory"))
      ∧ (LoadPlaybook quotedRoleEnv 0 quotedRoleText "playbook.yml" "roles").map
          (fun res => (res.1.length, res.2.map GoError.Error))
        ≠ some (0, some ("failed to load role " ++ "\"" ++ "my\"role" ++ "\"" ++ ": "
            ++ "failed to read role tasks: "
            ++ "open roles/my\"role/tasks/main.yml: no such file or directory"))) := by
  decide

set_option maxRecDepth 100000 in
/-- Witness of C6: a play whose second task includes the role `myrole`; the
role's Task takes the place of the `include_role` Task. -/
theorem LoadPlaybook_inlines_roles_witness :
    LoadPlaybook roleEnv 0 rolePlayText "playbook.yml" "roles"
        = some ([{ Name := "test play", Hosts := "all",
                   Tasks := [taskOfRecord sayHello "ansible.builtin.debug" "playbook.yml",
                             taskOfRecord roleDebug "ansible.builtin.debug"
                               "roles/myrole/tasks/main.yml",
                             taskOfRecord runShell "ansible.builtin.shell" "playbook.yml"] }],
                none)
    ∧ ∃ rawPlays, roleEnv.Unmarshal rolePlayText = .ok rawPlays
        ∧ List.Forall₂ (PlayOf roleEnv 0 "playbook.yml" "roles")
            (rawPlays.filter hasTaskSequence)
            [{ Name := "test play", Hosts := "all",
               Tasks := [taskOfRecord sayHello "ansible.builtin.debug" "playbook.yml",
                         taskOfRecord roleDebug "ansible.builtin.debug"
                           "roles/myrole/tasks/main.yml",
                         taskOfRecord runShell "ansible.builtin.shell" "playbook.yml"] }] :=
  ⟨rfl, (LoadPlaybook_inlines_roles roleEnv 0 rolePlayText "playbook.yml" "roles" _).mp rfl⟩

/-! ## The errors of parseTasks -/

theorem includeOutcome_returned {env : Env}
    {recurse : List Record → String → Option (Returned Task)} {baseDir : String} {v : Value}
    {err : GoError}
    (hrec : ∀ raw path ts e, recurse raw path = some (ts, some e) → IncludeError e)
    (h : includeOutcome env recurse baseDir v = some (.returned err)) : IncludeError err := by
  cases v with
  | str includePath =>
    simp only [includeOutcome] at h
    cases hr : env.ReadFile (env.Join [baseDir, includePath]) with
    | error e =>
      rw [hr] at h
      simp only [Option.some.injEq, KeyLoop.returned.injEq] at h
      exact Or.inr (Or.inl ⟨_, e, h.symm⟩)
    | ok data =>
      rw [hr] at h
      simp only at h
      cases hu : env.Unmarshal data with
      | error e =>
        rw [hu] at h
        simp only [Option.some.injEq, KeyLoop.returned.injEq] at h
        exact Or.inr (Or.inr ⟨_, e, h.symm⟩)
      | ok includedRaw =>
        rw [hu] at h
        simp only at h
        cases hc : recurse includedRaw (env.Join [baseDir, includePath]) with
        | none => rw [hc] at h; simp at h
        | some res =>
          obtain ⟨ts, e⟩ := res
          rw [hc] at h
          cases e with
          | none => simp at h
          | some e1 =>
            simp only [Option.some.injEq, KeyLoop.returned.injEq] at h
            rw [← h]
            exact hrec _ _ _ _ hc
  | _ =>
    all_goals
      simp only [includeOutcome, Option.some.injEq, KeyLoop.returned.injEq] at h
      exact Or.inl h.symm

theorem rangeRawTasks_error {env : Env}
    {recurse : List Record → String → Option (Returned Task)} {sourcePath baseDir : String}
    (hrec : ∀ raw path ts e, recurse raw path = some (ts, some e) → IncludeError e)
    {records : List Record} {acc tasks : List Task} {err : GoError}
    (h : rangeRawTasks env recurse sourcePath baseDir records acc = some (tasks, some err)) :
    tasks = [] ∧ IncludeError err := by
  induction records generalizing acc with
  | nil => simp [rangeRawTasks] at h
  | cons r rest ih =>
    rw [rangeRawTasks] at h
    cases hk : rangeTaskMap env recurse baseDir r (initialTask r sourcePath) with
    | none => rw [hk] at h; simp at h
    | some out =>
      rw [hk] at h
      cases out with
      | nextTask inc => exact ih h
      | done t => exact ih h
      | returned e =>
        simp only [Option.some.injEq, Prod.mk.injEq] at h
        obtain ⟨h1, h2⟩ := h
        refine ⟨h1.symm, ?_⟩
        rw [rangeTaskMap_eq] at hk
        cases hf : firstInclude r with
        | none => rw [hf] at hk; simp at hk
        | some kv =>
          rw [hf] at hk
          rw [← h2]
          exact includeOutcome_returned hrec hk

theorem parseTasks_error {env : Env} {fuel : Nat} {records : List Record}
    {sourcePath rolesPath : String} {tasks : List Task} {err : GoError}
    (h : parseTasks env fuel records sourcePath rolesPath = some (tasks, some err)) :
    tasks = [] ∧ IncludeError err := by
  induction fuel generalizing records sourcePath tasks err with
  | zero =>
    rw [parseTasks_eq] at h
    exact rangeRawTasks_error (fun _ _ _ _ hc => by simp [recurseWith] at hc) h
  | succ n ih =>
    rw [parseTasks_eq] at h
    exact rangeRawTasks_error (fun _ _ _ _ hc => (ih hc).2) h

/-! ## Message prefixes -/

theorem not_startsWith_append (pre lit tail : String) (hlen : pre.data.length ≤ lit.data.length)
    (hne : ¬ pre.data <+: lit.data) : ¬ StartsWith (lit ++ tail) pre := by
  rintro ⟨rest, h⟩
  have hd := congrArg String.data h
  rw [String.data_append, String.data_append] at hd
  have h1 : pre.data <+: lit.data ++ tail.data := ⟨rest.data, hd.symm⟩
  have h2 : lit.data <+: lit.data ++ tail.data := List.prefix_append _ _
  exact hne (List.prefix_of_prefix_length_le h1 h2 hlen)

theorem not_startsWith_includeError (err : GoError) (pre : String) (h : IncludeError err)
    (h0 : ¬ StartsWith "include_tasks path must be a string" pre)
    (hlen1 : pre.data.length ≤ "failed to read included task file ".data.length)
    (hne1 : ¬ pre.data <+: "failed to read included task file ".data)
    (hlen2 : pre.data.length ≤ "failed to parse included task file ".data.length)
    (hne2 : ¬ pre.data <+: "failed to parse included task file ".data) :
    ¬ StartsWith err.Error pre := by
  rcases h with rfl | ⟨fullPath, e, rfl⟩ | ⟨fullPath, e, rfl⟩
  · exact h0
  · simp only [GoError.Error]
    rw [String.append_assoc, String.append_assoc]
    exact not_startsWith_append _ _ _ hlen1 hne1
  · simp only [GoError.Error]
    rw [String.append_assoc, String.append_assoc]
    exact not_startsWith_append _ _ _ hlen2 hne2

theorem not_startsWith_literal (pre lit : String) (hlen : pre.data.length ≤ lit.data.length)
    (hne : ¬ pre.data <+: lit.data) : ¬ StartsWith lit pre := by
  have h := not_startsWith_append pre lit "" hlen hne
  rwa [String.append_empty] at h

/-! ## LoadRoleTasks -/

theorem LoadRoleTasks_read_error (env : Env) (fuel : Nat) (roleName rolesPath : String)
    (e : GoError) (h : env.ReadFile (roleTasksPath env roleName rolesPath) = .error e) :
    LoadRoleTasks env fuel roleName rolesPath
      = some ([], some (.wrapError ("failed to read role tasks: " ++ e.Error) e)) := by
  simp only [LoadRoleTasks, h]

theorem LoadRoleTasks_decode_error (env : Env) (fuel : Nat) (roleName rolesPath : String)
    (data : String) (e : GoError)
    (h : env.ReadFile (roleTasksPath env roleName rolesPath) = .ok data)
    (hd : env.Unmarshal data = .error e) :
    LoadRoleTasks env fuel roleName rolesPath
      = some ([], some (.wrapError ("failed to parse tasks YAML: " ++ e.Error) e)) := by
  simp only [LoadRoleTasks, h, hd]

theorem LoadRoleTasks_delegates (env : Env) (fuel : Nat) (roleName rolesPath : String)
    (data : String) (rawTasks : List Record)
    (h : env.ReadFile (roleTasksPath env roleName rolesPath) = .ok data)
    (hd : env.Unmarshal data = .ok rawTasks) :
    LoadRoleTasks env fuel roleName rolesPath
      = parseTasks env fuel rawTasks (roleTasksPath env roleName rolesPath) rolesPath := by
  simp only [LoadRoleTasks, h, hd]

/-- C9: the path of the role's task file is the join of the join of
`rolesPath` and `roleName` with `tasks` and `main.yml`; when that file is
readable and decodes to the records `rawTasks`, the result of `LoadRoleTasks`
is that of `parseTasks` on `rawTasks` with that path as source path and the
same roles path; and that file is the only one `LoadRoleTasks` itself reads:
in any file system that holds the same content at that path, with the same
decoder and the same path functions, and in which the delegated `parseTasks`
call gives the same result, `LoadRoleTasks` gives the same result. -/
theorem LoadRoleTasks_reads_one_file_and_delegates (env : Env) (fuel : Nat)
    (roleName rolesPath : String) :
    roleTasksPath env roleName rolesPath
        = env.Join [env.Join [rolesPath, roleName], "tasks", "main.yml"]
    ∧ (∀ data rawTasks,
        env.ReadFile (roleTasksPath env roleName rolesPath) = .ok data →
        env.Unmarshal data = .ok rawTasks →
        LoadRoleTasks env fuel roleName rolesPath
          = parseTasks env fuel rawTasks (roleTasksPath env roleName rolesPath) rolesPath)
    ∧ (∀ env2 : Env, env2.Join = env.Join → env2.Unmarshal = env.Unmarshal →
        env2.ReadFile (roleTasksPath env roleName rolesPath)
          = env.ReadFile (roleTasksPath env roleName rolesPath) →
        (∀ data rawTasks,
          env.ReadFile (roleTasksPath env roleName rolesPath) = .ok data →
          env.Unmarshal data = .ok rawTasks →
          parseTasks env2 fuel rawTasks (roleTasksPath env roleName rolesPath) rolesPath
            = parseTasks env fuel rawTasks (roleTasksPath env roleName rolesPath) rolesPath) →
        LoadRoleTasks env2 fuel roleName rolesPath
          = LoadRoleTasks env fuel roleName rolesPath) := by
  refine ⟨rfl, LoadRoleTasks_delegates env fuel roleName rolesPath, ?_⟩
  intro env2 hjoin hdec hread hparse
  have hpath : roleTasksPath env2 roleName rolesPath = roleTasksPath env roleName rolesPath := by
    simp only [roleTasksPath, hjoin]
  cases hr : env.ReadFile (roleTasksPath env roleName rolesPath) with
  | error e =>
    rw [LoadRoleTasks_read_error env fuel roleName rolesPath e hr,
      LoadRoleTasks_read_error env2 fuel roleName rolesPath e
        (by rw [hpath, hread, hr])]
  | ok data =>
    cases hu : env.Unmarshal data with
    | error e =>
      rw [LoadRoleTasks_decode_error env fuel roleName rolesPath data e hr hu,
        LoadRoleTasks_decode_error env2 fuel roleName rolesPath data e
          (by rw [hpath, hread, hr]) (by rw [hdec, hu])]
    | ok rawTasks =>
      rw [LoadRoleTasks_delegates env fuel roleName rolesPath data rawTasks hr hu,
        LoadRoleTasks_delegates env2 fuel roleName rolesPath data rawTasks
          (by rw [hpath, hread, hr]) (by rw [hdec, hu]), hpath]
      exact hparse data rawTasks hr hu

/-- Witness of C9: the role `myrole` of the tests. -/
theorem LoadRoleTasks_reads_one_file_and_delegates_witness :
    roleTasksPath roleEnv "myrole" "roles" = "roles/myrole/tasks/main.yml"
    ∧ LoadRoleTasks roleEnv 0 "myrole" "roles"
        = parseTasks roleEnv 0 [roleDebug] "roles/myrole/tasks/main.yml" "roles"
    ∧ LoadRoleTasks roleEnv 0 "myrole" "roles"
        = some ([taskOfRecord roleDebug "ansible.builtin.debug"
            "roles/myrole/tasks/main.yml"], none) :=
  ⟨by decide,
   (LoadRoleTasks_reads_one_file_and_delegates roleEnv 0 "myrole" "roles").2.1
      roleText [roleDebug] rfl rfl,
   rfl⟩

/-- C10: `LoadRoleTasks` returns an error whose message starts with
`failed to read role tasks` exactly when the role's task file cannot be read,
and an error whose message starts with `failed to parse tasks YAML` exactly
when that file is read and does not decode; whenever it returns an error, the
Task list it returns is nil. -/
theorem LoadRoleTasks_error_messages (env : Env) (fuel : Nat) (roleName rolesPath : String) :
    ((∃ tasks err, LoadRoleTasks env fuel roleName rolesPath = some (tasks, some err)
        ∧ StartsWith err.Error "failed to read role tasks")
      ↔ ∃ e, env.ReadFile (roleTasksPath env roleName rolesPath) = .error e)
    ∧ ((∃ tasks err, LoadRoleTasks env fuel roleName rolesPath = some (tasks, some err)
        ∧ StartsWith err.Error "failed to parse tasks YAML")
      ↔ ∃ data e, env.ReadFile (roleTasksPath env roleName rolesPath) = .ok data
          ∧ env.Unmarshal data = .error e)
    ∧ (∀ tasks err, LoadRoleTasks env fuel roleName rolesPath = some (tasks, some err) →
        tasks = []) := by
  cases hr : env.ReadFile (roleTasksPath env roleName rolesPath) with
  | error e =>
    have hl := LoadRoleTasks_read_error env fuel roleName rolesPath e hr
    refine ⟨⟨fun _ => ⟨e, rfl⟩, fun _ => ⟨[], _, hl, ?_⟩⟩, ⟨?_, ?_⟩, ?_⟩
    · exact ⟨": " ++ e.Error, by
        show "failed to read role tasks: " ++ e.Error = "failed to read role tasks" ++ (": " ++ e.Error)
        rw [← String.append_assoc]; rfl⟩
    · rintro ⟨tasks, err, h, hs⟩
      rw [hl] at h
      simp only [Option.some.injEq, Prod.mk.injEq] at h
      rw [← h.2] at hs
      exact absurd hs (not_startsWith_append _ "failed to read role tasks: " _
        (by decide) (by decide))
    · rintro ⟨data, e1, h, _⟩
      cases h
    · intro tasks err h
      rw [hl] at h
      simp only [Option.some.injEq, Prod.mk.injEq] at h
      exact h.1.symm
  | ok data =>
    cases hu : env.Unmarshal data with
    | error e =>
      have hl := LoadRoleTasks_decode_error env fuel roleName rolesPath data e hr hu
      refine ⟨⟨?_, ?_⟩, ⟨fun _ => ⟨data, e, rfl, hu⟩, fun _ => ⟨[], _, hl, ?_⟩⟩, ?_⟩
      · rintro ⟨tasks, err, h, hs⟩
        rw [hl] at h
        simp only [Option.some.injEq, Prod.mk.injEq] at h
        rw [← h.2] at hs
        exact absurd hs (not_startsWith_append _ "failed to parse tasks YAML: " _
          (by decide) (by decide))
      · rintro ⟨e1, h⟩
        cases h
      · exact ⟨": " ++ e.Error, by
          show "failed to parse tasks YAML: " ++ e.Error
            = "failed to parse tasks YAML" ++ (": " ++ e.Error)
          rw [← String.append_assoc]; rfl⟩
      · intro tasks err h
        rw [hl] at h
        simp only [Option.some.injEq, Prod.mk.injEq] at h
        exact h.1.symm
    | ok rawTasks =>
      have hl := LoadRoleTasks_delegates env fuel roleName rolesPath data rawTasks hr hu
      refine ⟨⟨?_, ?_⟩, ⟨?_, ?_⟩, ?_⟩
      · rintro ⟨tasks, err, h, hs⟩
        rw [hl] at h
        exact absurd hs (not_startsWith_includeError err _ (parseTasks_error h).2
          (not_startsWith_literal _ _ (by decide) (by decide))
          (by decide) (by decide) (by decide) (by decide))
      · rintro ⟨e1, h⟩
        cases h
      · rintro ⟨tasks, err, h, hs⟩
        rw [hl] at h
        exact absurd hs (not_startsWith_includeError err _ (parseTasks_error h).2
          (not_startsWith_literal _ _ (by decide) (by decide))
          (by decide) (by decide) (by decide) (by decide))
      · rintro ⟨data1, e1, h, hd⟩
        simp only [Except.ok.injEq] at h
        rw [← h, hu] at hd
        cases hd
      · intro tasks err h
        rw [hl] at h
        exact (parseTasks_error h).1

/-- Witness of C10: the missing and the broken task file of the tests. -/
theorem LoadRoleTasks_error_messages_witness :
    (∃ tasks err, LoadRoleTasks emptyEnv 0 "missing" "roles" = some (tasks, some err)
        ∧ StartsWith err.Error "failed to read role tasks")
    ∧ (∃ tasks err, LoadRoleTasks badRoleEnv 0 "badyaml" "roles" = some (tasks, some err)
        ∧ StartsWith err.Error "failed to parse tasks YAML") :=
  ⟨(LoadRoleTasks_error_messages emptyEnv 0 "missing" "roles").1.mpr ⟨_, rfl⟩,
   (LoadRoleTasks_error_messages badRoleEnv 0 "badyaml" "roles").2.1.mpr ⟨_, _, rfl, rfl⟩⟩

/-! ## Plays and play records -/

theorem loadPlaybook_ok {env : Env} {fuel : Nat} {data playbookPath rolesPath : String}
    {plays : List Play} {rawPlays : List Record}
    (h : LoadPlaybook env fuel data playbookPath rolesPath = some (plays, none))
    (hdec : env.Unmarshal data = .ok rawPlays) :
    List.Forall₂ (PlayOf env fuel playbookPath rolesPath)
      (rawPlays.filter hasTaskSequence) plays := by
  unfold LoadPlaybook at h
  rw [hdec] at h
  simp only at h
  rw [rangeRawPlays_eq, rangeLoop_ok_iff] at h
  exact (forall₂_resolvePlay_iff env fuel playbookPath rolesPath rawPlays plays).mp h

theorem playOf_namedAfter {env : Env} {fuel : Nat} {playbookPath rolesPath : String}
    {rawPlay : Record} {play : Play}
    (h : PlayOf env fuel playbookPath rolesPath rawPlay play) : NamedAfter rawPlay play := by
  obtain ⟨_, _, _, _, _, _, rfl⟩ := h
  exact ⟨rfl, rfl⟩

theorem filter_eq_self_of_all {α : Type} (p : α → Bool) (xs : List α)
    (h : ∀ x ∈ xs, p x = true) : xs.filter p = xs :=
  List.filter_eq_self.mpr h

/-- C12: when `LoadPlaybook` returns without error, its Plays correspond one to
one and in document order to the play records whose `tasks` value is a
sequence, each Play with the name and hosts of its record; the play records
whose `tasks` is missing or is not a sequence are left out. -/
theorem LoadPlaybook_plays_of_sequence_records (env : Env) (fuel : Nat)
    (data playbookPath rolesPath : String) (plays : List Play) (rawPlays : List Record)
    (h : LoadPlaybook env fuel data playbookPath rolesPath = some (plays, none))
    (hdec : env.Unmarshal data = .ok rawPlays) :
    List.Forall₂ NamedAfter (rawPlays.filter hasTaskSequence) plays :=
  (loadPlaybook_ok h hdec).imp (fun _ _ hp => playOf_namedAfter hp)

/-- Witness of C12: the playbook of the test `invalid tasks type` yields the
empty list of Plays and no error. -/
theorem LoadPlaybook_plays_of_sequence_records_witness :
    LoadPlaybook badTasksEnv 0 badTasksText "playbook.yml" "roles" = some ([], none)
    ∧ List.Forall₂ NamedAfter ([badTasksPlay].filter hasTaskSequence) [] :=
  ⟨rfl, LoadPlaybook_plays_of_sequence_records badTasksEnv 0 badTasksText "playbook.yml"
    "roles" [] [badTasksPlay] rfl rfl⟩

theorem resolvePlay_yieldsPlays {env : Env} {fuel : Nat} {playbookPath rolesPath : String}
    {rawPlay : Record} {part : List Play}
    (h : resolvePlay env fuel playbookPath rolesPath rawPlay = some (part, none)) :
    YieldsPlays rawPlay part := by
  refine ⟨fun hs => ?_, fun hs => ?_⟩
  · obtain ⟨play, hpart, hplay⟩ :=
      (resolvePlay_ok_iff env fuel playbookPath rolesPath rawPlay part hs).mp h
    exact ⟨play, hpart, playOf_namedAfter hplay⟩
  · rw [resolvePlay_skip env fuel playbookPath rolesPath rawPlay hs] at h
    simp only [Option.some.injEq, Prod.mk.injEq, and_true] at h
    exact h.symm

/-- C11 (as amended): when `LoadPlaybook` returns without error, its output is
the concatenation, in document order, of what each play record yields: exactly
one Play, with the name and hosts of the record, for a play record whose
`tasks` value is a sequence, and no Play for any other play record.  So the
Plays correspond one to one and in document order to the play records with a
`tasks` sequence, there are as many Plays as such records, and when every play
record has a `tasks` sequence there is exactly one Play per play record. -/
theorem LoadPlaybook_one_play_per_sequence_record (env : Env) (fuel : Nat)
    (data playbookPath rolesPath : String) (plays : List Play) (rawPlays : List Record)
    (h : LoadPlaybook env fuel data playbookPath rolesPath = some (plays, none))
    (hdec : env.Unmarshal data = .ok rawPlays) :
    (∃ parts, List.Forall₂ YieldsPlays rawPlays parts ∧ plays = parts.flatten)
    ∧ List.Forall₂ NamedAfter (rawPlays.filter hasTaskSequence) plays
    ∧ plays.length = (rawPlays.filter hasTaskSequence).length
    ∧ ((∀ r ∈ rawPlays, hasTaskSequence r = true) →
        plays.length = rawPlays.length ∧ List.Forall₂ NamedAfter rawPlays plays) := by
  have hall := (loadPlaybook_ok h hdec).imp (fun _ _ hp => playOf_namedAfter hp)
  refine ⟨?_, hall, hall.length_eq.symm, fun hseq => ?_⟩
  · unfold LoadPlaybook at h
    rw [hdec] at h
    simp only at h
    rw [rangeRawPlays_eq, rangeLoop_ok_iff] at h
    obtain ⟨parts, hparts, hflat⟩ := h
    exact ⟨parts, hparts.imp (fun _ _ hx => resolvePlay_yieldsPlays hx), hflat⟩
  · rw [filter_eq_self_of_all hasTaskSequence rawPlays hseq] at hall
    exact ⟨hall.length_eq.symm, hall⟩

set_option maxRecDepth 100000 in
/-- Witness of C11 (as amended): of the three play records only the first
has a `tasks` sequence, and one Play is returned, that of the first record. -/
theorem LoadPlaybook_one_play_per_sequence_record_witness :
    LoadPlaybook threePlaysEnv 0 threePlaysText "playbook.yml" "roles"
        = some ([{ Name := "test play", Hosts := "all",
                   Tasks := [taskOfRecord sayHello "ansible.builtin.debug" "playbook.yml"] }],
                none)
    ∧ threePlaysEnv.Unmarshal threePlaysText = .ok [helloPlay, badTasksPlay, mappingTasksPlay]
    ∧ (∃ parts, List.Forall₂ YieldsPlays [helloPlay, badTasksPlay, mappingTasksPlay] parts
        ∧ [({ Name := "test play", Hosts := "all",
              Tasks := [taskOfRecord sayHello "ansible.builtin.debug" "playbook.yml"] } : Play)]
          = parts.flatten)
    ∧ List.Forall₂ NamedAfter
        ([helloPlay, badTasksPlay, mappingTasksPlay].filter hasTaskSequence)
        [{ Name := "test play", Hosts := "all",
           Tasks := [taskOfRecord sayHello "ansible.builtin.debug" "playbook.yml"] }] :=
  ⟨rfl, rfl,
   (LoadPlaybook_one_play_per_sequence_record threePlaysEnv 0 threePlaysText
      "playbook.yml" "roles" _ [helloPlay, badTasksPlay, mappingTasksPlay] rfl rfl).1,
   (LoadPlaybook_one_play_per_sequence_record threePlaysEnv 0 threePlaysText
      "playbook.yml" "roles" _ [helloPlay, badTasksPlay, mappingTasksPlay] rfl rfl).2.1⟩

set_option maxRecDepth 100000 in
/-- C11 (counterexample): the playbook decodes to three play records, the
second with a scalar and the third with a mapping under `tasks`; it resolves
without error to one Play, that of the first record, and the other two records
appear nowhere in the output. -/
theorem LoadPlaybook_drops_plays_without_task_sequence :
    threePlaysEnv.Unmarshal threePlaysText = .ok [helloPlay, badTasksPlay, mappingTasksPlay]
    ∧ safeString (mapIndex badTasksPlay "tasks") = "this is not a list"
    ∧ (LoadPlaybook threePlaysEnv 0 threePlaysText "playbook.yml" "roles").map
        (fun res => (res.1.map (fun play => (play.Name, play.Hosts, play.Tasks.length)), res.2))
      = some ([("test play", "all", 1)], none) :=
  ⟨rfl, by decide, by decide⟩

/-! ## Error returns carry no list -/

theorem rangeLoop_error {α β : Type} (step : α → Option (Returned β)) (xs : List α)
    (acc out : List β) (err : GoError)
    (h : rangeLoop step xs acc = some (out, some err)) : out = [] := by
  induction xs generalizing acc with
  | nil => simp [rangeLoop] at h
  | cons x rest ih =>
    rw [rangeLoop] at h
    cases hs : step x with
    | none => rw [hs] at h; simp at h
    | some res =>
      obtain ⟨part, e⟩ := res
      rw [hs] at h
      cases e with
      | some e1 =>
        simp only [Option.some.injEq, Prod.mk.injEq] at h
        exact h.1.symm
      | none => exact ih _ h

theorem loadRoleTasks_error {env : Env} {fuel : Nat} {roleName rolesPath : String}
    {tasks : List Task} {err : GoError}
    (h : LoadRoleTasks env fuel roleName rolesPath = some (tasks, some err)) : tasks = [] := by
  cases hr : env.ReadFile (roleTasksPath env roleName rolesPath) with
  | error e =>
    rw [LoadRoleTasks_read_error env fuel roleName rolesPath e hr] at h
    simp only [Option.some.injEq, Prod.mk.injEq] at h
    exact h.1.symm
  | ok data =>
    cases hu : env.Unmarshal data with
    | error e =>
      rw [LoadRoleTasks_decode_error env fuel roleName rolesPath data e hr hu] at h
      simp only [Option.some.injEq, Prod.mk.injEq] at h
      exact h.1.symm
    | ok rawTasks =>
      rw [LoadRoleTasks_delegates env fuel roleName rolesPath data rawTasks hr hu] at h
      exact (parseTasks_error h).1

theorem loadPlaybook_error {env : Env} {fuel : Nat} {data playbookPath rolesPath : String}
    {plays : List Play} {err : GoError}
    (h : LoadPlaybook env fuel data playbookPath rolesPath = some (plays, some err)) :
    plays = [] := by
  unfold LoadPlaybook at h
  cases hu : env.Unmarshal data with
  | error e =>
    rw [hu] at h
    simp only [Option.some.injEq, Prod.mk.injEq] at h
    exact h.1.symm
  | ok rawPlays =>
    rw [hu] at h
    simp only at h
    rw [rangeRawPlays_eq] at h
    exact rangeLoop_error _ _ _ _ _ h

/-- C13: whenever `parseTasks`, `LoadRoleTasks` or `LoadPlaybook` returns an
error, the list returned with it is nil: nothing resolved from earlier records
or earlier plays comes back with the error. -/
theorem error_returns_nil_list (env : Env) (fuel : Nat) :
    (∀ records sourcePath rolesPath tasks err,
        parseTasks env fuel records sourcePath rolesPath = some (tasks, some err) → tasks = [])
    ∧ (∀ roleName rolesPath tasks err,
        LoadRoleTasks env fuel roleName rolesPath = some (tasks, some err) → tasks = [])
    ∧ (∀ data playbookPath rolesPath plays err,
        LoadPlaybook env fuel data playbookPath rolesPath = some (plays, some err) →
          plays = []) :=
  ⟨fun _ _ _ _ _ h => (parseTasks_error h).1,
   fun _ _ _ _ h => loadRoleTasks_error h,
   fun _ _ _ _ _ h => loadPlaybook_error h⟩

set_option maxRecDepth 100000 in
/-- Witness of C13: a valid first play and a second play with a bad
`include_tasks` give the error and no Play; a resolved record followed by a
bad include gives the error and no Task. -/
theorem error_returns_nil_list_witness :
    LoadPlaybook goodThenBadEnv 0 goodThenBadText "playbook.yml" "roles"
        = some ([], some (.newError "include_tasks path must be a string"))
    ∧ ([] : List Play) = []
    ∧ parseTasks emptyEnv 0 [sayHello, badInclude] "playbook.yml" "roles"
        = some ([], some (.newError "include_tasks path must be a string"))
    ∧ ([] : List Task) = [] :=
  ⟨rfl,
   (error_returns_nil_list goodThenBadEnv 0).2.2 goodThenBadText "playbook.yml" "roles" []
     (.newError "include_tasks path must be a string") rfl,
   rfl,
   (error_returns_nil_list emptyEnv 0).1 [sayHello, badInclude] "playbook.yml" "roles" []
     (.newError "include_tasks path must be a string") rfl⟩

/-! ## A record without include key among the others -/

theorem parseTasks_own_record (env : Env) (fuel : Nat) (before : List Record) (r : Record)
    (after : List Record) (sourcePath rolesPath : String) (tasksBefore : List Task)
    (hbefore : parseTasks env fuel before sourcePath rolesPath = some (tasksBefore, none))
    (hinc : hasIncludeTasksKey r = false) :
    parseTasks env fuel (before ++ r :: after) sourcePath rolesPath
      = prependTasks (tasksBefore ++ [r.foldl stepKey (initialTask r sourcePath)])
          (parseTasks env fuel after sourcePath rolesPath) := by
  rw [parseTasks_eq] at hbefore
  rw [parseTasks_eq, parseTasks_eq,
    rangeRawTasks_append env _ sourcePath _ before (r :: after) [] tasksBefore hbefore,
    rangeRawTasks, rangeTaskMap_noInclude env _ _ r _ hinc]
  exact rangeRawTasks_acc env _ sourcePath _ after _

/-- C3 (as amended): let the records before `r` resolve to `tasksBefore`, and
let `r` have no include key and the single module key `k` with value `v`.  Then
`r` yields one Task, which stands right after `tasksBefore` in front of what
the records after `r` give; its Module is `k`, and its RawArgs is `v` when `v`
is a mapping with string keys only (`Value.map`) and the one-entry mapping from
`__value__` to `v` for every other `v`, a mapping with a key that is not a
string among them. -/
theorem parseTasks_rawArgs_of_module_value (env : Env) (fuel : Nat) (before : List Record)
    (r : Record) (after : List Record) (k : String) (v : Value)
    (sourcePath rolesPath : String) (tasksBefore : List Task)
    (hbefore : parseTasks env fuel before sourcePath rolesPath = some (tasksBefore, none))
    (hinc : hasIncludeTasksKey r = false) (hm : moduleEntries r = [(k, v)]) :
    ∃ t, parseTasks env fuel (before ++ r :: after) sourcePath rolesPath
          = prependTasks (tasksBefore ++ [t]) (parseTasks env fuel after sourcePath rolesPath)
      ∧ t.Module = k
      ∧ (∀ val, v = .map val → t.RawArgs = val)
      ∧ ((∀ val, v ≠ .map val) → t.RawArgs = [("__value__", v)]) := by
  refine ⟨r.foldl stepKey (initialTask r sourcePath),
    parseTasks_own_record env fuel before r after sourcePath rolesPath tasksBefore hbefore hinc,
    ?_⟩
  obtain ⟨hmod, hargs⟩ := foldl_stepKey_oneModule r (initialTask r sourcePath) k v hinc hm
  refine ⟨hmod, fun val hv => ?_, fun hv => ?_⟩
  · rw [hargs, hv]; rfl
  · rw [hargs]
    cases v with
    | map val => exact absurd rfl (hv val)
    | _ => rfl

/-- Witness of C3 (as amended): the short form `ansible.builtin.shell: echo
hello` between two other records. -/
theorem parseTasks_rawArgs_of_module_value_witness :
    parseTasks emptyEnv 0 [sayHello] "playbook.yml" "roles"
        = some ([taskOfRecord sayHello "ansible.builtin.debug" "playbook.yml"], none)
    ∧ hasIncludeTasksKey runShell = false
    ∧ moduleEntries runShell = [("ansible.builtin.shell", Value.str "echo hello")]
    ∧ ∃ t, parseTasks emptyEnv 0 ([sayHello] ++ runShell :: [sayHi]) "playbook.yml" "roles"
          = prependTasks ([taskOfRecord sayHello "ansible.builtin.debug" "playbook.yml"] ++ [t])
              (parseTasks emptyEnv 0 [sayHi] "playbook.yml" "roles")
      ∧ t.Module = "ansible.builtin.shell"
      ∧ (∀ val, Value.str "echo hello" = .map val → t.RawArgs = val)
      ∧ ((∀ val, Value.str "echo hello" ≠ .map val)
          → t.RawArgs = [("__value__", Value.str "echo hello")]) :=
  ⟨rfl, rfl, rfl,
   parseTasks_rawArgs_of_module_value emptyEnv 0 [sayHello] runShell [sayHi]
    "ansible.builtin.shell" (.str "echo hello") "playbook.yml" "roles" _ rfl rfl rfl⟩

/-- C3 (counterexample): the only module key of the record `intKeyArgs` has as
value the mapping `1: x`, whose key is a number; the Task's RawArgs is not that
mapping but the one-entry mapping from `__value__` to it. -/
theorem parseTasks_wraps_mapping_with_other_keys :
    moduleEntries intKeyArgs
        = [("ansible.builtin.debug", Value.imap [(Value.int 1, Value.str "x")])]
    ∧ hasIncludeTasksKey intKeyArgs = false
    ∧ (parseTasks emptyEnv 0 [intKeyArgs] "playbook.yml" "roles").map
        (fun res => (res.1.map (fun t => (t.Module, t.RawArgs.map Prod.fst)), res.2))
      = some ([("ansible.builtin.debug", ["__value__"])], none)
    ∧ ∃ t, parseTasks emptyEnv 0 [intKeyArgs] "playbook.yml" "roles" = some ([t], none)
        ∧ t.RawArgs = [("__value__", Value.imap [(Value.int 1, Value.str "x")])] :=
  ⟨rfl, rfl, by decide, _, rfl, rfl⟩

/-! ## vars and loop -/

/-- C17 (as amended): let the records before `r` resolve to `tasksBefore`, and
let `r` have no include key.  Whatever stands under `vars` and `loop`, `r`
yields one Task and no error, the Task standing right after `tasksBefore` in
front of what the records after `r` give; its Vars is the `vars` value when
that is a mapping with string keys only (`Value.map`) and the empty mapping
when `vars` is absent or anything else, a mapping with a key that is not a
string among them; its Loop is the `loop` string when `loop` is a string and
the empty string when `loop` is absent or anything else. -/
theorem parseTasks_vars_and_loop_defaults (env : Env) (fuel : Nat) (before : List Record)
    (r : Record) (after : List Record) (sourcePath rolesPath : String)
    (tasksBefore : List Task)
    (hbefore : parseTasks env fuel before sourcePath rolesPath = some (tasksBefore, none))
    (hu : KeysUnique r) (hinc : hasIncludeTasksKey r = false) :
    ∃ t, parseTasks env fuel (before ++ r :: after) sourcePath rolesPath
          = prependTasks (tasksBefore ++ [t]) (parseTasks env fuel after sourcePath rolesPath)
      ∧ (∀ varMap, mapIndex r "vars" = Value.map varMap → t.Vars = varMap)
      ∧ ((∀ varMap, mapIndex r "vars" ≠ Value.map varMap) → t.Vars = [])
      ∧ (∀ loopStr, mapIndex r "loop" = Value.str loopStr → t.Loop = loopStr)
      ∧ ((∀ loopStr, mapIndex r "loop" ≠ Value.str loopStr) → t.Loop = "") := by
  refine ⟨r.foldl stepKey (initialTask r sourcePath),
    parseTasks_own_record env fuel before r after sourcePath rolesPath tasksBefore hbefore hinc,
    ?_, ?_, ?_, ?_⟩
  · intro varMap hv
    rw [foldl_stepKey_Vars r _ hu, hv]
  · intro hv
    rw [foldl_stepKey_Vars r _ hu]
    cases hm : mapIndex r "vars" with
    | map varMap => exact absurd hm (hv varMap)
    | _ => rfl
  · intro loopStr hl
    rw [foldl_stepKey_Loop r _ hu, hl]
  · intro hl
    rw [foldl_stepKey_Loop r _ hu]
    cases hm : mapIndex r "loop" with
    | str loopStr => exact absurd hm (hl loopStr)
    | _ => rfl

/-- Witness of C17 (as amended): a record whose `vars` is a string and whose
`loop` is a sequence, between two other records, resolves with empty Vars and
empty Loop. -/
theorem parseTasks_vars_and_loop_defaults_witness :
    parseTasks emptyEnv 0 [sayHello] "playbook.yml" "roles"
        = some ([taskOfRecord sayHello "ansible.builtin.debug" "playbook.yml"], none)
    ∧ KeysUnique oddVarsAndLoop
    ∧ hasIncludeTasksKey oddVarsAndLoop = false
    ∧ ∃ t, parseTasks emptyEnv 0 ([sayHello] ++ oddVarsAndLoop :: [runShell]) "playbook.yml"
            "roles"
          = prependTasks ([taskOfRecord sayHello "ansible.builtin.debug" "playbook.yml"] ++ [t])
              (parseTasks emptyEnv 0 [runShell] "playbook.yml" "roles")
      ∧ (∀ varMap, mapIndex oddVarsAndLoop "vars" = Value.map varMap → t.Vars = varMap)
      ∧ ((∀ varMap, mapIndex oddVarsAndLoop "vars" ≠ Value.map varMap) → t.Vars = [])
      ∧ (∀ loopStr, mapIndex oddVarsAndLoop "loop" = Value.str loopStr → t.Loop = loopStr)
      ∧ ((∀ loopStr, mapIndex oddVarsAndLoop "loop" ≠ Value.str loopStr) → t.Loop = "") :=
  ⟨rfl, by decide, rfl,
   parseTasks_vars_and_loop_defaults emptyEnv 0 [sayHello] oddVarsAndLoop [runShell]
    "playbook.yml" "roles" _ rfl (by decide) rfl⟩

/-- C17 (counterexample): the `vars` of the record `intKeyVars` is the mapping
`1: x`, whose key is a number; the Task's Vars is not that mapping but empty. -/
theorem parseTasks_drops_vars_with_other_keys :
    mapIndex intKeyVars "vars" = Value.imap [(Value.int 1, Value.str "x")]
    ∧ hasIncludeTasksKey intKeyVars = false
    ∧ (parseTasks emptyEnv 0 [intKeyVars] "playbook.yml" "roles").map
        (fun res => (res.1.map (fun t => (t.Name, t.Vars.length)), res.2))
      = some ([("int key vars", 0)], none) :=
  ⟨rfl, rfl, by decide⟩

/-! ## The task records of a play -/

theorem rawTaskMaps_eq_mappingElements (items : List Value) :
    rawTaskMaps items = mappingElements items := by
  induction items with
  | nil => rfl
  | cons v rest ih =>
    cases v <;> simp [rawTaskMaps, mappingElements, List.filterMap_cons] <;>
      simpa [mappingElements] using ih

theorem resolvePlay_not_sequence (env : Env) (fuel : Nat) (playbookPath rolesPath : String)
    (rawPlay : Record) (h : ∀ items, mapIndex rawPlay "tasks" ≠ Value.seq items) :
    resolvePlay env fuel playbookPath rolesPath rawPlay = some ([], none) := by
  apply resolvePlay_skip
  unfold hasTaskSequence
  cases hm : mapIndex rawPlay "tasks" with
  | seq items => exact absurd hm (h items)
  | _ => rfl

theorem rangeRawPlays_acc (env : Env) (fuel : Nat) (playbookPath rolesPath : String)
    (rawPlays : List Record) (acc : List Play) :
    rangeRawPlays env fuel playbookPath rolesPath rawPlays acc
      = prependPlays acc (rangeRawPlays env fuel playbookPath rolesPath rawPlays []) := by
  rw [rangeRawPlays_eq, rangeRawPlays_eq, rangeLoop_acc]
  cases rangeLoop (resolvePlay env fuel playbookPath rolesPath) rawPlays [] with
  | none => rfl
  | some res =>
    obtain ⟨out, e⟩ := res
    cases e <;> rfl

theorem rangeRawPlays_append (env : Env) (fuel : Nat) (playbookPath rolesPath : String)
    (before after : List Record) (plays : List Play)
    (h : rangeRawPlays env fuel playbookPath rolesPath before [] = some (plays, none)) :
    rangeRawPlays env fuel playbookPath rolesPath (before ++ after) []
      = rangeRawPlays env fuel playbookPath rolesPath after plays := by
  rw [rangeRawPlays_eq] at h
  rw [rangeRawPlays_eq, rangeRawPlays_eq]
  exact rangeLoop_append _ before after [] plays h

/-- C18 (as amended): let the play records before `rawPlay` resolve to `plays`.
When the `tasks` value of `rawPlay` is a sequence, its task records are the
elements of that sequence that are mappings with string keys only, in order,
every other element being passed over: if those records resolve to
`parsedTasks` and the roles among them are inlined to `playTasks`, the Play of
`rawPlay`, with the Tasks `playTasks`, stands right after `plays` in front of
what the play records after `rawPlay` give, and if those records return an
error, that error is returned.  When the `tasks` value is not a sequence,
`rawPlay` yields no Play and no error: the result is `plays` in front of what
the play records after `rawPlay` give. -/
theorem LoadPlaybook_task_records_are_mapping_elements (env : Env) (fuel : Nat)
    (data playbookPath rolesPath : String) (playsBefore : List Record) (rawPlay : Record)
    (playsAfter : List Record) (plays : List Play)
    (hdec : env.Unmarshal data = .ok (playsBefore ++ rawPlay :: playsAfter))
    (hbefore : rangeRawPlays env fuel playbookPath rolesPath playsBefore []
      = some (plays, none)) :
    (∀ items parsedTasks playTasks,
        mapIndex rawPlay "tasks" = Value.seq items →
        parseTasks env fuel (mappingElements items) playbookPath rolesPath
          = some (parsedTasks, none) →
        rangeParsedTasks env fuel rolesPath parsedTasks [] = some (playTasks, none) →
        LoadPlaybook env fuel data playbookPath rolesPath
          = prependPlays (plays ++ [{ Name := safeString (mapIndex rawPlay "name")
                                      Hosts := safeString (mapIndex rawPlay "hosts")
                                      Tasks := playTasks }])
              (rangeRawPlays env fuel playbookPath rolesPath playsAfter []))
    ∧ (∀ items out err,
        mapIndex rawPlay "tasks" = Value.seq items →
        parseTasks env fuel (mappingElements items) playbookPath rolesPath
          = some (out, some err) →
        LoadPlaybook env fuel data playbookPath rolesPath = some ([], some err))
    ∧ ((∀ items, mapIndex rawPlay "tasks" ≠ Value.seq items) →
        LoadPlaybook env fuel data playbookPath rolesPath
          = prependPlays plays (rangeRawPlays env fuel playbookPath rolesPath playsAfter [])) := by
  have hload : LoadPlaybook env fuel data playbookPath rolesPath
      = rangeRawPlays env fuel playbookPath rolesPath (rawPlay :: playsAfter) plays := by
    unfold LoadPlaybook
    rw [hdec]
    simp only
    exact rangeRawPlays_append env fuel playbookPath rolesPath playsBefore _ plays hbefore
  refine ⟨?_, ?_, ?_⟩
  · intro items parsedTasks playTasks hseq hparse hrole
    rw [hload, rangeRawPlays, hseq]
    simp only
    rw [rawTaskMaps_eq_mappingElements, hparse]
    simp only
    rw [hrole]
    simp only
    exact rangeRawPlays_acc env fuel playbookPath rolesPath playsAfter _
  · intro items out err hseq hparse
    rw [hload, rangeRawPlays, hseq]
    simp only
    rw [rawTaskMaps_eq_mappingElements, hparse]
  · intro hnot
    rw [hload, rangeRawPlays_eq, rangeLoop,
      resolvePlay_not_sequence env fuel playbookPath rolesPath rawPlay hnot]
    simp only [List.append_nil]
    rw [← rangeRawPlays_eq]
    exact rangeRawPlays_acc env fuel playbookPath rolesPath playsAfter _

set_option maxRecDepth 100000 in
/-- Witness of C18 (as amended): in a playbook of three play records, the
second has under `tasks` a mapping, a string, a number and a mapping with a
number as key, and gives the Play with the Task of the first mapping; the third
has a scalar under `tasks` and gives no Play. -/
theorem LoadPlaybook_task_records_are_mapping_elements_witness :
    mixedTasksEnv.Unmarshal mixedTasksText
        = .ok ([helloPlay] ++ mixedTasksPlay :: [badTasksPlay])
    ∧ mappingElements
        [.map sayHello, .str "oops", .int 3, .imap [(.int 1, .str "x")]] = [sayHello]
    ∧ LoadPlaybook mixedTasksEnv 0 mixedTasksText "playbook.yml" "roles"
        = prependPlays
            ([{ Name := "test play", Hosts := "all",
                Tasks := [taskOfRecord sayHello "ansible.builtin.debug" "playbook.yml"] }]
              ++ [{ Name := safeString (mapIndex mixedTasksPlay "name")
                    Hosts := safeString (mapIndex mixedTasksPlay "hosts")
                    Tasks := [taskOfRecord sayHello "ansible.builtin.debug" "playbook.yml"] }])
            (rangeRawPlays mixedTasksEnv 0 "playbook.yml" "roles" [badTasksPlay] [])
    ∧ LoadPlaybook mixedTasksEnv 0 mixedTasksText "playbook.yml" "roles"
        = prependPlays
            [{ Name := "test play", Hosts := "all",
               Tasks := [taskOfRecord sayHello "ansible.builtin.debug" "playbook.yml"] },
             { Name := "mixed play", Hosts := "all",
               Tasks := [taskOfRecord sayHello "ansible.builtin.debug" "playbook.yml"] }]
            (rangeRawPlays mixedTasksEnv 0 "playbook.yml" "roles" [] []) :=
  ⟨rfl, rfl,
   (LoadPlaybook_task_records_are_mapping_elements mixedTasksEnv 0 mixedTasksText
      "playbook.yml" "roles" [helloPlay] mixedTasksPlay [badTasksPlay] _ rfl rfl).1
      [.map sayHello, .str "oops", .int 3, .imap [(.int 1, .str "x")]]
      [taskOfRecord sayHello "ansible.builtin.debug" "playbook.yml"]
      [taskOfRecord sayHello "ansible.builtin.debug" "playbook.yml"] rfl rfl rfl,
   (LoadPlaybook_task_records_are_mapping_elements mixedTasksEnv 0 mixedTasksText
      "playbook.yml" "roles" [helloPlay, mixedTasksPlay] badTasksPlay [] _ rfl rfl).2.2
      (fun _ hs => Value.noConfusion hs)⟩

set_option maxRecDepth 100000 in
/-- C18 (counterexample): the `tasks` sequence of `mixedTasksPlay`, the second
of three play records, holds a mapping, the string `oops`, the number 3 and a
mapping with a number as key; the play resolves without error to one Task,
that of the first mapping, not to zero tasks. -/
theorem LoadPlaybook_keeps_mappings_of_mixed_sequence :
    mixedTasksEnv.Unmarshal mixedTasksText = .ok [helloPlay, mixedTasksPlay, badTasksPlay]
    ∧ mapIndex mixedTasksPlay "tasks"
        = .seq [.map sayHello, .str "oops", .int 3, .imap [(.int 1, .str "x")]]
    ∧ (LoadPlaybook mixedTasksEnv 0 mixedTasksText "playbook.yml" "roles").map
        (fun res => (res.1.map (fun play => (play.Name, play.Tasks.map (fun t => t.Name))),
          res.2))
      = some ([("test play", ["say hello"]), ("mixed play", ["say hello"])], none) :=
  ⟨rfl, rfl, by decide⟩

/-! ## Provenance -/

theorem forall₂_exists_left {α β : Type} {R : α → β → Prop} {xs : List α} {ys : List β}
    (h : List.Forall₂ R xs ys) {y : β} (hy : y ∈ ys) : ∃ x ∈ xs, R x y := by
  induction h with
  | nil => cases hy
  | cons hxy _ ih =>
    rcases List.mem_cons.mp hy with rfl | hy1
    · exact ⟨_, List.mem_cons_self _ _, hxy⟩
    · obtain ⟨x, hx, hR⟩ := ih hy1
      exact ⟨x, List.mem_cons_of_mem _ hx, hR⟩

theorem parseTasks_contributes {env : Env} {fuel : Nat} {records : List Record}
    {sourcePath rolesPath : String} {tasks : List Task}
    (h : parseTasks env fuel records sourcePath rolesPath = some (tasks, none)) {t : Task}
    (ht : t ∈ tasks) :
    ∃ r ∈ records, ∃ part, t ∈ part ∧ Contributes env fuel sourcePath rolesPath r part := by
  rw [parseTasks_eq] at h
  obtain ⟨parts, hparts, rfl⟩ := rangeRawTasks_concat env fuel sourcePath rolesPath records tasks h
  obtain ⟨part, hpart, htp⟩ := List.mem_flatten.mp ht
  obtain ⟨r, hr, hc⟩ := forall₂_exists_left hparts hpart
  exact ⟨r, hr, part, htp, hc⟩

theorem parseTasks_definedIn {env : Env} {fuel : Nat} {records : List Record}
    {sourcePath rolesPath : String} {tasks : List Task}
    (h : parseTasks env fuel records sourcePath rolesPath = some (tasks, none)) {t : Task}
    (ht : t ∈ tasks) : ∃ file, DefinedIn env records sourcePath t file ∧ t.Source = file := by
  induction fuel generalizing records sourcePath tasks t with
  | zero =>
    obtain ⟨r, hr, part, htp, hown, hinc⟩ := parseTasks_contributes h ht
    cases hk : hasIncludeTasksKey r with
    | false =>
      rw [hown hk, List.mem_singleton] at htp
      subst htp
      exact ⟨sourcePath, .own records sourcePath r hr hk, foldl_stepKey_Source _ _⟩
    | true =>
      obtain ⟨_, _, _, _, fuel1, hfuel, _⟩ := hinc hk
      omega
  | succ n ih =>
    obtain ⟨r, hr, part, htp, hown, hinc⟩ := parseTasks_contributes h ht
    cases hk : hasIncludeTasksKey r with
    | false =>
      rw [hown hk, List.mem_singleton] at htp
      subst htp
      exact ⟨sourcePath, .own records sourcePath r hr hk, foldl_stepKey_Source _ _⟩
    | true =>
      obtain ⟨k, includePath, data, includedRaw, fuel1, hfuel, hmem, hkey, hread, hdec, hnested⟩ :=
        hinc hk
      have hn : fuel1 = n := by omega
      subst hn
      obtain ⟨file, hdef, hsrc⟩ := ih hnested htp
      exact ⟨file, .inlined records sourcePath r k includePath data includedRaw t file hr hmem
        hkey hread hdec hdef, hsrc⟩

theorem contributes_from {env : Env} {fuel : Nat} {sourcePath rolesPath : String}
    {r : Record} {part : List Task} (h : Contributes env fuel sourcePath rolesPath r part) :
    ContributesFrom env fuel sourcePath rolesPath r part :=
  ⟨fun hk => ⟨_, h.1 hk, foldl_stepKey_Source _ _⟩, h.2⟩

/-- C14: in a successful `parseTasks` the output is the concatenation of one
part per record; the Task of a record without include key has Source equal to
the source path, and the Tasks of a record with an include key of string value
`p` are those of the nested call on the file at the join of the directory of
the source path and `p`, made with that joined path as source path.  Hence
every Task of the output is the Task of a record that stands in the file its
Source names, a file reached from the source path through includes each
resolved relative to the directory of the including file. -/
theorem parseTasks_source_is_defining_file (env : Env) (fuel : Nat) (records : List Record)
    (sourcePath rolesPath : String) (tasks : List Task)
    (h : parseTasks env fuel records sourcePath rolesPath = some (tasks, none)) :
    (∃ parts, List.Forall₂ (ContributesFrom env fuel sourcePath rolesPath) records parts
        ∧ tasks = parts.flatten)
    ∧ ∀ t ∈ tasks, ∃ file, DefinedIn env records sourcePath t file ∧ t.Source = file := by
  refine ⟨?_, fun t ht => parseTasks_definedIn h ht⟩
  rw [parseTasks_eq] at h
  obtain ⟨parts, hparts, hflat⟩ :=
    rangeRawTasks_concat env fuel sourcePath rolesPath records tasks h
  exact ⟨parts, hparts.imp (fun _ _ hc => contributes_from hc), hflat⟩

/-- Witness of C14: a playbook in `site` includes `tasks/outer.yml`, which
includes `inner.yml`; the three Tasks carry the paths of their own files, and
`inner.yml` is found in the directory of `outer.yml`. -/
theorem parseTasks_source_is_defining_file_witness :
    parseTasks nestedEnv 2 [sayHello, includeOuter] "site/playbook.yml" "roles"
        = some ([taskOfRecord sayHello "ansible.builtin.debug" "site/playbook.yml",
                 taskOfRecord outerTask "ansible.builtin.debug" "site/tasks/outer.yml",
                 taskOfRecord innerTask "ansible.builtin.debug" "site/tasks/inner.yml"], none)
    ∧ ((∃ parts, List.Forall₂ (ContributesFrom nestedEnv 2 "site/playbook.yml" "roles")
            [sayHello, includeOuter] parts
          ∧ [taskOfRecord sayHello "ansible.builtin.debug" "site/playbook.yml",
             taskOfRecord outerTask "ansible.builtin.debug" "site/tasks/outer.yml",
             taskOfRecord innerTask "ansible.builtin.debug" "site/tasks/inner.yml"]
            = parts.flatten)
      ∧ ∀ t ∈ [taskOfRecord sayHello "ansible.builtin.debug" "site/playbook.yml",
               taskOfRecord outerTask "ansible.builtin.debug" "site/tasks/outer.yml",
               taskOfRecord innerTask "ansible.builtin.debug" "site/tasks/inner.yml"],
          ∃ file, DefinedIn nestedEnv [sayHello, includeOuter] "site/playbook.yml" t file
            ∧ t.Source = file) :=
  ⟨rfl, parseTasks_source_is_defining_file nestedEnv 2 [sayHello, includeOuter]
    "site/playbook.yml" "roles" _ rfl⟩

/-! ## Non-empty sources -/

theorem string_ne_empty_of_data {s : String} (h : s.data ≠ []) : s ≠ "" := by
  intro hs
  rw [hs] at h
  exact h rfl

theorem append_ne_empty_left {a b : String} (h : a ≠ "") : a ++ b ≠ "" := by
  apply string_ne_empty_of_data
  rw [String.data_append]
  intro hd
  have : a.data = [] := (List.append_eq_nil.mp hd).1
  exact h (String.ext this)

theorem foldl_join_ne_empty (rest : List String) (first : String) (h : first ≠ "") :
    rest.foldl (fun acc s => acc ++ "/" ++ s) first ≠ "" := by
  induction rest generalizing first with
  | nil => exact h
  | cons s rest ih =>
    rw [List.foldl_cons]
    exact ih _ (append_ne_empty_left (append_ne_empty_left h))

theorem exampleDir_ne_empty (p : String) : exampleDir p ≠ "" := by
  unfold exampleDir
  split
  · decide
  · rename_i dir hdir
    exact string_ne_empty_of_data hdir

theorem exampleJoin_ne_empty (parts : List String) (h : ∃ x ∈ parts, x ≠ "") :
    exampleJoin parts ≠ "" := by
  unfold exampleJoin
  split
  · have hall : parts.all (fun s => decide (s = "")) = false := by
      obtain ⟨x, hx, hne⟩ := h
      rw [Bool.eq_false_iff]
      intro hall
      rw [List.all_eq_true] at hall
      exact hne (by simpa using hall x hx)
    rw [hall]
    decide
  · rename_i first rest heq
    apply foldl_join_ne_empty
    have hmem : first ∈ parts.filter (fun s => !(decide (s = "") || decide (s = "."))) := by
      rw [heq]
      exact List.mem_cons_self _ _
    have hp := (List.mem_filter.mp hmem).2
    intro hfirst
    rw [hfirst] at hp
    simp at hp

theorem memoryEnv_pathLaws (files : List (String × String))
    (docs : List (String × List Record)) : PathLaws (memoryEnv files docs) :=
  ⟨exampleDir_ne_empty, exampleJoin_ne_empty⟩

theorem definedIn_file_ne_empty {env : Env} (hlaws : PathLaws env) {records : List Record}
    {sourcePath : String} {t : Task} {file : String}
    (h : DefinedIn env records sourcePath t file) (hsp : sourcePath ≠ "") : file ≠ "" := by
  induction h with
  | own => exact hsp
  | inlined records sourcePath r k includePath _ _ _ _ _ _ _ _ _ _ ih =>
    exact ih (hlaws.2 _ ⟨env.Dir sourcePath, List.mem_cons_self _ _, hlaws.1 sourcePath⟩)

theorem roleTasksPath_ne_empty {env : Env} (hlaws : PathLaws env) (roleName rolesPath : String) :
    roleTasksPath env roleName rolesPath ≠ "" :=
  hlaws.2 _ ⟨"tasks", by simp, by decide⟩

theorem loadRoleTasks_ok {env : Env} {fuel : Nat} {roleName rolesPath : String}
    {tasks : List Task}
    (h : LoadRoleTasks env fuel roleName rolesPath = some (tasks, none)) :
    ∃ data rawTasks, env.ReadFile (roleTasksPath env roleName rolesPath) = .ok data
      ∧ env.Unmarshal data = .ok rawTasks
      ∧ parseTasks env fuel rawTasks (roleTasksPath env roleName rolesPath) rolesPath
          = some (tasks, none) := by
  cases hr : env.ReadFile (roleTasksPath env roleName rolesPath) with
  | error e =>
    rw [LoadRoleTasks_read_error env fuel roleName rolesPath e hr] at h
    simp at h
  | ok data =>
    cases hu : env.Unmarshal data with
    | error e =>
      rw [LoadRoleTasks_decode_error env fuel roleName rolesPath data e hr hu] at h
      simp at h
    | ok rawTasks =>
      rw [LoadRoleTasks_delegates env fuel roleName rolesPath data rawTasks hr hu] at h
      exact ⟨data, rawTasks, rfl, hu, h⟩

/-- Where a Task of a returned Play comes from: it is a Task of the
`parseTasks` output of a play record that is not an `include_role`, or a Task
of the output of `LoadRoleTasks` for the role an `include_role` Task names. -/
theorem loadPlaybook_task_origin {env : Env} {fuel : Nat}
    {data playbookPath rolesPath : String} {plays : List Play} {rawPlays : List Record}
    (h : LoadPlaybook env fuel data playbookPath rolesPath = some (plays, none))
    (hdec : env.Unmarshal data = .ok rawPlays) {play : Play} (hplay : play ∈ plays)
    {t : Task} (ht : t ∈ play.Tasks) :
    ∃ rawPlay ∈ rawPlays, ∃ items parsedTasks,
      mapIndex rawPlay "tasks" = Value.seq items
      ∧ parseTasks env fuel (rawTaskMaps items) playbookPath rolesPath
          = some (parsedTasks, none)
      ∧ ((t ∈ parsedTasks ∧ isIncludeRole t = false)
        ∨ ∃ u ∈ parsedTasks, isIncludeRole u = true
            ∧ ∃ n roleTasks, mapIndex u.RawArgs "name" = Value.str n ∧ n ≠ ""
              ∧ LoadRoleTasks env fuel n rolesPath = some (roleTasks, none)
              ∧ t ∈ roleTasks) := by
  obtain ⟨rawPlay, hraw, items, parsedTasks, parts, hseq, hparse, hparts, rfl⟩ :=
    forall₂_exists_left (loadPlaybook_ok h hdec) hplay
  refine ⟨rawPlay, (List.mem_filter.mp hraw).1, items, parsedTasks, hseq, hparse, ?_⟩
  obtain ⟨part, hpart, htp⟩ := List.mem_flatten.mp ht
  obtain ⟨u, hu, hown, hrole⟩ := forall₂_exists_left hparts hpart
  cases hk : isIncludeRole u with
  | false =>
    rw [hown hk, List.mem_singleton] at htp
    subst htp
    exact Or.inl ⟨hu, hk⟩
  | true =>
    obtain ⟨n, hname, hne, hload⟩ := hrole hk
    exact Or.inr ⟨u, hu, hk, n, part, hname, hne, hload, htp⟩

/-- C15 (as amended): with `filepath.Dir` never empty and `filepath.Join`
empty only on empty elements, every Task that `parseTasks` returns for a
non-empty source path, every Task that `LoadRoleTasks` returns, and every Task
of every Play that `LoadPlaybook` returns for a non-empty playbook path has a
non-empty Source. -/
theorem returned_tasks_have_source (env : Env) (fuel : Nat) (hlaws : PathLaws env) :
    (∀ records sourcePath rolesPath tasks, sourcePath ≠ "" →
        parseTasks env fuel records sourcePath rolesPath = some (tasks, none) →
        ∀ t ∈ tasks, t.Source ≠ "")
    ∧ (∀ roleName rolesPath tasks,
        LoadRoleTasks env fuel roleName rolesPath = some (tasks, none) →
        ∀ t ∈ tasks, t.Source ≠ "")
    ∧ (∀ data playbookPath rolesPath plays, playbookPath ≠ "" →
        LoadPlaybook env fuel data playbookPath rolesPath = some (plays, none) →
        ∀ play ∈ plays, ∀ t ∈ play.Tasks, t.Source ≠ "") := by
  have hparse : ∀ records sourcePath rolesPath tasks, sourcePath ≠ "" →
      parseTasks env fuel records sourcePath rolesPath = some (tasks, none) →
      ∀ t ∈ tasks, t.Source ≠ "" := by
    intro records sourcePath rolesPath tasks hsp h t ht
    obtain ⟨file, hdef, hsrc⟩ := parseTasks_definedIn h ht
    rw [hsrc]
    exact definedIn_file_ne_empty hlaws hdef hsp
  have hrole : ∀ roleName rolesPath tasks,
      LoadRoleTasks env fuel roleName rolesPath = some (tasks, none) →
      ∀ t ∈ tasks, t.Source ≠ "" := by
    intro roleName rolesPath tasks h t ht
    obtain ⟨data, rawTasks, _, _, hp⟩ := loadRoleTasks_ok h
    exact hparse rawTasks _ rolesPath tasks (roleTasksPath_ne_empty hlaws roleName rolesPath)
      hp t ht
  refine ⟨hparse, hrole, ?_⟩
  intro data playbookPath rolesPath plays hpp h play hplay t ht
  cases hdec : env.Unmarshal data with
  | error e =>
    unfold LoadPlaybook at h
    rw [hdec] at h
    simp at h
  | ok rawPlays =>
    obtain ⟨rawPlay, _, items, parsedTasks, _, hp, horigin⟩ :=
      loadPlaybook_task_origin h hdec hplay ht
    rcases horigin with ⟨htp, _⟩ | ⟨u, _, _, n, roleTasks, _, _, hload, htr⟩
    · exact hparse _ playbookPath rolesPath parsedTasks hpp hp t htp
    · exact hrole n rolesPath roleTasks hload t htr

set_option maxRecDepth 100000 in
/-- Witness of C15 (as amended): the playbook that includes `myrole`, loaded
under the path `playbook.yml`. -/
theorem returned_tasks_have_source_witness :
    LoadPlaybook roleEnv 0 rolePlayText "playbook.yml" "roles"
        = some ([{ Name := "test play", Hosts := "all",
                   Tasks := [taskOfRecord sayHello "ansible.builtin.debug" "playbook.yml",
                             taskOfRecord roleDebug "ansible.builtin.debug"
                               "roles/myrole/tasks/main.yml",
                             taskOfRecord runShell "ansible.builtin.shell" "playbook.yml"] }],
                none)
    ∧ ∀ play ∈ [({ Name := "test play", Hosts := "all",
                   Tasks := [taskOfRecord sayHello "ansible.builtin.debug" "playbook.yml",
                             taskOfRecord roleDebug "ansible.builtin.debug"
                               "roles/myrole/tasks/main.yml",
                             taskOfRecord runShell "ansible.builtin.shell" "playbook.yml"] }
                  : Play)],
        ∀ t ∈ play.Tasks, t.Source ≠ "" :=
  ⟨rfl, (returned_tasks_have_source roleEnv 0 (memoryEnv_pathLaws _ _)).2.2 rolePlayText
    "playbook.yml" "roles" _ (by decide) rfl⟩

set_option maxRecDepth 100000 in
/-- C15 (counterexample): called with the empty string as source path or
playbook path, `parseTasks` and `LoadPlaybook` return a Task whose Source is
the empty string. -/
theorem empty_path_gives_empty_source :
    (parseTasks emptyEnv 0 [sayHello] "" "roles").map
        (fun res => (res.1.map (fun t => (t.Name, t.Source)), res.2))
      = some ([("say hello", "")], none)
    ∧ (LoadPlaybook threePlaysEnv 0 threePlaysText "" "roles").map
        (fun res => (res.1.map (fun play => play.Tasks.map (fun t => (t.Name, t.Source))),
          res.2))
      = some ([[("say hello", "")]], none) := by
  decide

/-! ## Role tasks in a Play -/

theorem forall₂_append_split {α β : Type} {R : α → β → Prop} (xs ys : List α) (zs : List β)
    (h : List.Forall₂ R (xs ++ ys) zs) :
    ∃ zs1 zs2, List.Forall₂ R xs zs1 ∧ List.Forall₂ R ys zs2 ∧ zs = zs1 ++ zs2 := by
  induction xs generalizing zs with
  | nil => exact ⟨[], zs, List.Forall₂.nil, h, rfl⟩
  | cons x rest ih =>
    rw [List.cons_append] at h
    cases h with
    | cons hx hrest =>
      obtain ⟨zs1, zs2, h1, h2, rfl⟩ := ih _ hrest
      exact ⟨_ :: zs1, zs2, List.Forall₂.cons hx h1, h2, rfl⟩

theorem rangeLoop_ok_split {α β : Type} (step : α → Option (Returned β)) (before : List α)
    (x : α) (after : List α) (out : List β)
    (h : rangeLoop step (before ++ x :: after) [] = some (out, none)) :
    ∃ outBefore part outAfter,
      rangeLoop step before [] = some (outBefore, none)
      ∧ step x = some (part, none)
      ∧ rangeLoop step after [] = some (outAfter, none)
      ∧ out = outBefore ++ part ++ outAfter := by
  obtain ⟨parts, hparts, rfl⟩ := (rangeLoop_ok_iff step _ _).mp h
  obtain ⟨partsB, rest, hB, hrest, rfl⟩ := forall₂_append_split _ _ _ hparts
  cases hrest with
  | cons hx hA =>
    rename_i part partsA
    refine ⟨partsB.flatten, part, partsA.flatten,
      (rangeLoop_ok_iff step _ _).mpr ⟨partsB, hB, rfl⟩, hx,
      (rangeLoop_ok_iff step _ _).mpr ⟨partsA, hA, rfl⟩, ?_⟩
    simp [List.append_assoc]

theorem rangeRawTasks_noInclude_map (env : Env)
    (recurse : List Record → String → Option (Returned Task))
    (sourcePath baseDir : String) (records : List Record)
    (h : ∀ r ∈ records, hasIncludeTasksKey r = false) :
    rangeRawTasks env recurse sourcePath baseDir records []
      = some (records.map (fun r => r.foldl stepKey (initialTask r sourcePath)), none) := by
  induction records with
  | nil => rfl
  | cons r rest ih =>
    rw [rangeRawTasks, rangeTaskMap_noInclude env recurse baseDir r _
      (h r (List.mem_cons_self _ _))]
    simp only
    rw [rangeRawTasks_acc, ih (fun x hx => h x (List.mem_cons_of_mem _ hx))]
    rfl

/-- C16 (as amended): in a playbook that resolves without error, let an
`include_role` Task name the role `n`, whose task file reads and decodes to the
records `roleRecords`.  Then the Play of its play record holds, at the position
of that Task, the output `roleTasks` of `LoadRoleTasks` for `n`.  That output is
the concatenation of one part per record of the role's task file: a record
without include key gives one Task, whose Source is the path of the role's task
file, and a record with an include key gives the Tasks of the nested call on the
included file, so that every Task of `roleTasks` has as Source the path of the
file in which its record stands, a file reached from the role's task file
through includes.  When no record of the role's task file has an include key,
there is one Task per record and every one has the path of the role's task file
as Source. -/
theorem LoadPlaybook_role_tasks_carry_role_path (env : Env) (fuel : Nat)
    (data playbookPath rolesPath : String) (playsBefore : List Record) (rawPlay : Record)
    (playsAfter : List Record) (items : List Value) (tasksBefore : List Task) (t : Task)
    (tasksAfter : List Task) (n roleData : String) (roleRecords : List Record)
    (plays : List Play)
    (hdec : env.Unmarshal data = .ok (playsBefore ++ rawPlay :: playsAfter))
    (htasks : mapIndex rawPlay "tasks" = Value.seq items)
    (hparse : parseTasks env fuel (rawTaskMaps items) playbookPath rolesPath
      = some (tasksBefore ++ t :: tasksAfter, none))
    (hrole : isIncludeRole t = true)
    (hname : mapIndex t.RawArgs "name" = Value.str n)
    (hread : env.ReadFile (roleTasksPath env n rolesPath) = .ok roleData)
    (hrdec : env.Unmarshal roleData = .ok roleRecords)
    (h : LoadPlaybook env fuel data playbookPath rolesPath = some (plays, none)) :
    ∃ playsB play playsA tasksB roleTasks tasksA,
      plays = playsB ++ play :: playsA
      ∧ rangeRawPlays env fuel playbookPath rolesPath playsBefore [] = some (playsB, none)
      ∧ NamedAfter rawPlay play
      ∧ play.Tasks = tasksB ++ roleTasks ++ tasksA
      ∧ rangeParsedTasks env fuel rolesPath tasksBefore [] = some (tasksB, none)
      ∧ LoadRoleTasks env fuel n rolesPath = some (roleTasks, none)
      ∧ (∃ parts, List.Forall₂
            (ContributesFrom env fuel (roleTasksPath env n rolesPath) rolesPath)
            roleRecords parts
          ∧ roleTasks = parts.flatten)
      ∧ (∀ u ∈ roleTasks, ∃ file,
          DefinedIn env roleRecords (roleTasksPath env n rolesPath) u file ∧ u.Source = file)
      ∧ ((∀ r ∈ roleRecords, hasIncludeTasksKey r = false) →
          roleTasks.length = roleRecords.length
          ∧ ∀ u ∈ roleTasks, u.Source = roleTasksPath env n rolesPath) := by
  unfold LoadPlaybook at h
  rw [hdec] at h
  simp only at h
  rw [rangeRawPlays_eq] at h
  obtain ⟨playsB, part, playsA, hB, hx, _, rfl⟩ := rangeLoop_ok_split _ _ _ _ _ h
  unfold resolvePlay at hx
  simp only [htasks, hparse] at hx
  cases hq : rangeParsedTasks env fuel rolesPath (tasksBefore ++ t :: tasksAfter) [] with
  | none => rw [hq] at hx; simp at hx
  | some res =>
    obtain ⟨playTasks, e⟩ := res
    rw [hq] at hx
    cases e with
    | some err => simp at hx
    | none =>
      simp only [Option.some.injEq, Prod.mk.injEq, and_true] at hx
      rw [rangeParsedTasks_eq] at hq
      obtain ⟨tasksB, roleTasks, tasksA, hTB, hstep, _, rfl⟩ := rangeLoop_ok_split _ _ _ _ _ hq
      obtain ⟨_, hin⟩ := (inlineTask_ok_iff env fuel rolesPath t roleTasks).mp hstep
      obtain ⟨n1, hn1, _, hload⟩ := hin hrole
      rw [hname] at hn1
      simp only [Value.str.injEq] at hn1
      subst hn1
      have hp : parseTasks env fuel roleRecords (roleTasksPath env n rolesPath) rolesPath
          = some (roleTasks, none) := by
        rw [← LoadRoleTasks_delegates env fuel n rolesPath roleData roleRecords hread hrdec]
        exact hload
      have hp2 := hp
      rw [parseTasks_eq] at hp2
      obtain ⟨parts, hparts, hflat⟩ :=
        rangeRawTasks_concat env fuel (roleTasksPath env n rolesPath) rolesPath roleRecords
          roleTasks hp2
      refine ⟨playsB,
        { Name := safeString (mapIndex rawPlay "name")
          Hosts := safeString (mapIndex rawPlay "hosts")
          Tasks := tasksB ++ roleTasks ++ tasksA },
        playsA, tasksB, roleTasks, tasksA, ?_, ?_, ⟨rfl, rfl⟩, rfl, ?_, hload,
        ⟨parts, hparts.imp (fun _ _ hc => contributes_from hc), hflat⟩,
        fun u hu => parseTasks_definedIn hp hu, fun hnoinc => ?_⟩
      · rw [← hx]; simp
      · rw [rangeRawPlays_eq]; exact hB
      · rw [rangeParsedTasks_eq]; exact hTB
      · rw [rangeRawTasks_noInclude_map env _ _ _ roleRecords hnoinc] at hp2
        simp only [Option.some.injEq, Prod.mk.injEq, and_true] at hp2
        refine ⟨by rw [← hp2]; simp, fun u hu => ?_⟩
        rw [← hp2] at hu
        obtain ⟨r, _, rfl⟩ := List.mem_map.mp hu
        exact foldl_stepKey_Source _ _

set_option maxRecDepth 100000 in
/-- Witness of C16 (as amended): the role `myrole`, whose task file holds a
task and the include of `extra.yml`, included between two tasks of the
playbook. -/
theorem LoadPlaybook_role_tasks_carry_role_path_witness :
    LoadPlaybook roleIncludeEnv 1 rolePlayText "playbook.yml" "roles"
      = some ([{ Name := "test play", Hosts := "all",
                 Tasks := [taskOfRecord sayHello "ansible.builtin.debug" "playbook.yml",
                           taskOfRecord roleDebug "ansible.builtin.debug"
                             "roles/myrole/tasks/main.yml",
                           taskOfRecord extraTask "ansible.builtin.debug"
                             "roles/myrole/tasks/extra.yml",
                           taskOfRecord runShell "ansible.builtin.shell" "playbook.yml"] }],
              none)
    ∧ ∃ playsB play playsA tasksB roleTasks tasksA,
      [({ Name := "test play", Hosts := "all",
          Tasks := [taskOfRecord sayHello "ansible.builtin.debug" "playbook.yml",
                    taskOfRecord roleDebug "ansible.builtin.debug"
                      "roles/myrole/tasks/main.yml",
                    taskOfRecord extraTask "ansible.builtin.debug"
                      "roles/myrole/tasks/extra.yml",
                    taskOfRecord runShell "ansible.builtin.shell" "playbook.yml"] } : Play)]
        = playsB ++ play :: playsA
      ∧ rangeRawPlays roleIncludeEnv 1 "playbook.yml" "roles" [] [] = some (playsB, none)
      ∧ NamedAfter rolePlay play
      ∧ play.Tasks = tasksB ++ roleTasks ++ tasksA
      ∧ rangeParsedTasks roleIncludeEnv 1 "roles"
          [taskOfRecord sayHello "ansible.builtin.debug" "playbook.yml"] []
          = some (tasksB, none)
      ∧ LoadRoleTasks roleIncludeEnv 1 "myrole" "roles" = some (roleTasks, none)
      ∧ (∃ parts, List.Forall₂
            (ContributesFrom roleIncludeEnv 1 (roleTasksPath roleIncludeEnv "myrole" "roles")
              "roles")
            [roleDebug, includeExtra] parts
          ∧ roleTasks = parts.flatten)
      ∧ (∀ u ∈ roleTasks, ∃ file,
          DefinedIn roleIncludeEnv [roleDebug, includeExtra]
            (roleTasksPath roleIncludeEnv "myrole" "roles") u file ∧ u.Source = file)
      ∧ ((∀ r ∈ [roleDebug, includeExtra], hasIncludeTasksKey r = false) →
          roleTasks.length = [roleDebug, includeExtra].length
          ∧ ∀ u ∈ roleTasks, u.Source = roleTasksPath roleIncludeEnv "myrole" "roles") :=
  ⟨rfl,
   LoadPlaybook_role_tasks_carry_role_path roleIncludeEnv 1 rolePlayText "playbook.yml" "roles"
    [] rolePlay [] [.map sayHello, .map includeRealRole, .map runShell]
    [taskOfRecord sayHello "ansible.builtin.debug" "playbook.yml"]
    { Name := "include real role", Module := "ansible.builtin.include_role",
      RawArgs := [("name", .str "myrole")], Vars := [], Loop := "", Source := "playbook.yml" }
    [taskOfRecord runShell "ansible.builtin.shell" "playbook.yml"]
    "myrole" roleMainText [roleDebug, includeExtra] _ rfl rfl rfl rfl rfl rfl rfl rfl⟩

set_option maxRecDepth 100000 in
/-- C16 (counterexample): the task file of `myrole` includes `extra.yml`; the
Task of `extra.yml`, inlined into the Play for the role, has the path of
`extra.yml` as Source, not the path of the role's task file. -/
theorem LoadPlaybook_role_task_from_included_file :
    roleTasksPath roleIncludeEnv "myrole" "roles" = "roles/myrole/tasks/main.yml"
    ∧ (LoadRoleTasks roleIncludeEnv 1 "myrole" "roles").map
        (fun res => (res.1.map (fun t => (t.Name, t.Source)), res.2))
      = some ([("role | main | test", "roles/myrole/tasks/main.yml"),
               ("extra", "roles/myrole/tasks/extra.yml")], none)
    ∧ (LoadPlaybook roleIncludeEnv 1 rolePlayText "playbook.yml" "roles").map
        (fun res => (res.1.map (fun play => play.Tasks.map (fun t => (t.Name, t.Source))),
          res.2))
      = some ([[("say hello", "playbook.yml"),
                ("role | main | test", "roles/myrole/tasks/main.yml"),
                ("extra", "roles/myrole/tasks/extra.yml"),
                ("run shell", "playbook.yml")]], none) := by
  decide

/-! ## Modules -/

theorem stepKey_module_ok (task : Task) (k : String) (v : Value)
    (hk : isIncludeTasksKey k = false)
    (h : task.Module = "" ∨ isModuleKey task.Module = true) :
    (stepKey task (k, v)).Module = "" ∨ isModuleKey (stepKey task (k, v)).Module = true := by
  by_cases hm : isModuleKey k = true
  · rw [stepKey_module task k v hm]
    exact Or.inr hm
  · have hm2 : isModuleKey k = false := by simpa using hm
    rw [(stepKey_not_module task k v hm2 hk).1]
    exact h

theorem foldl_stepKey_module_ok (r : Record) (task : Task)
    (hinc : hasIncludeTasksKey r = false)
    (h : task.Module = "" ∨ isModuleKey task.Module = true) :
    (r.foldl stepKey task).Module = ""
      ∨ isModuleKey (r.foldl stepKey task).Module = true := by
  induction r generalizing task with
  | nil => exact h
  | cons kv rest ih =>
    obtain ⟨k, v⟩ := kv
    simp only [hasIncludeTasksKey, List.any_cons, Bool.or_eq_false_iff] at hinc
    rw [List.foldl_cons]
    exact ih _ hinc.2 (stepKey_module_ok task k v hinc.1 h)

theorem not_mem_switchKeys {m : String} (h : m = "" ∨ isModuleKey m = true) :
    m ∉ switchKeys := by
  rcases h with rfl | h
  · decide
  · simp only [isModuleKey, isIncludeTasksKey, Bool.not_eq_true', Bool.or_eq_false_iff,
      decide_eq_false_iff_not] at h
    obtain ⟨⟨⟨h1, h2⟩, h3⟩, h4, h5⟩ := h
    simp [switchKeys, h1, h2, h3, h4, h5]

theorem definedIn_module {env : Env} {records : List Record} {sourcePath : String} {t : Task}
    {file : String} (h : DefinedIn env records sourcePath t file) : t.Module ∉ switchKeys := by
  induction h with
  | own records sourcePath r _ hinc =>
    exact not_mem_switchKeys (foldl_stepKey_module_ok r _ hinc (Or.inl rfl))
  | inlined _ _ _ _ _ _ _ _ _ _ _ _ _ _ _ ih => exact ih

theorem parseTasks_module {env : Env} {fuel : Nat} {records : List Record}
    {sourcePath rolesPath : String} {tasks : List Task}
    (h : parseTasks env fuel records sourcePath rolesPath = some (tasks, none)) {t : Task}
    (ht : t ∈ tasks) : t.Module ∉ switchKeys := by
  obtain ⟨_, hdef, _⟩ := parseTasks_definedIn h ht
  exact definedIn_module hdef

/-- C20 (as amended): every Task of every Play that `LoadPlaybook` returns has
a Module that is none of `name`, `vars`, `loop`, `include_tasks` and
`ansible.builtin.include_tasks`; and a Task whose Module is `include_role` or
`ansible.builtin.include_role` is there only as a Task of the output of
`LoadRoleTasks` for a role that an `include_role` Task names, the Tasks
resolved from the playbook's own records never having such a Module. -/
theorem LoadPlaybook_modules (env : Env) (fuel : Nat) (data playbookPath rolesPath : String)
    (plays : List Play)
    (h : LoadPlaybook env fuel data playbookPath rolesPath = some (plays, none)) :
    ∀ play ∈ plays, ∀ t ∈ play.Tasks,
      t.Module ∉ switchKeys
      ∧ (isIncludeRole t = true →
          ∃ n roleTasks, n ≠ "" ∧ LoadRoleTasks env fuel n rolesPath = some (roleTasks, none)
            ∧ t ∈ roleTasks) := by
  intro play hplay t ht
  cases hdec : env.Unmarshal data with
  | error e =>
    unfold LoadPlaybook at h
    rw [hdec] at h
    simp at h
  | ok rawPlays =>
    obtain ⟨rawPlay, _, items, parsedTasks, _, hp, horigin⟩ :=
      loadPlaybook_task_origin h hdec hplay ht
    rcases horigin with ⟨htp, hnot⟩ | ⟨u, _, _, n, roleTasks, _, hne, hload, htr⟩
    · refine ⟨parseTasks_module hp htp, fun hrole => ?_⟩
      rw [hnot] at hrole
      cases hrole
    · obtain ⟨_, _, _, _, hrp⟩ := loadRoleTasks_ok hload
      exact ⟨parseTasks_module hrp htr, fun _ => ⟨n, roleTasks, hne, hload, htr⟩⟩

set_option maxRecDepth 100000 in
/-- Witness of C20 (as amended): the playbook that includes `myrole`, whose
task file holds an `include_role` record; the Task of that record is in the
Play as a Task of the role's output. -/
theorem LoadPlaybook_modules_witness :
    LoadPlaybook roleWithRoleEnv 0 rolePlayText "playbook.yml" "roles"
        = some ([{ Name := "test play", Hosts := "all",
                   Tasks := [taskOfRecord sayHello "ansible.builtin.debug" "playbook.yml",
                             taskOfRecord roleDebug "ansible.builtin.debug"
                               "roles/myrole/tasks/main.yml",
                             taskOfRecord includeInnerRole "include_role"
                               "roles/myrole/tasks/main.yml",
                             taskOfRecord runShell "ansible.builtin.shell" "playbook.yml"] }],
                none)
    ∧ (taskOfRecord includeInnerRole "include_role" "roles/myrole/tasks/main.yml").Module
        ∉ switchKeys
    ∧ (isIncludeRole (taskOfRecord includeInnerRole "include_role"
          "roles/myrole/tasks/main.yml") = true →
        ∃ n roleTasks, n ≠ ""
          ∧ LoadRoleTasks roleWithRoleEnv 0 n "roles" = some (roleTasks, none)
          ∧ taskOfRecord includeInnerRole "include_role" "roles/myrole/tasks/main.yml"
              ∈ roleTasks) :=
  ⟨rfl, LoadPlaybook_modules roleWithRoleEnv 0 rolePlayText "playbook.yml" "roles" _ rfl
    _ (List.mem_singleton.mpr rfl) _
    (List.mem_cons_of_mem _ (List.mem_cons_of_mem _ (List.mem_cons_self _ _)))⟩

set_option maxRecDepth 100000 in
/-- C20 (counterexample): the task file of `myrole` holds an `include_role`
record; `LoadPlaybook` succeeds and the Play holds a Task whose Module is
`include_role`, a reserved directive key. -/
theorem LoadPlaybook_keeps_include_role_of_role :
    reservedKeys.contains "include_role" = true
    ∧ (LoadPlaybook roleWithRoleEnv 0 rolePlayText "playbook.yml" "roles").map
        (fun res => (res.1.map (fun play => play.Tasks.map (fun t => (t.Module, t.Source))),
          res.2))
      = some ([[("ansible.builtin.debug", "playbook.yml"),
                ("ansible.builtin.debug", "roles/myrole/tasks/main.yml"),
                ("include_role", "roles/myrole/tasks/main.yml"),
                ("ansible.builtin.shell", "playbook.yml")]], none) := by
  decide

/-- C19 (the code at the failing input): `debugThenShell` and `shellThenDebug`
are the same record, with the two non-reserved keys `ansible.builtin.debug` and
`ansible.builtin.shell` and no include key, visited in two orders; `parseTasks`
gives the first the Module `ansible.builtin.shell` and the second the Module
`ansible.builtin.debug`, with the arguments of that module. -/
theorem parseTasks_module_depends_on_key_order :
    List.Perm debugThenShell shellThenDebug
    ∧ KeysUnique debugThenShell
    ∧ hasIncludeTasksKey debugThenShell = false
    ∧ nonReservedKeys debugThenShell = ["ansible.builtin.debug", "ansible.builtin.shell"]
    ∧ (parseTasks emptyEnv 0 [debugThenShell] "playbook.yml" "roles").map
        (fun res => (res.1.map (fun t => (t.Module, t.RawArgs.map Prod.fst)), res.2))
      = some ([("ansible.builtin.shell", ["__value__"])], none)
    ∧ (parseTasks emptyEnv 0 [shellThenDebug] "playbook.yml" "roles").map
        (fun res => (res.1.map (fun t => (t.Module, t.RawArgs.map Prod.fst)), res.2))
      = some ([("ansible.builtin.debug", ["msg"])], none) :=
  ⟨@List.perm_append_comm _
      [("name", Value.str "two modules"),
       ("ansible.builtin.debug", Value.map [("msg", Value.str "hi")])]
      [("ansible.builtin.shell", Value.str "echo hi")],
   by decide, by decide, by decide, by decide, by decide⟩

/-! ## The order of the keys of a record -/

theorem firstInclude_eq_head (r : Record) : firstInclude r = (includeEntries r).head? := by
  induction r with
  | nil => rfl
  | cons kv rest ih =>
    by_cases hk : isIncludeTasksKey kv.1 = true
    · simp [firstInclude, includeEntries, List.find?_cons, List.filter_cons, hk]
    · have hk2 : isIncludeTasksKey kv.1 = false := by simpa using hk
      unfold firstInclude includeEntries at ih ⊢
      simp only [List.find?_cons, List.filter_cons, hk2, Bool.false_eq_true, if_false]
      exact ih

theorem perm_eq_of_length_le_one {α : Type} {l1 l2 : List α} (h : l1.Perm l2)
    (hlen : l1.length ≤ 1) : l1 = l2 := by
  match l1, hlen with
  | [], _ => exact h.nil_eq
  | [a], _ => exact List.singleton_perm.mp h
  | _ :: _ :: _, hlen => simp at hlen

theorem keysUnique_perm {r1 r2 : Record} (h : r1.Perm r2) (hu : KeysUnique r1) :
    KeysUnique r2 := by
  unfold KeysUnique at hu ⊢
  exact (h.map Prod.fst).nodup_iff.mp hu

theorem mapIndex_cons (kv : String × Value) (rest : Record) (k : String) :
    mapIndex (kv :: rest) k = if kv.1 = k then kv.2 else mapIndex rest k := by
  by_cases h : kv.1 = k
  · simp [mapIndex, List.find?_cons, h]
  · simp [mapIndex, List.find?_cons, h]

theorem mapIndex_perm {r1 r2 : Record} (h : r1.Perm r2) (hu : KeysUnique r1) (k : String) :
    mapIndex r1 k = mapIndex r2 k := by
  induction h with
  | nil => rfl
  | cons x _ ih =>
    rw [mapIndex_cons, mapIndex_cons, ih (keysUnique_cons hu).2]
  | swap x y l =>
    rw [mapIndex_cons, mapIndex_cons, mapIndex_cons, mapIndex_cons]
    have hne : x.1 ≠ y.1 := (keysUnique_cons hu).1 x (List.mem_cons_self _ _)
    by_cases hx : x.1 = k
    · by_cases hy : y.1 = k
      · exact absurd (hx.trans hy.symm) hne
      · simp [hx, hy]
    · by_cases hy : y.1 = k
      · simp [hx, hy]
      · simp [hx, hy]
  | trans h1 _ ih1 ih2 =>
    exact (ih1 hu).trans (ih2 (keysUnique_perm h1 hu))

theorem foldl_stepKey_module_of_entries (r : Record) (task : Task)
    (hinc : hasIncludeTasksKey r = false) (hlen : (moduleEntries r).length ≤ 1) :
    (r.foldl stepKey task).Module
        = (match moduleEntries r with
           | [] => task.Module
           | kv :: _ => kv.1)
    ∧ (r.foldl stepKey task).RawArgs
        = (match moduleEntries r with
           | [] => task.RawArgs
           | kv :: _ => moduleArgs kv.2) := by
  cases hm : moduleEntries r with
  | nil => exact foldl_stepKey_noModule r task hinc hm
  | cons kv rest =>
    rw [hm] at hlen
    have hrest : rest = [] := by
      cases rest with
      | nil => rfl
      | cons _ _ => simp at hlen
    subst hrest
    exact foldl_stepKey_oneModule r task kv.1 kv.2 hinc hm

theorem foldl_stepKey_perm {r1 r2 : Record} (h : r1.Perm r2) (hu : KeysUnique r1)
    (hmod : (moduleEntries r1).length ≤ 1) (hinc : hasIncludeTasksKey r1 = false)
    (sourcePath : String) :
    r1.foldl stepKey (initialTask r1 sourcePath)
      = r2.foldl stepKey (initialTask r2 sourcePath) := by
  have eta : ∀ t : Task, t = ⟨t.Name, t.Module, t.RawArgs, t.Vars, t.Loop, t.Source⟩ :=
    fun _ => rfl
  have hu2 := keysUnique_perm h hu
  have hme : moduleEntries r1 = moduleEntries r2 :=
    perm_eq_of_length_le_one (h.filter _) hmod
  have hinc2 : hasIncludeTasksKey r2 = false := by
    rw [← firstInclude_eq_none, firstInclude_eq_head] at hinc ⊢
    have hie : includeEntries r1 = includeEntries r2 := by
      have hnil : includeEntries r1 = [] := by
        cases hi : includeEntries r1 with
        | nil => rfl
        | cons a l => rw [hi] at hinc; simp at hinc
      have hp : (includeEntries r1).Perm (includeEntries r2) := h.filter _
      rw [hnil] at hp ⊢
      exact hp.nil_eq
    rw [← hie]
    exact hinc
  obtain ⟨hm1, ha1⟩ := foldl_stepKey_module_of_entries r1 (initialTask r1 sourcePath) hinc hmod
  obtain ⟨hm2, ha2⟩ := foldl_stepKey_module_of_entries r2 (initialTask r2 sourcePath) hinc2
    (by rw [← hme]; exact hmod)
  rw [eta (r1.foldl stepKey (initialTask r1 sourcePath)),
    eta (r2.foldl stepKey (initialTask r2 sourcePath)), hm1, ha1, hm2, ha2, ← hme,
    foldl_stepKey_Name, foldl_stepKey_Name, foldl_stepKey_Source, foldl_stepKey_Source,
    foldl_stepKey_Vars r1 _ hu, foldl_stepKey_Vars r2 _ hu2,
    foldl_stepKey_Loop r1 _ hu, foldl_stepKey_Loop r2 _ hu2,
    ← mapIndex_perm h hu "vars", ← mapIndex_perm h hu "loop"]
  simp only [initialTask, ← mapIndex_perm h hu "name"]

theorem rangeTaskMap_perm (env : Env)
    (recurse : List Record → String → Option (Returned Task)) (baseDir sourcePath : String)
    {r1 r2 : Record} (h : r1.Perm r2) (hu : KeysUnique r1)
    (hmod : (moduleEntries r1).length ≤ 1) (hinc : (includeEntries r1).length ≤ 1) :
    rangeTaskMap env recurse baseDir r1 (initialTask r1 sourcePath)
      = rangeTaskMap env recurse baseDir r2 (initialTask r2 sourcePath) := by
  have hie : includeEntries r1 = includeEntries r2 :=
    perm_eq_of_length_le_one (h.filter _) hinc
  rw [rangeTaskMap_eq, rangeTaskMap_eq, firstInclude_eq_head, firstInclude_eq_head, ← hie]
  cases hi : (includeEntries r1).head? with
  | some kv => rfl
  | none =>
    simp only
    have hno : hasIncludeTasksKey r1 = false := by
      rw [← firstInclude_eq_none, firstInclude_eq_head]
      exact hi
    rw [foldl_stepKey_perm h hu hmod hno sourcePath]

theorem rangeRawTasks_congr (env : Env)
    (recurse : List Record → String → Option (Returned Task)) (sourcePath baseDir : String)
    (before : List Record) (r1 r2 : Record) (after : List Record) (acc : List Task)
    (h : rangeTaskMap env recurse baseDir r1 (initialTask r1 sourcePath)
      = rangeTaskMap env recurse baseDir r2 (initialTask r2 sourcePath)) :
    rangeRawTasks env recurse sourcePath baseDir (before ++ r1 :: after) acc
      = rangeRawTasks env recurse sourcePath baseDir (before ++ r2 :: after) acc := by
  induction before generalizing acc with
  | nil => simp only [List.nil_append, rangeRawTasks, h]
  | cons r rest ih =>
    simp only [List.cons_append, rangeRawTasks]
    cases rangeTaskMap env recurse baseDir r (initialTask r sourcePath) with
    | none => rfl
    | some out =>
      cases out with
      | returned e => rfl
      | nextTask inc => exact ih _
      | done t => exact ih _

/-- C21 (as amended): for a record with unique keys, at most one key other
than `name`, `vars`, `loop` and the include keys (an `include_role` key counts
as such a key) and at most one of the two include keys, in every file system
and among any other records, the result of `parseTasks`, Task list or error or
no return, is the same for every permutation of the entries of the record. -/
theorem parseTasks_key_order_invariant (env : Env) (fuel : Nat) (before : List Record)
    (r1 r2 : Record) (after : List Record) (sourcePath rolesPath : String)
    (hperm : r1.Perm r2) (hu : KeysUnique r1) (hmod : (moduleEntries r1).length ≤ 1)
    (hinc : (includeEntries r1).length ≤ 1) :
    parseTasks env fuel (before ++ r1 :: after) sourcePath rolesPath
      = parseTasks env fuel (before ++ r2 :: after) sourcePath rolesPath := by
  rw [parseTasks_eq, parseTasks_eq]
  exact rangeRawTasks_congr env _ sourcePath _ before r1 r2 after []
    (rangeTaskMap_perm env _ _ sourcePath hperm hu hmod hinc)

/-- Witness of C21 (as amended): the record `runShell`, with `vars`, `loop`,
`name` and one module key, and the record of an include, each read in the
reverse order. -/
theorem parseTasks_key_order_invariant_witness :
    parseTasks testEnv 1 ([sayHello] ++ runShell :: [includeReal]) "playbook.yml" "roles"
        = parseTasks testEnv 1 ([sayHello] ++ runShell.reverse :: [includeReal])
            "playbook.yml" "roles"
    ∧ parseTasks testEnv 1 ([] ++ includeReal :: []) "playbook.yml" "roles"
        = parseTasks testEnv 1 ([] ++ includeReal.reverse :: []) "playbook.yml" "roles" :=
  ⟨parseTasks_key_order_invariant testEnv 1 [sayHello] runShell runShell.reverse [includeReal]
      "playbook.yml" "roles" (List.reverse_perm runShell).symm (by decide) (by decide)
      (by decide),
   parseTasks_key_order_invariant testEnv 1 [] includeReal includeReal.reverse []
      "playbook.yml" "roles" (List.reverse_perm includeReal).symm (by decide) (by decide)
      (by decide)⟩

/-- C21 (counterexample): the record `debugThenRole` has unique keys, one
non-reserved key and no include key; read in the order given its Task has the
Module `include_role`, read in the reverse order the Module
`ansible.builtin.debug`. -/
theorem parseTasks_differs_between_key_orders :
    List.Perm debugThenRole debugThenRole.reverse
    ∧ KeysUnique debugThenRole
    ∧ (nonReservedKeys debugThenRole).length ≤ 1
    ∧ (includeEntries debugThenRole).length ≤ 1
    ∧ (parseTasks emptyEnv 0 [debugThenRole] "playbook.yml" "roles").map
        (fun res => (res.1.map (fun t => (t.Module, t.RawArgs.map Prod.fst)), res.2))
      = some ([("include_role", ["name"])], none)
    ∧ (parseTasks emptyEnv 0 [debugThenRole.reverse] "playbook.yml" "roles").map
        (fun res => (res.1.map (fun t => (t.Module, t.RawArgs.map Prod.fst)), res.2))
      = some ([("ansible.builtin.debug", ["msg"])], none) :=
  ⟨(List.reverse_perm debugThenRole).symm, by decide, by decide, by decide, by decide,
    by decide⟩

/-! ## The other keys of an include record -/

theorem rangeTaskMap_of_includeEntries (env : Env)
    (recurse : List Record → String → Option (Returned Task)) (baseDir : String) (r : Record)
    (task : Task) (kv : String × Value) (rest : Record) (h : includeEntries r = kv :: rest) :
    rangeTaskMap env recurse baseDir r task = includeOutcome env recurse baseDir kv.2 := by
  rw [rangeTaskMap_eq, firstInclude_eq_head, h]
  rfl

/-- C24: when two records have the same single include key with the same
string value, whatever their other keys (`name`, `vars`, `loop`, a module key),
`parseTasks` gives the same result for both, among any other records; and that
result is the result for the record that holds the include key alone, so that
nothing of the other keys reaches the inlined Tasks. -/
theorem parseTasks_include_ignores_other_keys (env : Env) (fuel : Nat)
    (before : List Record) (r1 r2 : Record) (after : List Record)
    (sourcePath rolesPath k includePath : String)
    (h1 : includeEntries r1 = [(k, Value.str includePath)])
    (h2 : includeEntries r2 = [(k, Value.str includePath)]) :
    parseTasks env fuel (before ++ r1 :: after) sourcePath rolesPath
        = parseTasks env fuel (before ++ r2 :: after) sourcePath rolesPath
    ∧ parseTasks env fuel (before ++ r1 :: after) sourcePath rolesPath
        = parseTasks env fuel (before ++ [(k, Value.str includePath)] :: after)
            sourcePath rolesPath := by
  have hk : isIncludeTasksKey k = true := by
    have hmem : (k, Value.str includePath) ∈ includeEntries r1 := by
      rw [h1]; exact List.mem_singleton_self _
    exact (List.mem_filter.mp hmem).2
  have hbare : includeEntries [(k, Value.str includePath)] = [(k, Value.str includePath)] := by
    simp [includeEntries, List.filter_cons, hk]
  rw [parseTasks_eq, parseTasks_eq, parseTasks_eq]
  constructor
  · apply rangeRawTasks_congr
    rw [rangeTaskMap_of_includeEntries env _ _ r1 _ _ _ h1,
      rangeTaskMap_of_includeEntries env _ _ r2 _ _ _ h2]
  · apply rangeRawTasks_congr
    rw [rangeTaskMap_of_includeEntries env _ _ r1 _ _ _ h1,
      rangeTaskMap_of_includeEntries env _ _ _ _ _ _ hbare]

/-- Witness of C24: the include of `included.yml` with a name only, and with
another name, `vars`, `loop` and a module key. -/
theorem parseTasks_include_ignores_other_keys_witness :
    parseTasks testEnv 1 ([sayHello] ++ includeReal :: [runShell]) "playbook.yml" "roles"
        = parseTasks testEnv 1 ([sayHello] ++ includeRealDressed :: [runShell])
            "playbook.yml" "roles"
    ∧ parseTasks testEnv 1 ([sayHello] ++ includeReal :: [runShell]) "playbook.yml" "roles"
        = parseTasks testEnv 1
            ([sayHello] ++ [("ansible.builtin.include_tasks", Value.str "included.yml")]
              :: [runShell]) "playbook.yml" "roles" :=
  parseTasks_include_ignores_other_keys testEnv 1 [sayHello] includeReal includeRealDressed
    [runShell] "playbook.yml" "roles" "ansible.builtin.include_tasks" "included.yml" rfl rfl

/-! ## The other fields of an include_role Task -/

theorem rangeLoop_congr {α β : Type} (step : α → Option (Returned β)) (before : List α)
    (x1 x2 : α) (after : List α) (acc : List β) (h : step x1 = step x2) :
    rangeLoop step (before ++ x1 :: after) acc = rangeLoop step (before ++ x2 :: after) acc := by
  induction before generalizing acc with
  | nil => simp only [List.nil_append, rangeLoop, h]
  | cons y rest ih =>
    simp only [List.cons_append, rangeLoop]
    cases step y with
    | none => rfl
    | some res =>
      obtain ⟨part, e⟩ := res
      cases e with
      | some err => rfl
      | none => exact ih _

theorem inlineTask_named (env : Env) (fuel : Nat) (rolesPath : String) (t : Task) (n : String)
    (hrole : isIncludeRole t = true) (hname : mapIndex t.RawArgs "name" = Value.str n)
    (hne : n ≠ "") :
    inlineTask env fuel rolesPath t
      = (match LoadRoleTasks env fuel n rolesPath with
         | none => none
         | some (_, some err) =>
           some ([], some (.wrapError
             ("failed to load role " ++ goQuote env.IsPrint n ++ ": " ++ err.Error) err))
         | some (roleTasks, none) => some (roleTasks, none)) := by
  simp only [inlineTask, hrole, hname, safeString, hne, if_true, if_false]

/-- C25: let two playbooks decode to the same play records but for one play
record, whose task records resolve without error to the same Tasks but for one
`include_role` Task; let the two `include_role` Tasks have the same non-empty
string under `name` in their RawArgs, whatever their Name, Vars, Loop, Source
and other arguments.  Then `LoadPlaybook` gives the same result for both
playbooks; and where `LoadRoleTasks` succeeds for that name, its output is
exactly what the loop over the Tasks appends for the `include_role` Task. -/
theorem LoadPlaybook_ignores_other_fields_of_include_role (env : Env) (fuel : Nat)
    (data1 data2 playbookPath rolesPath : String) (playsBefore : List Record)
    (rawPlay1 rawPlay2 : Record) (playsAfter : List Record) (items1 items2 : List Value)
    (tasksBefore : List Task) (t1 t2 : Task) (tasksAfter : List Task) (n : String)
    (hdec1 : env.Unmarshal data1 = .ok (playsBefore ++ rawPlay1 :: playsAfter))
    (hdec2 : env.Unmarshal data2 = .ok (playsBefore ++ rawPlay2 :: playsAfter))
    (hplayName : mapIndex rawPlay1 "name" = mapIndex rawPlay2 "name")
    (hplayHosts : mapIndex rawPlay1 "hosts" = mapIndex rawPlay2 "hosts")
    (htasks1 : mapIndex rawPlay1 "tasks" = Value.seq items1)
    (htasks2 : mapIndex rawPlay2 "tasks" = Value.seq items2)
    (hparse1 : parseTasks env fuel (rawTaskMaps items1) playbookPath rolesPath
      = some (tasksBefore ++ t1 :: tasksAfter, none))
    (hparse2 : parseTasks env fuel (rawTaskMaps items2) playbookPath rolesPath
      = some (tasksBefore ++ t2 :: tasksAfter, none))
    (hrole1 : isIncludeRole t1 = true) (hrole2 : isIncludeRole t2 = true)
    (hname1 : mapIndex t1.RawArgs "name" = Value.str n)
    (hname2 : mapIndex t2.RawArgs "name" = Value.str n) (hne : n ≠ "") :
    LoadPlaybook env fuel data1 playbookPath rolesPath
        = LoadPlaybook env fuel data2 playbookPath rolesPath
    ∧ ∀ roleTasks, LoadRoleTasks env fuel n rolesPath = some (roleTasks, none) →
        ∀ rest playTasks,
          rangeParsedTasks env fuel rolesPath (t1 :: rest) playTasks
            = rangeParsedTasks env fuel rolesPath rest (playTasks ++ roleTasks) := by
  have hstep : inlineTask env fuel rolesPath t1 = inlineTask env fuel rolesPath t2 := by
    rw [inlineTask_named env fuel rolesPath t1 n hrole1 hname1 hne,
      inlineTask_named env fuel rolesPath t2 n hrole2 hname2 hne]
  constructor
  · unfold LoadPlaybook
    rw [hdec1, hdec2]
    simp only
    rw [rangeRawPlays_eq, rangeRawPlays_eq]
    apply rangeLoop_congr
    unfold resolvePlay
    simp only [htasks1, htasks2, hparse1, hparse2, hplayName, hplayHosts]
    rw [rangeParsedTasks_eq, rangeParsedTasks_eq,
      rangeLoop_congr _ tasksBefore t1 t2 tasksAfter [] hstep]
  · intro roleTasks hload rest playTasks
    rw [rangeParsedTasks_eq, rangeParsedTasks_eq, rangeLoop,
      inlineTask_named env fuel rolesPath t1 n hrole1 hname1 hne, hload]

set_option maxRecDepth 100000 in
/-- Witness of C25: the include of `myrole` written with the long key and a
name only, and with the short key, another name, `vars`, `loop` and a further
argument; both playbooks resolve to the same Play. -/
theorem LoadPlaybook_ignores_other_fields_of_include_role_witness :
    LoadPlaybook twoPlaybooksEnv 0 rolePlayText "playbook.yml" "roles"
        = LoadPlaybook twoPlaybooksEnv 0 rolePlayDressedText "playbook.yml" "roles"
    ∧ LoadPlaybook twoPlaybooksEnv 0 rolePlayDressedText "playbook.yml" "roles"
        = some ([{ Name := "test play", Hosts := "all",
                   Tasks := [taskOfRecord sayHello "ansible.builtin.debug" "playbook.yml",
                             taskOfRecord roleDebug "ansible.builtin.debug"
                               "roles/myrole/tasks/main.yml",
                             taskOfRecord runShell "ansible.builtin.shell" "playbook.yml"] }],
                none) :=
  ⟨(LoadPlaybook_ignores_other_fields_of_include_role twoPlaybooksEnv 0 rolePlayText
      rolePlayDressedText "playbook.yml" "roles" [] rolePlay rolePlayDressed []
      [.map sayHello, .map includeRealRole, .map runShell]
      [.map sayHello, .map includeRealRoleDressed, .map runShell]
      [taskOfRecord sayHello "ansible.builtin.debug" "playbook.yml"]
      { Name := "include real role", Module := "ansible.builtin.include_role",
        RawArgs := [("name", .str "myrole")], Vars := [], Loop := "",
        Source := "playbook.yml" }
      { Name := "another name", Module := "include_role",
        RawArgs := [("tasks_from", .str "main"), ("name", .str "myrole")],
        Vars := [("message", .str "hello")], Loop := "items", Source := "playbook.yml" }
      [taskOfRecord runShell "ansible.builtin.shell" "playbook.yml"] "myrole"
      rfl rfl rfl rfl rfl rfl rfl rfl rfl rfl rfl rfl (by decide)).1,
   rfl⟩

/-! ## include_tasks errors before include_role errors -/

/-- C26 (as amended): when the play records before a play record resolve
without error and `parseTasks` fails on the task records of that play record,
`LoadPlaybook` returns no plays and that error, one of the three errors of
`include_tasks`, whatever `include_role` Tasks stand before the failing record
in the play: no role is loaded and no role name is looked at before all the
records of the play are resolved. -/
theorem LoadPlaybook_include_tasks_error_first (env : Env) (fuel : Nat)
    (data playbookPath rolesPath : String) (playsBefore : List Record) (rawPlay : Record)
    (playsAfter : List Record) (plays : List Play) (items : List Value) (tasks : List Task)
    (err : GoError)
    (hdec : env.Unmarshal data = .ok (playsBefore ++ rawPlay :: playsAfter))
    (hplays : rangeRawPlays env fuel playbookPath rolesPath playsBefore [] = some (plays, none))
    (htasks : mapIndex rawPlay "tasks" = Value.seq items)
    (hparse : parseTasks env fuel (rawTaskMaps items) playbookPath rolesPath
      = some (tasks, some err)) :
    LoadPlaybook env fuel data playbookPath rolesPath = some ([], some err)
      ∧ IncludeError err := by
  refine ⟨?_, (parseTasks_error hparse).2⟩
  unfold LoadPlaybook
  rw [hdec]
  simp only
  rw [rangeRawPlays_eq] at hplays ⊢
  rw [rangeLoop_append _ playsBefore (rawPlay :: playsAfter) [] plays hplays, rangeLoop]
  unfold resolvePlay
  simp only [htasks, hparse]

set_option maxRecDepth 100000 in
/-- Witness of C26 (as amended): a play with a nameless `include_role`, a task
and then a bad `include_tasks`; the error is that of `include_tasks`. -/
theorem LoadPlaybook_include_tasks_error_first_witness :
    LoadPlaybook roleThenBadIncludeEnv 0 roleThenBadIncludeText "playbook.yml" "roles"
        = some ([], some (.newError "include_tasks path must be a string"))
    ∧ IncludeError (.newError "include_tasks path must be a string") :=
  LoadPlaybook_include_tasks_error_first roleThenBadIncludeEnv 0 roleThenBadIncludeText
    "playbook.yml" "roles" [] roleThenBadIncludePlay [] []
    [.map includeRoleEmpty, .map sayHello, .map badInclude] [] _ rfl rfl rfl rfl

set_option maxRecDepth 100000 in
/-- C26 (counterexample): the second play holds a nameless `include_role`
followed by a record whose `include_tasks` fails, but the first play holds a
nameless `include_role` too, and `LoadPlaybook` returns the error of the role
of the first play, not the error of `include_tasks`. -/
theorem LoadPlaybook_earlier_play_error_first :
    twoFailingPlaysEnv.Unmarshal twoFailingPlaysText
        = .ok [roleEmptyPlay, roleThenBadIncludePlay]
    ∧ parseTasks twoFailingPlaysEnv 0 [includeRoleEmpty, sayHello, badInclude] "playbook.yml"
          "roles"
        = some ([], some (.newError "include_tasks path must be a string"))
    ∧ LoadPlaybook twoFailingPlaysEnv 0 twoFailingPlaysText "playbook.yml" "roles"
        = some ([], some (.newError "include_role task is missing 'name': map[]")) :=
  ⟨rfl, rfl, rfl⟩

/-! ## Termination -/

theorem rangeRawTasks_returns (env : Env)
    (recurse : List Record → String → Option (Returned Task)) (sourcePath baseDir : String)
    (records : List Record) (acc : List Task)
    (h : ∀ r ∈ records, ∀ k includePath data includedRaw,
      (k, Value.str includePath) ∈ r → isIncludeTasksKey k = true →
      env.ReadFile (env.Join [baseDir, includePath]) = .ok data →
      env.Unmarshal data = .ok includedRaw →
      ∃ res, recurse includedRaw (env.Join [baseDir, includePath]) = some res) :
    ∃ res, rangeRawTasks env recurse sourcePath baseDir records acc = some res := by
  induction records generalizing acc with
  | nil => exact ⟨_, rfl⟩
  | cons r rest ih =>
    have hrest := fun acc1 => ih acc1 (fun x hx => h x (List.mem_cons_of_mem _ hx))
    rw [rangeRawTasks, rangeTaskMap_eq]
    cases hf : firstInclude r with
    | none => exact hrest _
    | some kv =>
      obtain ⟨hmem, hkey⟩ := firstInclude_some hf
      obtain ⟨k, v⟩ := kv
      cases v with
      | str includePath =>
        simp only [includeOutcome]
        cases hr : env.ReadFile (env.Join [baseDir, includePath]) with
        | error e => exact ⟨_, rfl⟩
        | ok data =>
          simp only
          cases hu : env.Unmarshal data with
          | error e => exact ⟨_, rfl⟩
          | ok includedRaw =>
            simp only
            obtain ⟨res, hres⟩ := h r (List.mem_cons_self _ _) k includePath data includedRaw
              hmem hkey hr hu
            rw [hres]
            obtain ⟨ts, e⟩ := res
            cases e with
            | some err => exact ⟨_, rfl⟩
            | none => exact hrest _
      | _ => exact ⟨_, rfl⟩

theorem parseTasks_returns_of_bound (env : Env) (rolesPath : String) (d : Nat)
    (records : List Record) (sourcePath : String)
    (h : ∀ chain, Chain env records sourcePath chain → chain.length ≤ d) :
    ∃ res, parseTasks env d records sourcePath rolesPath = some res := by
  induction d generalizing records sourcePath with
  | zero =>
    rw [parseTasks_eq]
    apply rangeRawTasks_returns
    intro r hr k includePath data includedRaw hmem hkey hread hdec
    have := h _ (.cons records sourcePath r k includePath data includedRaw [] hr hmem hkey
      hread hdec (.nil _ _))
    simp at this
  | succ n ih =>
    rw [parseTasks_eq]
    apply rangeRawTasks_returns
    intro r hr k includePath data includedRaw hmem hkey hread hdec
    apply ih
    intro chain hchain
    have := h _ (.cons records sourcePath r k includePath data includedRaw chain hr hmem hkey
      hread hdec hchain)
    simpa using this

theorem exists_longest_chain (env : Env) (records : List Record) (sourcePath : String)
    (n : Nat) (h : ∀ chain, Chain env records sourcePath chain → chain.length ≤ n) :
    ∃ d, (∃ chain, Chain env records sourcePath chain ∧ chain.length = d)
      ∧ ∀ chain, Chain env records sourcePath chain → chain.length ≤ d := by
  induction n with
  | zero => exact ⟨0, ⟨[], .nil _ _, rfl⟩, h⟩
  | succ m ih =>
    by_cases hex : ∃ chain, Chain env records sourcePath chain ∧ chain.length = m + 1
    · exact ⟨m + 1, hex, h⟩
    · apply ih
      intro chain hchain
      have h1 := h chain hchain
      have h2 : chain.length ≠ m + 1 := fun heq => hex ⟨chain, hchain, heq⟩
      omega

/-- C22: when the files reachable through `include_tasks` from the input
records are among finitely many and no include chain reaches a file twice,
there is a longest include chain, of some length `d`, and for every fuel from
`d` on, that is with the nesting of recursive calls bounded by the length of
the longest include chain, `parseTasks` returns, a Task list or an error. -/
theorem parseTasks_terminates_on_acyclic_includes (env : Env) (records : List Record)
    (sourcePath rolesPath : String) (files : List String)
    (hacyclic : ∀ chain, Chain env records sourcePath chain →
      chain.Nodup ∧ ∀ q ∈ chain, q ∈ files) :
    ∃ d, (∃ chain, Chain env records sourcePath chain ∧ chain.length = d)
      ∧ (∀ chain, Chain env records sourcePath chain → chain.length ≤ d)
      ∧ ∀ fuel, d ≤ fuel →
          (∃ tasks, parseTasks env fuel records sourcePath rolesPath = some (tasks, none))
          ∨ (∃ err, parseTasks env fuel records sourcePath rolesPath
              = some ([], some err)) := by
  have hbound : ∀ chain, Chain env records sourcePath chain → chain.length ≤ files.length := by
    intro chain hchain
    obtain ⟨hnodup, hsub⟩ := hacyclic chain hchain
    exact (List.subperm_of_subset hnodup hsub).length_le
  obtain ⟨d, hmax, hle⟩ := exists_longest_chain env records sourcePath files.length hbound
  refine ⟨d, hmax, hle, fun fuel hfuel => ?_⟩
  obtain ⟨res, hres⟩ := parseTasks_returns_of_bound env rolesPath d records sourcePath hle
  have hres2 := parseTasks_mono hfuel hres
  obtain ⟨ts, e⟩ := res
  cases e with
  | none => exact Or.inl ⟨ts, hres2⟩
  | some err =>
    have hnil := (parseTasks_error hres2).1
    subst hnil
    exact Or.inr ⟨err, hres2⟩

/-! ## A file that includes itself -/

theorem rangeRawTasks_append_none (env : Env)
    (recurse : List Record → String → Option (Returned Task))
    (sourcePath baseDir : String) (before after : List Record) (acc : List Task)
    (h : rangeRawTasks env recurse sourcePath baseDir before acc = none) :
    rangeRawTasks env recurse sourcePath baseDir (before ++ after) acc = none := by
  induction before generalizing acc with
  | nil => simp [rangeRawTasks] at h
  | cons r rest ih =>
    rw [List.cons_append, rangeRawTasks]
    rw [rangeRawTasks] at h
    cases hk : rangeTaskMap env recurse baseDir r (initialTask r sourcePath) with
    | none => rfl
    | some out =>
      rw [hk] at h
      cases out with
      | returned e => simp at h
      | nextTask inc => exact ih _ h
      | done t => exact ih _ h

theorem rangeRawTasks_no_error (env : Env)
    (recurse : List Record → String → Option (Returned Task)) (sourcePath baseDir : String)
    (records : List Record) (acc : List Task)
    (h : ∀ r ∈ records, ∀ kv ∈ includeEntries r,
      ∃ includePath data includedRaw,
        kv.2 = Value.str includePath
        ∧ env.ReadFile (env.Join [baseDir, includePath]) = .ok data
        ∧ env.Unmarshal data = .ok includedRaw
        ∧ ∀ out err, recurse includedRaw (env.Join [baseDir, includePath])
            ≠ some (out, some err)) :
    ∀ out err, rangeRawTasks env recurse sourcePath baseDir records acc
      ≠ some (out, some err) := by
  induction records generalizing acc with
  | nil =>
    intro out err hres
    simp [rangeRawTasks] at hres
  | cons r rest ih =>
    have hrest := fun acc1 => ih acc1 (fun x hx => h x (List.mem_cons_of_mem _ hx))
    rw [rangeRawTasks, rangeTaskMap_eq]
    cases hf : firstInclude r with
    | none => exact hrest _
    | some kv =>
      obtain ⟨hmem, hkey⟩ := firstInclude_some hf
      obtain ⟨includePath, data, includedRaw, hv, hread, hdec, hrec⟩ :=
        h r (List.mem_cons_self _ _) kv (List.mem_filter.mpr ⟨hmem, hkey⟩)
      simp only
      rw [hv, includeOutcome_recurse env recurse baseDir includePath data includedRaw hread hdec]
      cases hr : recurse includedRaw (env.Join [baseDir, includePath]) with
      | none =>
        intro out err hres
        simp at hres
      | some res =>
        obtain ⟨ts, e⟩ := res
        cases e with
        | some err1 => exact absurd hr (hrec ts err1)
        | none => exact hrest _

theorem parseTasks_no_error (env : Env) (rolesPath : String) (fuel : Nat)
    (records : List Record) (sourcePath : String)
    (h : SoundIncludes env (fuel + 1) records sourcePath) :
    ∀ out err, parseTasks env fuel records sourcePath rolesPath ≠ some (out, some err) := by
  induction fuel generalizing records sourcePath with
  | zero =>
    rw [parseTasks_eq]
    apply rangeRawTasks_no_error
    intro r hr kv hkv
    rw [SoundIncludes] at h
    obtain ⟨includePath, data, includedRaw, hv, hread, hdec, _⟩ := h r hr kv hkv
    refine ⟨includePath, data, includedRaw, hv, hread, hdec, ?_⟩
    intro out err hres
    simp [recurseWith] at hres
  | succ n ih =>
    rw [parseTasks_eq]
    apply rangeRawTasks_no_error
    intro r hr kv hkv
    rw [SoundIncludes] at h
    obtain ⟨includePath, data, includedRaw, hv, hread, hdec, hs⟩ := h r hr kv hkv
    exact ⟨includePath, data, includedRaw, hv, hread, hdec, ih includedRaw _ hs⟩

/-- C23 (as amended): let the file `F` be readable and decode to records among
which the record `r` has exactly one include key, with a string value that
resolves back to `F`, and let every include key met from the records before
`r`, at any include depth, have a string value naming a file that is read and
decoded, so that these records return no error in whatever order the keys of a
record are visited.  Then resolving the records of `F` returns nothing, neither
a Task list nor an error, whatever the fuel: every bound on the depth of the
recursive calls is used up by a further call. -/
theorem parseTasks_self_include_never_returns (env : Env) (before : List Record) (r : Record)
    (after : List Record) (file rolesPath k includePath data : String)
    (hread : env.ReadFile file = .ok data)
    (hdec : env.Unmarshal data = .ok (before ++ r :: after))
    (hbefore : ∀ d, SoundIncludes env d before file)
    (hf : includeEntries r = [(k, Value.str includePath)])
    (hself : env.Join [env.Dir file, includePath] = file) :
    ∀ fuel, parseTasks env fuel (before ++ r :: after) file rolesPath = none := by
  have hfirst : firstInclude r = some (k, Value.str includePath) := by
    rw [firstInclude_eq_head, hf]
    rfl
  have hstep : ∀ fuel tasks,
      rangeRawTasks env (recurseWith env rolesPath fuel) file (env.Dir file) before []
        = some (tasks, none) →
      parseTasks env fuel (before ++ r :: after) file rolesPath
        = (match recurseWith env rolesPath fuel (before ++ r :: after) file with
           | none => none
           | some (_, some err) => some ([], some err)
           | some (includedTasks, none) =>
             rangeRawTasks env (recurseWith env rolesPath fuel) file (env.Dir file) after
               (tasks ++ includedTasks)) := by
    intro fuel tasks hb
    rw [parseTasks_eq, rangeRawTasks_append env _ _ _ before (r :: after) [] tasks hb,
      rangeRawTasks, rangeTaskMap_eq, hfirst]
    simp only
    rw [includeOutcome_recurse env _ _ includePath data (before ++ r :: after)
      (by rw [hself]; exact hread) hdec, hself]
    cases recurseWith env rolesPath fuel (before ++ r :: after) file with
    | none => rfl
    | some res =>
      obtain ⟨ts, e⟩ := res
      cases e <;> rfl
  have hcases : ∀ fuel,
      rangeRawTasks env (recurseWith env rolesPath fuel) file (env.Dir file) before [] = none
      ∨ ∃ tasks, rangeRawTasks env (recurseWith env rolesPath fuel) file (env.Dir file)
          before [] = some (tasks, none) := by
    intro fuel
    have hno := parseTasks_no_error env rolesPath fuel before file (hbefore (fuel + 1))
    rw [parseTasks_eq] at hno
    cases hb : rangeRawTasks env (recurseWith env rolesPath fuel) file (env.Dir file)
        before [] with
    | none => exact Or.inl rfl
    | some res =>
      obtain ⟨ts, e⟩ := res
      cases e with
      | some err => exact absurd hb (hno ts err)
      | none => exact Or.inr ⟨ts, rfl⟩
  intro fuel
  induction fuel with
  | zero =>
    rcases hcases 0 with hb | ⟨tasks, hb⟩
    · rw [parseTasks_eq]
      exact rangeRawTasks_append_none env _ _ _ before _ [] hb
    · rw [hstep 0 tasks hb]
      rfl
  | succ n ih =>
    rcases hcases (n + 1) with hb | ⟨tasks, hb⟩
    · rw [parseTasks_eq]
      exact rangeRawTasks_append_none env _ _ _ before _ [] hb
    · rw [hstep (n + 1) tasks hb]
      simp only [recurseWith, ih]

theorem loopEnv_soundIncludes (d : Nat) :
    SoundIncludes loopEnv d [sayHello, includeReal] "loop.yml" := by
  cases d with
  | zero => exact trivial
  | succ n =>
    rw [SoundIncludes]
    intro r hr kv hkv
    rcases List.mem_cons.mp hr with rfl | hr1
    · have hno : includeEntries sayHello = [] := rfl
      rw [hno] at hkv
      cases hkv
    · rw [List.mem_singleton] at hr1
      subst hr1
      have hone : includeEntries includeReal
          = [("ansible.builtin.include_tasks", Value.str "included.yml")] := rfl
      rw [hone, List.mem_singleton] at hkv
      subst hkv
      refine ⟨"included.yml", includedText, [sayHi], rfl, rfl, rfl, ?_⟩
      cases n with
      | zero => exact trivial
      | succ m =>
        rw [SoundIncludes]
        intro r hr kv hkv
        rw [List.mem_singleton] at hr
        subst hr
        have hno : includeEntries sayHi = [] := rfl
        rw [hno] at hkv
        cases hkv

set_option maxRecDepth 100000 in
/-- Witness of C23 (as amended): `loop.yml` holds a task, the include of
`included.yml`, and then a record with a name and the include of `loop.yml`;
with no fuel the call does not return. -/
theorem parseTasks_self_include_never_returns_witness :
    loopEnv.ReadFile "loop.yml" = .ok loopText
    ∧ loopEnv.Unmarshal loopText = .ok ([sayHello, includeReal] ++ includeLoop :: [])
    ∧ (∀ d, SoundIncludes loopEnv d [sayHello, includeReal] "loop.yml")
    ∧ includeEntries includeLoop = [("include_tasks", Value.str "loop.yml")]
    ∧ loopEnv.Join [loopEnv.Dir "loop.yml", "loop.yml"] = "loop.yml"
    ∧ ∀ fuel, parseTasks loopEnv fuel ([sayHello, includeReal] ++ includeLoop :: [])
        "loop.yml" "roles" = none :=
  ⟨rfl, rfl, loopEnv_soundIncludes, rfl, by decide,
   parseTasks_self_include_never_returns loopEnv [sayHello, includeReal] includeLoop []
    "loop.yml" "roles" "include_tasks" "loop.yml" loopText rfl rfl loopEnv_soundIncludes rfl
    (by decide)⟩

set_option maxRecDepth 100000 in
/-- C23 (counterexample): `self.yml` and `late.yml` are readable and each holds
an `include_tasks` that resolves back to the file itself.  In `self.yml` the
record has the other include key too, visited first, and resolving the file
returns a Task list; in `late.yml` a bad include stands before the
self-include, and resolving the file returns its error with no fuel at all,
that is without any recursive call. -/
theorem parseTasks_returns_despite_self_include :
    selfEnv.ReadFile "self.yml" = .ok selfText
    ∧ selfEnv.Unmarshal selfText = .ok [bothSelf]
    ∧ safeString (mapIndex bothSelf "include_tasks") = "self.yml"
    ∧ selfEnv.Join [selfEnv.Dir "self.yml", "self.yml"] = "self.yml"
    ∧ (parseTasks selfEnv 1 [bothSelf] "self.yml" "roles").map
        (fun res => (res.1.map (fun t => (t.Name, t.Source)), res.2))
      = some ([("included | say hi", "included.yml")], none)
    ∧ selfEnv.ReadFile "late.yml" = .ok lateText
    ∧ selfEnv.Unmarshal lateText = .ok [badInclude, includeLate]
    ∧ safeString (mapIndex includeLate "include_tasks") = "late.yml"
    ∧ selfEnv.Join [selfEnv.Dir "late.yml", "late.yml"] = "late.yml"
    ∧ parseTasks selfEnv 0 [badInclude, includeLate] "late.yml" "roles"
      = some ([], some (.newError "include_tasks path must be a string")) :=
  ⟨rfl, rfl, by decide, by decide, by decide, rfl, rfl, by decide, by decide, rfl⟩

/-! ## The include chains of the example of the tests -/

theorem mem_flatMap_includeEntries {records : List Record} {r : Record} {k : String}
    {v : Value} (hr : r ∈ records) (hmem : (k, v) ∈ r) (hkey : isIncludeTasksKey k = true) :
    (k, v) ∈ records.flatMap includeEntries :=
  List.mem_flatMap.mpr ⟨r, hr, List.mem_filter.mpr ⟨hmem, hkey⟩⟩

theorem chain_cons_inv {env : Env} {records : List Record} {sourcePath q : String}
    {rest : List String} (h : Chain env records sourcePath (q :: rest)) :
    ∃ k includePath data includedRaw,
      (k, Value.str includePath) ∈ records.flatMap includeEntries
      ∧ q = env.Join [env.Dir sourcePath, includePath]
      ∧ env.ReadFile q = .ok data ∧ env.Unmarshal data = .ok includedRaw
      ∧ Chain env includedRaw q rest := by
  cases h with
  | cons _ _ r k includePath data includedRaw _ hr hmem hkey hread hdec hrest =>
    exact ⟨k, includePath, data, includedRaw, mem_flatMap_includeEntries hr hmem hkey, rfl,
      hread, hdec, hrest⟩

theorem chain_nil_of_no_include {env : Env} {records : List Record} {sourcePath : String}
    {chain : List String} (hno : records.flatMap includeEntries = [])
    (h : Chain env records sourcePath chain) : chain = [] := by
  cases chain with
  | nil => rfl
  | cons q rest =>
    obtain ⟨k, includePath, _, _, hmem, _⟩ := chain_cons_inv h
    rw [hno] at hmem
    cases hmem

theorem testEnv_chains (chain : List String)
    (h : Chain testEnv [sayHello, includeReal] "playbook.yml" chain) :
    chain.Nodup ∧ ∀ q ∈ chain, q ∈ ["included.yml"] := by
  cases chain with
  | nil => exact ⟨List.nodup_nil, fun q hq => absurd hq (List.not_mem_nil q)⟩
  | cons q rest =>
    obtain ⟨k, includePath, data, includedRaw, hmem, hq, hread, hdec, hrest⟩ := chain_cons_inv h
    have hentries : [sayHello, includeReal].flatMap includeEntries
        = [("ansible.builtin.include_tasks", Value.str "included.yml")] := rfl
    rw [hentries, List.mem_singleton] at hmem
    simp only [Prod.mk.injEq, Value.str.injEq] at hmem
    obtain ⟨rfl, rfl⟩ := hmem
    have hq2 : q = "included.yml" := hq
    subst hq2
    have hdata : data = includedText := by
      have h0 : testEnv.ReadFile "included.yml" = .ok includedText := rfl
      rw [h0] at hread
      exact (Except.ok.inj hread).symm
    subst hdata
    have hraw : includedRaw = [sayHi] := by
      have h0 : testEnv.Unmarshal includedText = .ok [sayHi] := rfl
      rw [h0] at hdec
      exact (Except.ok.inj hdec).symm
    subst hraw
    have hno : [sayHi].flatMap includeEntries = [] := rfl
    have hnil : rest = [] := chain_nil_of_no_include hno hrest
    subst hnil
    exact ⟨List.nodup_singleton _, fun q hq => hq⟩

/-- Witness of C22: the playbook of the tests that includes `included.yml`,
whose only include chains are the empty one and the one to `included.yml`. -/
theorem parseTasks_terminates_on_acyclic_includes_witness :
    ∃ d, (∃ chain, Chain testEnv [sayHello, includeReal] "playbook.yml" chain
          ∧ chain.length = d)
      ∧ (∀ chain, Chain testEnv [sayHello, includeReal] "playbook.yml" chain →
          chain.length ≤ d)
      ∧ ∀ fuel, d ≤ fuel →
          (∃ tasks, parseTasks testEnv fuel [sayHello, includeReal] "playbook.yml" "roles"
              = some (tasks, none))
          ∨ (∃ err, parseTasks testEnv fuel [sayHello, includeReal] "playbook.yml" "roles"
              = some ([], some err)) :=
  parseTasks_terminates_on_acyclic_includes testEnv [sayHello, includeReal] "playbook.yml"
    "roles" ["included.yml"] testEnv_chains

end Gansible
